import Mathlib

/-!
Shallow embedding of `monbot/cache2.py`: the tiered image cache
(`_LRU`, `ImageCache2.get_or_produce`, `ImageCache2.remember_file_id`,
`ImageCache2._janitor`, `ImageCache2._key_str`, `ImageCache2._digest`),
together with proofs about the claims of the specification.

Modelling conventions:
* Python byte strings are `List Nat` (one `Nat` per byte).
* Python `time.time()` floats are rationals (`ℚ`); only ordering and
  addition of timestamps occur in the source.
* `collections.OrderedDict` is an association list whose head is the
  least-recently-used end (`popitem(last=False)` pops the head) and whose
  tail is the most-recently-used end (`move_to_end` moves to the tail).
* The L2 disk tier is a pair of association lists keyed by the cache key:
  one for blob files (`<digest>.png`) and one for metadata files
  (`<digest>.json`); `os.replace` of a fully written temp file is an
  atomic update of the association list.
* Python's arbitrary-precision `int` arithmetic on `current_bytes` is
  mirrored with `Int`.
-/

namespace Monbot

/-- Raw artifact bytes (`bytes` in Python), one `Nat` per byte. -/
abbrev Bytes := List Nat

/-- Timestamps (`time.time()` values), modelled as rationals. -/
abbrev Time := ℚ

/-- Association-list lookup, mirroring `dict.get`. -/
def alookup {α : Type} (k : String) : List (String × α) → Option α
  | [] => none
  | (k', v) :: rest => if k' = k then some v else alookup k rest

/-- Remove every binding of `k`, mirroring `dict.pop` on a dict with unique keys. -/
def aremove {α : Type} (k : String) : List (String × α) → List (String × α)
  | [] => []
  | (k', v) :: rest => if k' = k then aremove k rest else (k', v) :: aremove k rest

/-- Insert-or-replace a binding, mirroring a file write via `os.replace`. -/
def ainsert {α : Type} (k : String) (v : α) (l : List (String × α)) :
    List (String × α) :=
  aremove k l ++ [(k, v)]

/-- One L1 entry: `key -> (file_id, bytes, expiry_ts, size_bytes)` (cache2.py line 27). -/
structure L1Val where
  file_id : Option String
  data : Option Bytes
  expiry_ts : Time
  size_bytes : Nat
deriving Repr, DecidableEq

/-- The `_LRU` class state (cache2.py lines 22-27). -/
structure LRU where
  max_bytes : Nat
  current_bytes : Int
  od : List (String × L1Val)
deriving Repr, DecidableEq

/-- `_LRU.__init__`. -/
def LRU.empty (mx : Nat) : LRU := ⟨mx, 0, []⟩

/-- `_LRU.get` (lines 29-35): return the entry and move it to the MRU end. -/
def LRU.get (l : LRU) (k : String) : Option L1Val × LRU :=
  match alookup k l.od with
  | none => (none, l)
  | some v => (some v, ⟨l.max_bytes, l.current_bytes, aremove k l.od ++ [(k, v)]⟩)

/-- The `while` loop of `_LRU._evict` (lines 54-57): pop the LRU end while
`current_bytes > max_bytes` and the dict is nonempty. -/
def evictLoop (mx : Nat) : List (String × L1Val) → Int → List (String × L1Val) × Int
  | [], cur => ([], cur)
  | (k, v) :: rest, cur =>
    if (mx : Int) < cur then evictLoop mx rest (cur - (v.size_bytes : Int))
    else ((k, v) :: rest, cur)

/-- `_LRU.put` (lines 37-44): replace any existing entry, append at the MRU
end, update the byte total, then evict. -/
def LRU.put (l : LRU) (k : String) (fid : Option String) (data : Option Bytes)
    (exp : Time) : LRU :=
  let size : Nat := (data.map List.length).getD 0
  let od₁ : List (String × L1Val) :=
    match alookup k l.od with
    | some _ => aremove k l.od
    | none => l.od
  let cur₁ : Int :=
    match alookup k l.od with
    | some old => l.current_bytes - (old.size_bytes : Int)
    | none => l.current_bytes
  let od₂ := od₁ ++ [(k, ⟨fid, data, exp, size⟩)]
  let cur₂ := cur₁ + (size : Int)
  let res := evictLoop l.max_bytes od₂ cur₂
  ⟨l.max_bytes, res.2, res.1⟩

/-- `_LRU.set_file_id` (lines 46-52): no-op when absent; otherwise attach the
file id, keep data/expiry/size, and move to the MRU end. -/
def LRU.set_file_id (l : LRU) (k : String) (fid : String) : LRU :=
  match alookup k l.od with
  | none => l
  | some v =>
      ⟨l.max_bytes, l.current_bytes,
        aremove k l.od ++ [(k, ⟨some fid, v.data, v.expiry_ts, v.size_bytes⟩)]⟩

/-- `_is_fresh` (lines 60-61). -/
def isFresh (now exp : Time) : Bool := decide (now < exp)

/-- Python truthiness of an optional string (`if file_id:`):
`None` and the empty string are falsy. -/
def truthyStr : Option String → Bool
  | none => false
  | some s => decide (s ≠ "")

/-- Sum of `size_bytes` over all L1 entries. -/
def sumBytes (od : List (String × L1Val)) : Nat :=
  (od.map (fun p => p.2.size_bytes)).sum

/-- Well-formedness of an `_LRU`: unique keys and an accurate byte counter.
Both hold from construction on. -/
def LRU.WF (l : LRU) : Prop :=
  (l.od.map Prod.fst).Nodup ∧ l.current_bytes = (sumBytes l.od : Int)

/-- `CacheResult` (cache2.py lines 14-19); `path` holds the key naming the
blob file when set. -/
structure CacheResult where
  file_id : Option String
  data : Option Bytes
  path : Option String
deriving Repr, DecidableEq

/-- One L2 metadata record (a JSON dict); every field is optional because the
source reads them with `dict.get`. -/
structure MetaRec where
  expiry_ts : Option Time
  file_id : Option String
  byte_len : Option Nat
  created_ts : Option Time
  last_used_ts : Option Time
deriving Repr, DecidableEq

/-- The cache state visible to the facade: the L1 tier plus the two kinds of
L2 files (blob `<digest>.png` and metadata `<digest>.json`). -/
structure CacheState where
  l1 : LRU
  blobs : List (String × Bytes)
  metas : List (String × MetaRec)
deriving Repr, DecidableEq

/-- A freshly constructed cache over an empty directory
(`ImageCache2.__init__` with `l1_max_bytes = cap`). -/
def CacheState.empty (cap : Nat) : CacheState := ⟨LRU.empty cap, [], []⟩

/-- The L1 lookup step of `get_or_produce` (lines 130-137, re-run verbatim at
lines 168-175): on a fresh hit return the file id if truthy, else the bytes
if present. -/
def l1Check (st : CacheState) (now : Time) (key : String) :
    Option CacheResult × CacheState :=
  let r := st.l1.get key
  let st' : CacheState := ⟨r.2, st.blobs, st.metas⟩
  match r.1 with
  | none => (none, st')
  | some v =>
    if isFresh now v.expiry_ts then
      if truthyStr v.file_id then (some ⟨v.file_id, none, none⟩, st')
      else
        match v.data with
        | some d => (some ⟨none, some d, none⟩, st')
        | none => (none, st')
    else (none, st')

/-- The outer L2 lookup of `get_or_produce` (lines 139-161): both files must
exist; on a fresh hit bump `last_used_ts`, promote into L1 and return. -/
def l2CheckOuter (st : CacheState) (now : Time) (key : String) :
    Option CacheResult × CacheState :=
  match alookup key st.blobs, alookup key st.metas with
  | some blob, some m =>
    let exp : Time := m.expiry_ts.getD 0
    if isFresh now exp then
      let m' : MetaRec := ⟨m.expiry_ts, m.file_id, m.byte_len, m.created_ts, some now⟩
      let metas' := ainsert key m' st.metas
      if truthyStr m.file_id then
        (some ⟨m.file_id, none, some key⟩,
          ⟨(st.l1).put key m.file_id none exp, st.blobs, metas'⟩)
      else
        (some ⟨none, some blob, some key⟩,
          ⟨(st.l1).put key none (some blob) exp, st.blobs, metas'⟩)
    else (none, st)
  | _, _ => (none, st)

/-- The L2 re-check inside the lock (lines 176-189): same as the outer check
except that `last_used_ts` is not updated. -/
def l2CheckInner (st : CacheState) (now : Time) (key : String) :
    Option CacheResult × CacheState :=
  match alookup key st.blobs, alookup key st.metas with
  | some blob, some m =>
    let exp : Time := m.expiry_ts.getD 0
    if isFresh now exp then
      if truthyStr m.file_id then
        (some ⟨m.file_id, none, some key⟩,
          ⟨(st.l1).put key m.file_id none exp, st.blobs, st.metas⟩)
      else
        (some ⟨none, some blob, some key⟩,
          ⟨(st.l1).put key none (some blob) exp, st.blobs, st.metas⟩)
    else (none, st)
  | _, _ => (none, st)

/-- Lines 192-215: the producer succeeded; write the blob and metadata
atomically to L2, then put the bytes into L1. -/
def commitProduce (st : CacheState) (now : Time) (key : String) (ttl : Time)
    (data : Bytes) : CacheResult × CacheState :=
  let expiry := now + ttl
  let m : MetaRec := ⟨some expiry, none, some data.length, some now, some now⟩
  (⟨none, some data, some key⟩,
    ⟨(st.l1).put key none (some data) expiry,
      ainsert key data st.blobs, ainsert key m st.metas⟩)

/-- `ImageCache2.get_or_produce` (lines 120-222) on the sequential
(no-contention) path: L1 check, L2 check, then under the per-key lock the
re-checks and, on a genuine miss, the producer call and commit.  A failing
producer is an `Except.error`.  The returned `Bool` records whether the
producer was invoked.  The fire-and-forget janitor task (line 213) does not
touch L1/L2 state observed by this call and is modelled separately. -/
def getOrProduce (st : CacheState) (now : Time) (key : String) (ttl : Time)
    (producer : Except String Bytes) :
    Except String CacheResult × CacheState × Bool :=
  match l1Check st now key with
  | (some r, st₁) => (.ok r, st₁, false)
  | (none, st₁) =>
    match l2CheckOuter st₁ now key with
    | (some r, st₂) => (.ok r, st₂, false)
    | (none, st₂) =>
      match l1Check st₂ now key with
      | (some r, st₃) => (.ok r, st₃, false)
      | (none, st₃) =>
        match l2CheckInner st₃ now key with
        | (some r, st₄) => (.ok r, st₄, false)
        | (none, st₄) =>
          match producer with
          | .error e => (.error e, st₄, true)
          | .ok data =>
            let rs := commitProduce st₄ now key ttl data
            (.ok rs.1, rs.2, true)

/-- One scanned blob file as collected by `_janitor` (lines 90-103):
`(last_used, size, path, meta)`; the path is identified by the blob name. -/
structure JEntry where
  last_used : Time
  size : Nat
  name : String
deriving Repr, DecidableEq

/-- `entries.sort(key=lambda t: t[0])` (line 110): ascending `last_used`. -/
def sortEntries (es : List JEntry) : List JEntry :=
  es.insertionSort (fun a b => a.last_used ≤ b.last_used)

/-- The eviction loop of `_janitor` (lines 111-118): delete the current
blob+metadata pair, subtract its size from the running total, and stop once
the total is at or below the target.  Returns the names deleted. -/
def evictNames (target : Int) : List JEntry → Int → List String
  | [], _ => []
  | e :: rest, total =>
    let total' := total - (e.size : Int)
    if total' ≤ target then [e.name]
    else e.name :: evictNames target rest total'

/-- `_janitor` (lines 87-118) on an error-free pass, as the list of deleted
blob names: nothing is deleted when the total is within the cap; otherwise
pairs are deleted in ascending `last_used` order until the total is at most
`int(0.9 * l2_max_bytes)`.  Python's `int(0.9 * cap)` is modelled exactly as
`9 * cap / 10` in `Nat` (truncation of the nonnegative product). -/
def janitorDeletes (cap : Nat) (es : List JEntry) : List String :=
  let total : Int := ((es.map (·.size)).sum : Int)
  if total ≤ (cap : Int) then []
  else evictNames ((9 * cap / 10 : Nat) : Int) (sortEntries es) total

/-- State of a sidecar metadata file at scan time. -/
inductive MetaFileState where
  | absent
  | corrupt
  | ok (last_used : Option Time)
deriving Repr, DecidableEq

/-- One blob path yielded by `cache_dir.glob("*.png")`, with the outcome the
file operations of the scan would have: `present` says whether the blob file
still exists when `p.stat()` runs (a concurrent writer may have deleted it
after the glob). -/
structure JFile where
  name : String
  present : Bool
  size : Nat
  mtime : Time
  meta : MetaFileState
deriving Repr, DecidableEq

/-- The per-file body of the scan loop in `_janitor` (lines 94-101).
`try:` stat the blob, read the metadata, take `last_used_ts` (falling back
to the file mtime); `except:` recompute both from `p.stat()` — which raises
again if the blob itself is gone, so a vanished blob aborts the pass with
the error instead of being skipped. -/
def scanFile (f : JFile) : Except String (Time × Nat) :=
  if f.present then
    match f.meta with
    | .ok lu => .ok (lu.getD f.mtime, f.size)
    | .absent => .ok (f.mtime, f.size)
    | .corrupt => .ok (f.mtime, f.size)
  else .error f.name

/-- The scan phase of `_janitor` over the globbed blob files; the first
uncaught exception propagates out of the loop and ends the pass (inside the
background task created at line 213). -/
def janitorScan : List JFile → Except String (List (Time × Nat))
  | [] => .ok []
  | f :: rest =>
    match scanFile f with
    | .error e => .error e
    | .ok x =>
      match janitorScan rest with
      | .error e => .error e
      | .ok xs => .ok (x :: xs)

/-- `ImageCache2.remember_file_id` (lines 224-243): update L1 via
`set_file_id`, then rewrite the metadata file with the file id, a fresh
`expiry_ts` and `last_used_ts`, preserving any other fields. -/
def rememberFileId (st : CacheState) (now : Time) (key : String) (fid : String)
    (ttl : Time) : CacheState :=
  let exp := now + ttl
  let m0 : MetaRec := (alookup key st.metas).getD ⟨none, none, none, none, none⟩
  let m' : MetaRec := ⟨some exp, some fid, m0.byte_len, m0.created_ts, some now⟩
  ⟨(st.l1).set_file_id key fid, st.blobs, ainsert key m' st.metas⟩

/-- JSON-representable parameter values (`key_parts` entries).  An `obj` is a
Python dict in insertion order; per the caller contract keys are strings.
Floats do not occur in the repository's cache keys and are not modelled. -/
inductive JVal where
  | null : JVal
  | bool (b : Bool) : JVal
  | int (n : Int) : JVal
  | str (s : String) : JVal
  | arr (xs : List JVal) : JVal
  | obj (fs : List (String × JVal)) : JVal
deriving Repr

/-- Structural size used as parser fuel: one unit per value plus one per
aggregate member. -/
def sizeJ : JVal → Nat
  | .null => 1
  | .bool _ => 1
  | .int _ => 1
  | .str _ => 1
  | .arr xs => 1 + ((xs.attach.map (fun x => sizeJ x.1)).sum + xs.length)
  | .obj fs => 1 + ((fs.attach.map (fun p => sizeJ p.1.2)).sum + fs.length)
decreasing_by
  · have h := List.sizeOf_lt_of_mem x.2
    simp only [JVal.arr.sizeOf_spec]
    omega
  · have h := List.sizeOf_lt_of_mem p.2
    rcases p with ⟨⟨k, v⟩, hp⟩
    simp only [Prod.mk.sizeOf_spec] at h
    dsimp only
    simp only [JVal.obj.sizeOf_spec]
    omega

/-- Well-formedness of a value as produced by Python: every dict has unique
keys (a Python dict cannot hold duplicates). -/
def wfJ : JVal → Bool
  | .null => true
  | .bool _ => true
  | .int _ => true
  | .str _ => true
  | .arr xs => xs.attach.all (fun x => wfJ x.1)
  | .obj fs => decide (fs.map Prod.fst).Nodup && fs.attach.all (fun p => wfJ p.1.2)
decreasing_by
  · have h := List.sizeOf_lt_of_mem x.2
    simp only [JVal.arr.sizeOf_spec]
    omega
  · have h := List.sizeOf_lt_of_mem p.2
    rcases p with ⟨⟨k, v⟩, hp⟩
    simp only [Prod.mk.sizeOf_spec] at h
    dsimp only
    simp only [JVal.obj.sizeOf_spec]
    omega

/-- `sorted(dct.items())` on a dict with unique keys: sort fields by key. -/
def sortFields (fs : List (String × JVal)) : List (String × JVal) :=
  fs.insertionSort (fun p q => p.1 ≤ q.1)

/-- Recursively key-sort every object: the canonical form that
`json.dumps(..., sort_keys=True)` serializes. -/
def canonJ : JVal → JVal
  | .null => .null
  | .bool b => .bool b
  | .int n => .int n
  | .str s => .str s
  | .arr xs => .arr (xs.attach.map (fun x => canonJ x.1))
  | .obj fs => .obj (sortFields (fs.attach.map (fun p => (p.1.1, canonJ p.1.2))))
decreasing_by
  · have h := List.sizeOf_lt_of_mem x.2
    simp only [JVal.arr.sizeOf_spec]
    omega
  · have h := List.sizeOf_lt_of_mem p.2
    rcases p with ⟨⟨k, v⟩, hp⟩
    simp only [Prod.mk.sizeOf_spec] at h
    dsimp only
    simp only [JVal.obj.sizeOf_spec]
    omega

/-- Lowercase hex digit, as produced by `'%04x'` formatting in the json
encoder and by `hexdigest`. -/
def hexDigitChar (n : Nat) : Char :=
  if n < 10 then Char.ofNat (48 + n) else Char.ofNat (87 + n)

/-- Four lowercase hex digits of `n < 0x10000`. -/
def hex4 (n : Nat) : List Char :=
  [hexDigitChar (n / 4096 % 16), hexDigitChar (n / 256 % 16),
    hexDigitChar (n / 16 % 16), hexDigitChar (n % 16)]

/-- `json.dumps` escaping of one character with the default
`ensure_ascii=True`: printable ASCII other than `"` and `\` is literal;
the two-character shortcuts cover `\b \t \n \f \r`; everything else becomes
`\uXXXX`, with a surrogate pair for astral code points. -/
def escChar (c : Char) : List Char :=
  let n := c.toNat
  if c = '"' then ['\\', '"']
  else if c = '\\' then ['\\', '\\']
  else if c = '\n' then ['\\', 'n']
  else if c = '\r' then ['\\', 'r']
  else if c = '\t' then ['\\', 't']
  else if n = 8 then ['\\', 'b']
  else if n = 12 then ['\\', 'f']
  else if 32 ≤ n ∧ n ≤ 126 then [c]
  else if n < 65536 then '\\' :: 'u' :: hex4 n
  else '\\' :: 'u' :: hex4 (55296 + (n - 65536) / 1024) ++
    '\\' :: 'u' :: hex4 (56320 + (n - 65536) % 1024)

/-- Escape a character sequence. -/
def escStr : List Char → List Char
  | [] => []
  | c :: cs => escChar c ++ escStr cs

/-- A JSON string literal: quote, escaped contents, quote. -/
def encStr (s : String) : List Char := '"' :: escStr s.data ++ ['"']

/-- Decimal digits of a natural number, most significant first. -/
def natDigits (n : Nat) : List Char :=
  if h : n < 10 then [Char.ofNat (48 + n)]
  else natDigits (n / 10) ++ [Char.ofNat (48 + n % 10)]
decreasing_by exact Nat.div_lt_self (by omega) (by omega)

/-- Python `repr` of an int, as serialized by `json.dumps`. -/
def intChars : Int → List Char
  | .ofNat n => natDigits n
  | .negSucc m => '-' :: natDigits (m + 1)

/-- Join encoded items with the `","` item separator of
`separators=(",", ":")`. -/
def sepList : List (List Char) → List Char
  | [] => []
  | [x] => x
  | x :: y :: rest => x ++ ',' :: sepList (y :: rest)

/-- `json.dumps` spelling of `None`. -/
def litNull : List Char := ['n', 'u', 'l', 'l']

/-- `json.dumps` spelling of `True`. -/
def litTrue : List Char := ['t', 'r', 'u', 'e']

/-- `json.dumps` spelling of `False`. -/
def litFalse : List Char := ['f', 'a', 'l', 's', 'e']

/-- Serialize a value without reordering object fields (the canonical form is
already sorted).  Uses the compact separators `(",", ":")`. -/
def encodePlain : JVal → List Char
  | .null => litNull
  | .bool true => litTrue
  | .bool false => litFalse
  | .int n => intChars n
  | .str s => encStr s
  | .arr xs => '[' :: sepList (xs.attach.map (fun x => encodePlain x.1)) ++ [']']
  | .obj fs =>
      '{' :: sepList (fs.attach.map (fun p => encStr p.1.1 ++ ':' :: encodePlain p.1.2)) ++ ['}']
decreasing_by
  · have h := List.sizeOf_lt_of_mem x.2
    simp only [JVal.arr.sizeOf_spec]
    omega
  · have h := List.sizeOf_lt_of_mem p.2
    rcases p with ⟨⟨k, v⟩, hp⟩
    simp only [Prod.mk.sizeOf_spec] at h
    dsimp only
    simp only [JVal.obj.sizeOf_spec]
    omega

/-- `json.dumps(v, sort_keys=True, separators=(",", ":"))`: serialize,
sorting each object's fields by key on the way. -/
def encodeSorted : JVal → List Char
  | .null => litNull
  | .bool true => litTrue
  | .bool false => litFalse
  | .int n => intChars n
  | .str s => encStr s
  | .arr xs => '[' :: sepList (xs.attach.map (fun x => encodeSorted x.1)) ++ [']']
  | .obj fs =>
      '{' :: sepList ((sortFields fs).attach.map
        (fun p => encStr p.1.1 ++ ':' :: encodeSorted p.1.2)) ++ ['}']
decreasing_by
  · have h := List.sizeOf_lt_of_mem x.2
    simp only [JVal.arr.sizeOf_spec]
    omega
  · have hmem : p.1 ∈ fs := (List.perm_insertionSort _ fs).mem_iff.mp p.2
    have h := List.sizeOf_lt_of_mem hmem
    rcases p with ⟨⟨k, v⟩, hp⟩
    simp only [Prod.mk.sizeOf_spec] at h
    dsimp only
    simp only [JVal.obj.sizeOf_spec]
    omega

/-- `ImageCache2._key_str` (lines 73-75). -/
def keyStr (parts : JVal) : String := String.mk (encodeSorted parts)

/-- Is the character an ASCII decimal digit? -/
def isDigitCh (c : Char) : Bool := decide (48 ≤ c.toNat ∧ c.toNat ≤ 57)

/-- Does the remainder not begin with a digit (so that an adjacent integer
literal cannot be extended)? -/
def headNotDigit : List Char → Bool
  | [] => true
  | c :: _ => !isDigitCh c

/-- Value of a lowercase hex digit. -/
def hexVal (c : Char) : Option Nat :=
  if 48 ≤ c.toNat ∧ c.toNat ≤ 57 then some (c.toNat - 48)
  else if 97 ≤ c.toNat ∧ c.toNat ≤ 102 then some (c.toNat - 87)
  else none

/-- Accumulate decimal digits from the front of the input. -/
def parseNatAux (acc : Nat) : List Char → Nat × List Char
  | [] => (acc, [])
  | c :: rest =>
    if isDigitCh c then parseNatAux (10 * acc + (c.toNat - 48)) rest
    else (acc, c :: rest)

/-- Parse the body of a JSON string literal (everything after the opening
quote, through the closing quote), inverting `escStr`.  Surrogate pairs are
recombined into one code point.  Fuel-bounded; one unit of fuel is spent per
decoded character, so any fuel exceeding the input length suffices. -/
def parseStringBody : Nat → List Char → Option (List Char × List Char)
  | 0, _ => none
  | _ + 1, [] => none
  | fuel + 1, c :: r =>
    if c = '"' then some ([], r)
    else if c = '\\' then
      match r with
      | [] => none
      | e :: r2 =>
        if e = '"' then (parseStringBody fuel r2).map (fun p => ('"' :: p.1, p.2))
        else if e = '\\' then (parseStringBody fuel r2).map (fun p => ('\\' :: p.1, p.2))
        else if e = 'n' then (parseStringBody fuel r2).map (fun p => ('\n' :: p.1, p.2))
        else if e = 'r' then (parseStringBody fuel r2).map (fun p => ('\r' :: p.1, p.2))
        else if e = 't' then (parseStringBody fuel r2).map (fun p => ('\t' :: p.1, p.2))
        else if e = 'b' then (parseStringBody fuel r2).map (fun p => (Char.ofNat 8 :: p.1, p.2))
        else if e = 'f' then (parseStringBody fuel r2).map (fun p => (Char.ofNat 12 :: p.1, p.2))
        else if e = 'u' then
          match r2 with
          | a :: b :: c2 :: d :: r3 =>
            match hexVal a, hexVal b, hexVal c2, hexVal d with
            | some va, some vb, some vc, some vd =>
              if 55296 ≤ ((va * 16 + vb) * 16 + vc) * 16 + vd ∧
                  ((va * 16 + vb) * 16 + vc) * 16 + vd ≤ 56319 then
                match r3 with
                | e2 :: u2 :: a2 :: b2 :: c3 :: d2 :: r4 =>
                  if e2 = '\\' then
                    if u2 = 'u' then
                      match hexVal a2, hexVal b2, hexVal c3, hexVal d2 with
                      | some wa, some wb, some wc, some wd =>
                        if 56320 ≤ ((wa * 16 + wb) * 16 + wc) * 16 + wd ∧
                            ((wa * 16 + wb) * 16 + wc) * 16 + wd ≤ 57343 then
                          (parseStringBody fuel r4).map (fun p =>
                            (Char.ofNat (65536 +
                              (((va * 16 + vb) * 16 + vc) * 16 + vd - 55296) * 1024 +
                              (((wa * 16 + wb) * 16 + wc) * 16 + wd - 56320)) :: p.1, p.2))
                        else none
                      | _, _, _, _ => none
                    else none
                  else none
                | _ => none
              else (parseStringBody fuel r3).map (fun p =>
                (Char.ofNat (((va * 16 + vb) * 16 + vc) * 16 + vd) :: p.1, p.2))
            | _, _, _, _ => none
          | _ => none
        else none
    else (parseStringBody fuel r).map (fun p => (c :: p.1, p.2))

mutual

/-- Fuel-bounded parser for a serialized value, inverting `encodePlain`. -/
def decodeV : Nat → List Char → Option (JVal × List Char)
  | 0, _ => none
  | _ + 1, [] => none
  | fuel + 1, c :: r =>
    if c = 'n' then
      match r with
      | 'u' :: 'l' :: 'l' :: r' => some (.null, r')
      | _ => none
    else if c = 't' then
      match r with
      | 'r' :: 'u' :: 'e' :: r' => some (.bool true, r')
      | _ => none
    else if c = 'f' then
      match r with
      | 'a' :: 'l' :: 's' :: 'e' :: r' => some (.bool false, r')
      | _ => none
    else if c = '"' then
      (parseStringBody (r.length + 1) r).map (fun p => (.str (String.mk p.1), p.2))
    else if c = '[' then
      match r with
      | [] => none
      | c2 :: r2 =>
        if c2 = ']' then some (.arr [], r2)
        else (decodeItems fuel (c2 :: r2)).map (fun p => (.arr p.1, p.2))
    else if c = '{' then
      match r with
      | [] => none
      | c2 :: r2 =>
        if c2 = '}' then some (.obj [], r2)
        else (decodeFields fuel (c2 :: r2)).map (fun p => (.obj p.1, p.2))
    else if c = '-' then
      match r with
      | c2 :: r2 =>
        if isDigitCh c2 then
          let p := parseNatAux (c2.toNat - 48) r2
          some (.int (-(p.1 : Int)), p.2)
        else none
      | [] => none
    else if isDigitCh c then
      let p := parseNatAux (c.toNat - 48) r
      some (.int (p.1 : Int), p.2)
    else none

/-- Parse `item ("," item)* "]"`, inverting the encoding of a nonempty array
body. -/
def decodeItems : Nat → List Char → Option (List JVal × List Char)
  | 0, _ => none
  | fuel + 1, cs =>
    match decodeV fuel cs with
    | some (v, r) =>
      match r with
      | c :: r' =>
        if c = ',' then (decodeItems fuel r').map (fun p => (v :: p.1, p.2))
        else if c = ']' then some ([v], r')
        else none
      | [] => none
    | none => none

/-- Parse `"key":value ("," "key":value)* "}"`, inverting the encoding of a
nonempty object body. -/
def decodeFields : Nat → List Char → Option (List (String × JVal) × List Char)
  | 0, _ => none
  | fuel + 1, cs =>
    match cs with
    | c :: r =>
      if c = '"' then
        match parseStringBody (r.length + 1) r with
        | some (k, r1) =>
          match r1 with
          | c2 :: r2 =>
            if c2 = ':' then
              match decodeV fuel r2 with
              | some (v, r3) =>
                match r3 with
                | c3 :: r4 =>
                  if c3 = ',' then
                    (decodeFields fuel r4).map (fun p => ((String.mk k, v) :: p.1, p.2))
                  else if c3 = '}' then some ([(String.mk k, v)], r4)
                  else none
                | [] => none
              | none => none
            else none
          | [] => none
        | none => none
      else none
    | [] => none

end

/-- UTF-8 bytes of one character. -/
def utf8Char (c : Char) : List Nat :=
  let n := c.toNat
  if n < 128 then [n]
  else if n < 2048 then [192 + n / 64, 128 + n % 64]
  else if n < 65536 then [224 + n / 4096, 128 + n / 64 % 64, 128 + n % 64]
  else [240 + n / 262144, 128 + n / 4096 % 64, 128 + n / 64 % 64, 128 + n % 64]

/-- `s.encode("utf-8")`. -/
def utf8Str (s : String) : List Nat :=
  s.data.foldr (fun c acc => utf8Char c ++ acc) []

/-- Rotate a 32-bit word left by `n` bits. -/
def rotl (n x : Nat) : Nat := ((x <<< n) ||| (x >>> (32 - n))) % 4294967296

/-- SHA-1 message padding: `0x80`, zeros to 56 mod 64, 8-byte big-endian bit
length. -/
def sha1Pad (msg : List Nat) : List Nat :=
  let len := msg.length
  let bits := len * 8
  msg ++ 128 :: List.replicate ((119 - len % 64) % 64) 0 ++
    [bits >>> 56 % 256, bits >>> 48 % 256, bits >>> 40 % 256, bits >>> 32 % 256,
      bits >>> 24 % 256, bits >>> 16 % 256, bits >>> 8 % 256, bits % 256]

/-- Split into 64-byte chunks. -/
def chunks64 (l : List Nat) : List (List Nat) :=
  if h : l = [] then [] else l.take 64 :: chunks64 (l.drop 64)
termination_by l.length
decreasing_by
  have hpos : 0 < l.length := List.length_pos.mpr h
  simp only [List.length_drop]
  omega

/-- Big-endian 32-bit words of a chunk. -/
def words16 : List Nat → List Nat
  | b0 :: b1 :: b2 :: b3 :: rest =>
      (((b0 * 256 + b1) * 256 + b2) * 256 + b3) :: words16 rest
  | _ => []

/-- Extend 16 words to the 80-word schedule. -/
def sha1Extend (ws : List Nat) : List Nat :=
  (List.range 64).foldl (fun acc _ =>
    acc ++ [rotl 1 ((((acc.getD (acc.length - 3) 0) ^^^ (acc.getD (acc.length - 8) 0)) ^^^
      (acc.getD (acc.length - 14) 0)) ^^^ (acc.getD (acc.length - 16) 0))]) ws

/-- The SHA-1 round function. -/
def sha1F (i b c d : Nat) : Nat :=
  if i < 20 then (b &&& c) ||| ((4294967295 - b) &&& d)
  else if i < 40 then (b ^^^ c) ^^^ d
  else if i < 60 then ((b &&& c) ||| (b &&& d)) ||| (c &&& d)
  else (b ^^^ c) ^^^ d

/-- The SHA-1 round constants. -/
def sha1K (i : Nat) : Nat :=
  if i < 20 then 1518500249
  else if i < 40 then 1859775393
  else if i < 60 then 2400959708
  else 3395469782

/-- Compress one 64-byte chunk into the running state. -/
def sha1Compress (h : Nat × Nat × Nat × Nat × Nat) (chunk : List Nat) :
    Nat × Nat × Nat × Nat × Nat :=
  let ws := sha1Extend (words16 chunk)
  let f := (List.range 80).foldl (fun st i =>
    let temp := (rotl 5 st.1 + sha1F i st.2.1 st.2.2.1 st.2.2.2.1 + st.2.2.2.2 +
      sha1K i + ws.getD i 0) % 4294967296
    (temp, st.1, rotl 30 st.2.1, st.2.2.1, st.2.2.2.1)) h
  ((h.1 + f.1) % 4294967296, (h.2.1 + f.2.1) % 4294967296,
    (h.2.2.1 + f.2.2.1) % 4294967296, (h.2.2.2.1 + f.2.2.2.1) % 4294967296,
    (h.2.2.2.2 + f.2.2.2.2) % 4294967296)

/-- Big-endian bytes of a 32-bit word. -/
def be4 (n : Nat) : List Nat := [n >>> 24 % 256, n >>> 16 % 256, n >>> 8 % 256, n % 256]

/-- SHA-1 of a byte string, as 20 bytes. -/
def sha1 (msg : List Nat) : List Nat :=
  let hs := (chunks64 (sha1Pad msg)).foldl sha1Compress
    (1732584193, 4023233417, 2562383102, 271733878, 3285377520)
  be4 hs.1 ++ be4 hs.2.1 ++ be4 hs.2.2.1 ++ be4 hs.2.2.2.1 ++ be4 hs.2.2.2.2

/-- `ImageCache2._digest` (lines 77-79): `hashlib.sha1(s.encode("utf-8")).hexdigest()`. -/
def digest (s : String) : String :=
  String.mk ((sha1 (utf8Str s)).foldr
    (fun b acc => hexDigitChar (b / 16) :: hexDigitChar (b % 16) :: acc) [])

/-- Steps 2-3 of the facade outside the lock: L1 check then outer L2 check. -/
def outerLookup (st : CacheState) (now : Time) (key : String) :
    Option CacheResult × CacheState :=
  match l1Check st now key with
  | (some r, st₁) => (some r, st₁)
  | (none, st₁) => l2CheckOuter st₁ now key

/-- The re-check run while holding the per-key lock: L1 check then inner L2
check (lines 168-189). -/
def innerLookup (st : CacheState) (now : Time) (key : String) :
    Option CacheResult × CacheState :=
  match l1Check st now key with
  | (some r, st₁) => (some r, st₁)
  | (none, st₁) => l2CheckInner st₁ now key

/-! ## The singleflight burst as a transition system

`asyncio` scheduling of N concurrent `get_or_produce` calls for one key.
Code between awaits runs atomically; the await points of `get_or_produce`
are the lock acquisition (which only suspends when the lock is held) and
the `asyncio.to_thread` producer call.  `asyncio.Lock` wakes waiters in
FIFO order and hands the lock to the woken waiter, so a task is `waiting`
(queued), then `granted` (lock handed off, not yet rescheduled), then runs
its re-check.  The burst happens at one instant `τ` (the producer sleep
does not advance the loop's view of `time.time()` materially), with one
key `k`, TTL `ttl` and producer bytes `b`. -/

/-- Where one task is in its `get_or_produce` call. -/
inductive TaskPC where
  | start
  | waiting
  | granted
  | producing
  | done (r : CacheResult)
deriving Repr, DecidableEq

/-- Has this task returned? -/
def isDone : TaskPC → Bool
  | .done _ => true
  | _ => false

/-- Global configuration of the burst: shared cache state, per-key lock
holder, FIFO waiter queue, per-task program counters, and the number of
producer invocations so far. -/
structure Config where
  st : CacheState
  lock : Option Nat
  waiters : List Nat
  tasks : List TaskPC
  pcount : Nat
deriving Repr, DecidableEq

/-- `asyncio.Lock.release`: hand the lock to the first waiter (who will run
its re-check when next scheduled), or free it. -/
def releaseLock (tasks : List TaskPC) (waiters : List Nat) :
    List TaskPC × Option Nat × List Nat :=
  match waiters with
  | [] => (tasks, none, [])
  | j :: rest => (tasks.set j .granted, some j, rest)

/-- One atomic scheduler step of the burst. -/
inductive Step (k : String) (τ ttl : Time) (b : Bytes) : Config → Config → Prop where
  | hitOuter (c : Config) (i : Nat) (r : CacheResult) (st' : CacheState) :
      c.tasks[i]? = some .start →
      outerLookup c.st τ k = (some r, st') →
      Step k τ ttl b c ⟨st', c.lock, c.waiters, c.tasks.set i (.done r), c.pcount⟩
  | acquireHit (c : Config) (i : Nat) (st₁ : CacheState) (r : CacheResult)
      (st₂ : CacheState) :
      c.tasks[i]? = some .start →
      c.lock = none →
      outerLookup c.st τ k = (none, st₁) →
      innerLookup st₁ τ k = (some r, st₂) →
      Step k τ ttl b c ⟨st₂, none, c.waiters, c.tasks.set i (.done r), c.pcount⟩
  | acquireProduce (c : Config) (i : Nat) (st₁ st₂ : CacheState) :
      c.tasks[i]? = some .start →
      c.lock = none →
      outerLookup c.st τ k = (none, st₁) →
      innerLookup st₁ τ k = (none, st₂) →
      Step k τ ttl b c ⟨st₂, some i, c.waiters, c.tasks.set i .producing, c.pcount + 1⟩
  | enqueue (c : Config) (i j : Nat) (st₁ : CacheState) :
      c.tasks[i]? = some .start →
      c.lock = some j →
      outerLookup c.st τ k = (none, st₁) →
      Step k τ ttl b c ⟨st₁, c.lock, c.waiters ++ [i], c.tasks.set i .waiting, c.pcount⟩
  | commit (c : Config) (i : Nat) :
      c.tasks[i]? = some .producing →
      c.lock = some i →
      Step k τ ttl b c
        ⟨(commitProduce c.st τ k ttl b).2,
          (releaseLock (c.tasks.set i (.done (commitProduce c.st τ k ttl b).1)) c.waiters).2.1,
          (releaseLock (c.tasks.set i (.done (commitProduce c.st τ k ttl b).1)) c.waiters).2.2,
          (releaseLock (c.tasks.set i (.done (commitProduce c.st τ k ttl b).1)) c.waiters).1,
          c.pcount⟩
  | grantedHit (c : Config) (i : Nat) (r : CacheResult) (st' : CacheState) :
      c.tasks[i]? = some .granted →
      c.lock = some i →
      innerLookup c.st τ k = (some r, st') →
      Step k τ ttl b c
        ⟨st', (releaseLock (c.tasks.set i (.done r)) c.waiters).2.1,
          (releaseLock (c.tasks.set i (.done r)) c.waiters).2.2,
          (releaseLock (c.tasks.set i (.done r)) c.waiters).1, c.pcount⟩
  | grantedProduce (c : Config) (i : Nat) (st' : CacheState) :
      c.tasks[i]? = some .granted →
      c.lock = some i →
      innerLookup c.st τ k = (none, st') →
      Step k τ ttl b c ⟨st', c.lock, c.waiters, c.tasks.set i .producing, c.pcount + 1⟩

/-- N tasks about to call `get_or_produce` on a fresh cache: no entry for the
key exists anywhere ("no fresh entry exists"). -/
def initConfig (n cap : Nat) : Config :=
  ⟨CacheState.empty cap, none, [], List.replicate n .start, 0⟩

/-- All tasks have completed their call. -/
def allDone (c : Config) : Bool := c.tasks.all isDone

/-- Reachability under the burst semantics. -/
def Reach (k : String) (τ ttl : Time) (b : Bytes) : Config → Config → Prop :=
  Relation.ReflTransGen (Step k τ ttl b)


/-- A call result carrying exactly the produced bytes, with no Telegram file
handle: what every task of a cold-start burst must return. -/
def goodRes (b : Bytes) (r : CacheResult) : Prop := r.file_id = none ∧ r.data = some b

/-- The cache contents after a successful commit for key `k` at burst time
`τ` with TTL `ttl` and produced bytes `b`: blob and fresh metadata are on
disk, and any L1 binding for `k` is the committed one (it can have been
evicted, but never replaced by different data). -/
def goodSt (k : String) (τ ttl : Time) (b : Bytes) (st : CacheState) : Prop :=
  alookup k st.blobs = some b ∧
  (∃ m : MetaRec, alookup k st.metas = some m ∧ m.expiry_ts = some (τ + ttl) ∧
    m.file_id = none) ∧
  (∀ v : L1Val, alookup k st.l1.od = some v →
    v.file_id = none ∧ v.data = some b ∧ v.expiry_ts = τ + ttl)

/-- Inductive invariant of the cold-start burst: bookkeeping of the waiter
queue plus a three-phase disjunction — before any producer starts (`pcount =
0`, cache still empty, lock free, everyone at start), while the single
producer runs (`pcount = 1`, cache still empty, the lock holder is the
producing task, everyone else queued or at start), and after its commit
(`pcount = 1`, committed cache contents, the lock holder — if any — is a
woken waiter about to re-check, and every finished task got the produced
bytes). -/
def InvC1 (k : String) (τ ttl : Time) (b : Bytes) (cap n : Nat) (c : Config) : Prop :=
  c.tasks.length = n ∧
  (∀ j ∈ c.waiters, c.tasks[j]? = some .waiting) ∧
  c.waiters.Nodup ∧
  (c.lock = none → c.waiters = []) ∧
  ((c.pcount = 0 ∧ c.st = CacheState.empty cap ∧ c.lock = none ∧
      (∀ (i : Nat) (t : TaskPC), c.tasks[i]? = some t → t = .start)) ∨
   (c.pcount = 1 ∧ c.st = CacheState.empty cap ∧
      (∃ i : Nat, c.lock = some i ∧ c.tasks[i]? = some .producing ∧
        (∀ (j : Nat) (t : TaskPC), c.tasks[j]? = some t → j ≠ i →
          t = .start ∨ t = .waiting))) ∨
   (c.pcount = 1 ∧ goodSt k τ ttl b c.st ∧
      (∀ i : Nat, c.lock = some i → c.tasks[i]? = some .granted) ∧
      (∀ (i : Nat) (t : TaskPC), c.tasks[i]? = some t →
        t = .start ∨ t = .waiting ∨ t = .granted ∨ ∃ r, t = .done r ∧ goodRes b r) ∧
      (∀ i : Nat, c.tasks[i]? = some .granted → c.lock = some i)))

/-! ## Association-list lemmas -/

theorem alookup_append_some {α : Type} {k : String} {l₁ l₂ : List (String × α)}
    {v : α} (h : alookup k l₁ = some v) : alookup k (l₁ ++ l₂) = some v := by
  induction l₁ with
  | nil => simp [alookup] at h
  | cons p rest ih =>
    obtain ⟨e, w⟩ := p
    by_cases he : e = k <;> simp_all [alookup]

theorem alookup_append_none {α : Type} {k : String} {l₁ : List (String × α)}
    (l₂ : List (String × α)) (h : alookup k l₁ = none) :
    alookup k (l₁ ++ l₂) = alookup k l₂ := by
  induction l₁ with
  | nil => rfl
  | cons p rest ih =>
    obtain ⟨e, w⟩ := p
    by_cases he : e = k <;> simp_all [alookup]

theorem alookup_aremove_self {α : Type} (k : String) (l : List (String × α)) :
    alookup k (aremove k l) = none := by
  induction l with
  | nil => rfl
  | cons p rest ih =>
    obtain ⟨e, w⟩ := p
    by_cases he : e = k <;> simp_all [alookup, aremove]

theorem alookup_aremove_ne {α : Type} {k k' : String} (h : k' ≠ k)
    (l : List (String × α)) : alookup k' (aremove k l) = alookup k' l := by
  induction l with
  | nil => rfl
  | cons p rest ih =>
    obtain ⟨e, w⟩ := p
    by_cases he : e = k
    · subst he
      have hne : e ≠ k' := fun hh => h hh.symm
      simp [aremove, alookup, hne, ih]
    · by_cases he' : e = k' <;> simp_all [alookup, aremove]

theorem alookup_ainsert_self {α : Type} (k : String) (v : α)
    (l : List (String × α)) : alookup k (ainsert k v l) = some v := by
  unfold ainsert
  rw [alookup_append_none _ (alookup_aremove_self k l)]
  simp [alookup]

theorem alookup_ainsert_ne {α : Type} {k k' : String} (h : k' ≠ k) (v : α)
    (l : List (String × α)) : alookup k' (ainsert k v l) = alookup k' l := by
  unfold ainsert
  cases hl : alookup k' (aremove k l) with
  | some w =>
    rw [alookup_append_some hl]
    rw [alookup_aremove_ne h] at hl
    exact hl.symm
  | none =>
    rw [alookup_append_none _ hl]
    rw [alookup_aremove_ne h] at hl
    have hne : k ≠ k' := fun hh => h hh.symm
    simp [alookup, hne, hl]

theorem alookup_eq_none {α : Type} {k : String} {l : List (String × α)} :
    alookup k l = none ↔ k ∉ l.map Prod.fst := by
  induction l with
  | nil => simp [alookup]
  | cons p rest ih =>
    obtain ⟨e, w⟩ := p
    by_cases he : e = k
    · subst he
      simp [alookup]
    · have he' : k ≠ e := fun hh => he hh.symm
      simp [alookup, he, he', ih]

theorem aremove_sublist {α : Type} (k : String) (l : List (String × α)) :
    (aremove k l).Sublist l := by
  induction l with
  | nil => simp [aremove]
  | cons p rest ih =>
    obtain ⟨e, w⟩ := p
    by_cases he : e = k
    · have hrw : aremove k ((e, w) :: rest) = aremove k rest := by
        simp [aremove, he]
      rw [hrw]
      exact ih.cons _
    · have hrw : aremove k ((e, w) :: rest) = (e, w) :: aremove k rest := by
        simp [aremove, he]
      rw [hrw]
      exact ih.cons₂ _

theorem aremove_eq_self {α : Type} {k : String} {l : List (String × α)}
    (h : k ∉ l.map Prod.fst) : aremove k l = l := by
  induction l with
  | nil => rfl
  | cons p rest ih =>
    obtain ⟨e, w⟩ := p
    simp only [List.map_cons, List.mem_cons] at h
    push_neg at h
    have he : e ≠ k := fun hh => h.1 hh.symm
    simp [aremove, he, ih h.2]

/-! ## Byte accounting and eviction lemmas -/

theorem sumBytes_cons (p : String × L1Val) (rest : List (String × L1Val)) :
    sumBytes (p :: rest) = p.2.size_bytes + sumBytes rest := by
  simp [sumBytes]

theorem sumBytes_append (l₁ l₂ : List (String × L1Val)) :
    sumBytes (l₁ ++ l₂) = sumBytes l₁ + sumBytes l₂ := by
  simp [sumBytes]

theorem sumBytes_aremove {k : String} {l : List (String × L1Val)} {v : L1Val}
    (hnd : (l.map Prod.fst).Nodup) (h : alookup k l = some v) :
    sumBytes l = sumBytes (aremove k l) + v.size_bytes := by
  induction l with
  | nil => simp [alookup] at h
  | cons p rest ih =>
    obtain ⟨e, w⟩ := p
    simp only [List.map_cons, List.nodup_cons] at hnd
    by_cases he : e = k
    · subst he
      simp only [alookup, if_pos rfl] at h
      obtain rfl : w = v := by injection h
      have hr : aremove e rest = rest :=
        aremove_eq_self (by simpa using hnd.1)
      simp [aremove, hr, sumBytes_cons]
      omega
    · simp only [alookup, if_neg he] at h
      simp [aremove, he, sumBytes_cons, ih hnd.2 h]
      omega

theorem evictLoop_suffix (mx : Nat) :
    ∀ (od : List (String × L1Val)) (cur : Int), (evictLoop mx od cur).1 <:+ od := by
  intro od
  induction od with
  | nil => intro cur; simp [evictLoop]
  | cons p rest ih =>
    obtain ⟨e, w⟩ := p
    intro cur
    simp only [evictLoop]
    split
    · exact ((ih _).trans (List.suffix_cons _ _))
    · exact List.suffix_refl _

theorem evictLoop_spec (mx : Nat) :
    ∀ (od : List (String × L1Val)) (cur : Int), cur = (sumBytes od : Int) →
      (evictLoop mx od cur).2 = (sumBytes (evictLoop mx od cur).1 : Int) ∧
      (evictLoop mx od cur).2 ≤ (mx : Int) := by
  intro od
  induction od with
  | nil =>
    intro cur h
    have h0 : cur = 0 := by simpa [sumBytes] using h
    simp only [evictLoop]
    refine ⟨by simpa [sumBytes] using h, ?_⟩
    rw [h0]
    exact Int.natCast_nonneg mx
  | cons p rest ih =>
    obtain ⟨e, w⟩ := p
    intro cur h
    rw [sumBytes_cons] at h
    simp only [evictLoop]
    split
    · apply ih
      push_cast at h ⊢
      omega
    · next hnot =>
      dsimp only
      constructor
      · rw [sumBytes_cons]
        push_cast at h ⊢
        omega
      · omega

/-! ## `_LRU` operation equations and invariants -/

theorem LRU.get_eq_none {l : LRU} {k : String} (h : alookup k l.od = none) :
    l.get k = (none, l) := by
  unfold LRU.get
  rw [h]

theorem LRU.get_eq_some {l : LRU} {k : String} {v : L1Val}
    (h : alookup k l.od = some v) :
    l.get k = (some v, ⟨l.max_bytes, l.current_bytes, aremove k l.od ++ [(k, v)]⟩) := by
  unfold LRU.get
  rw [h]

theorem LRU.set_file_id_eq_none {l : LRU} {k : String} (fid : String)
    (h : alookup k l.od = none) : l.set_file_id k fid = l := by
  unfold LRU.set_file_id
  rw [h]

theorem LRU.set_file_id_eq_some {l : LRU} {k : String} {v : L1Val} (fid : String)
    (h : alookup k l.od = some v) :
    l.set_file_id k fid =
      ⟨l.max_bytes, l.current_bytes,
        aremove k l.od ++ [(k, ⟨some fid, v.data, v.expiry_ts, v.size_bytes⟩)]⟩ := by
  unfold LRU.set_file_id
  rw [h]

theorem LRU.put_eq_none {l : LRU} {k : String} {fid : Option String}
    {data : Option Bytes} {exp : Time} (h : alookup k l.od = none) :
    l.put k fid data exp =
      ⟨l.max_bytes,
        (evictLoop l.max_bytes (l.od ++ [(k, ⟨fid, data, exp, (data.map List.length).getD 0⟩)])
          (l.current_bytes + ((data.map List.length).getD 0 : Int))).2,
        (evictLoop l.max_bytes (l.od ++ [(k, ⟨fid, data, exp, (data.map List.length).getD 0⟩)])
          (l.current_bytes + ((data.map List.length).getD 0 : Int))).1⟩ := by
  unfold LRU.put
  rw [h]

theorem LRU.put_eq_some {l : LRU} {k : String} {fid : Option String}
    {data : Option Bytes} {exp : Time} {old : L1Val} (h : alookup k l.od = some old) :
    l.put k fid data exp =
      ⟨l.max_bytes,
        (evictLoop l.max_bytes
          (aremove k l.od ++ [(k, ⟨fid, data, exp, (data.map List.length).getD 0⟩)])
          (l.current_bytes - (old.size_bytes : Int) + ((data.map List.length).getD 0 : Int))).2,
        (evictLoop l.max_bytes
          (aremove k l.od ++ [(k, ⟨fid, data, exp, (data.map List.length).getD 0⟩)])
          (l.current_bytes - (old.size_bytes : Int) + ((data.map List.length).getD 0 : Int))).1⟩ := by
  unfold LRU.put
  rw [h]

theorem LRU.get_fst (l : LRU) (k : String) : (l.get k).1 = alookup k l.od := by
  cases h : alookup k l.od with
  | none => rw [LRU.get_eq_none h]
  | some v => rw [LRU.get_eq_some h]

theorem LRU.get_lookup (l : LRU) (k k' : String) :
    alookup k' ((l.get k).2).od = alookup k' l.od := by
  cases h : alookup k l.od with
  | none => rw [LRU.get_eq_none h]
  | some v =>
    rw [LRU.get_eq_some h]
    by_cases hk : k' = k
    · subst hk
      rw [alookup_append_none _ (alookup_aremove_self k' l.od)]
      simp [alookup, h]
    · cases hl : alookup k' (aremove k l.od) with
      | some w =>
        rw [alookup_append_some hl]
        rw [alookup_aremove_ne hk] at hl
        exact hl.symm
      | none =>
        rw [alookup_append_none _ hl]
        rw [alookup_aremove_ne hk] at hl
        have hne : k ≠ k' := fun hh => hk hh.symm
        simp [alookup, hne, hl]

theorem LRU.get_max (l : LRU) (k : String) : ((l.get k).2).max_bytes = l.max_bytes := by
  cases h : alookup k l.od with
  | none => rw [LRU.get_eq_none h]
  | some v => rw [LRU.get_eq_some h]

theorem nodup_append_singleton {k : String} {l : List (String × L1Val)}
    (v : L1Val) (hnd : (l.map Prod.fst).Nodup) (hk : k ∉ l.map Prod.fst) :
    ((l ++ [(k, v)]).map Prod.fst).Nodup := by
  simp only [List.map_append, List.map_cons, List.map_nil]
  rw [List.nodup_append]
  exact ⟨hnd, List.nodup_singleton k, by simpa using hk⟩

theorem LRU.get_WF_sum (l : LRU) (k : String) (hwf : l.WF) :
    ((l.get k).2).WF ∧ sumBytes ((l.get k).2).od = sumBytes l.od := by
  obtain ⟨hnd, hcur⟩ := hwf
  cases h : alookup k l.od with
  | none =>
    rw [LRU.get_eq_none h]
    exact ⟨⟨hnd, hcur⟩, rfl⟩
  | some v =>
    rw [LRU.get_eq_some h]
    have hknot : k ∉ (aremove k l.od).map Prod.fst :=
      alookup_eq_none.mp (alookup_aremove_self k l.od)
    have hndrem : ((aremove k l.od).map Prod.fst).Nodup :=
      hnd.sublist ((aremove_sublist k l.od).map Prod.fst)
    have hsum : sumBytes (aremove k l.od ++ [(k, v)]) = sumBytes l.od := by
      rw [sumBytes_append, sumBytes_aremove hnd h]
      simp [sumBytes]
    exact ⟨⟨nodup_append_singleton v hndrem hknot, by rw [hsum]; exact hcur⟩, hsum⟩

theorem LRU.set_file_id_WF_sum (l : LRU) (k : String) (fid : String) (hwf : l.WF) :
    (l.set_file_id k fid).WF ∧ sumBytes (l.set_file_id k fid).od = sumBytes l.od := by
  obtain ⟨hnd, hcur⟩ := hwf
  cases h : alookup k l.od with
  | none =>
    rw [LRU.set_file_id_eq_none fid h]
    exact ⟨⟨hnd, hcur⟩, rfl⟩
  | some v =>
    rw [LRU.set_file_id_eq_some fid h]
    have hknot : k ∉ (aremove k l.od).map Prod.fst :=
      alookup_eq_none.mp (alookup_aremove_self k l.od)
    have hndrem : ((aremove k l.od).map Prod.fst).Nodup :=
      hnd.sublist ((aremove_sublist k l.od).map Prod.fst)
    have hsum : sumBytes (aremove k l.od ++
        [(k, ⟨some fid, v.data, v.expiry_ts, v.size_bytes⟩)]) = sumBytes l.od := by
      rw [sumBytes_append, sumBytes_aremove hnd h]
      simp [sumBytes]
    exact ⟨⟨nodup_append_singleton ⟨some fid, v.data, v.expiry_ts, v.size_bytes⟩
      hndrem hknot, by rw [hsum]; exact hcur⟩, hsum⟩

theorem LRU.put_WF (l : LRU) (k : String) (fid : Option String)
    (data : Option Bytes) (exp : Time) (hwf : l.WF) :
    (l.put k fid data exp).WF ∧
    sumBytes (l.put k fid data exp).od ≤ l.max_bytes := by
  obtain ⟨hnd, hcur⟩ := hwf
  cases h : alookup k l.od with
  | none =>
    rw [LRU.put_eq_none h]
    have hknot : k ∉ l.od.map Prod.fst := alookup_eq_none.mp h
    have hnd₂ := nodup_append_singleton
      (⟨fid, data, exp, (data.map List.length).getD 0⟩ : L1Val) hnd hknot
    have hcur₂ : l.current_bytes + ((data.map List.length).getD 0 : Int) =
        (sumBytes (l.od ++ [(k, ⟨fid, data, exp, (data.map List.length).getD 0⟩)]) : Int) := by
      rw [sumBytes_append, hcur]
      simp [sumBytes]
    obtain ⟨hc3, hle⟩ := evictLoop_spec l.max_bytes _ _ hcur₂
    have hsuf := evictLoop_suffix l.max_bytes
      (l.od ++ [(k, ⟨fid, data, exp, (data.map List.length).getD 0⟩)])
      (l.current_bytes + ((data.map List.length).getD 0 : Int))
    have hnd₃ := hnd₂.sublist ((hsuf.sublist).map Prod.fst)
    refine ⟨⟨hnd₃, hc3⟩, ?_⟩
    rw [hc3] at hle
    exact_mod_cast hle
  | some old =>
    rw [LRU.put_eq_some h]
    have hknot : k ∉ (aremove k l.od).map Prod.fst :=
      alookup_eq_none.mp (alookup_aremove_self k l.od)
    have hndrem : ((aremove k l.od).map Prod.fst).Nodup :=
      hnd.sublist ((aremove_sublist k l.od).map Prod.fst)
    have hnd₂ := nodup_append_singleton
      (⟨fid, data, exp, (data.map List.length).getD 0⟩ : L1Val) hndrem hknot
    have hrem := sumBytes_aremove hnd h
    have hcur₂ : l.current_bytes - (old.size_bytes : Int) +
        ((data.map List.length).getD 0 : Int) =
        (sumBytes ((aremove k l.od) ++
          [(k, ⟨fid, data, exp, (data.map List.length).getD 0⟩)]) : Int) := by
      rw [sumBytes_append, hcur, hrem]
      have hs : sumBytes [(k, (⟨fid, data, exp, (data.map List.length).getD 0⟩ : L1Val))] =
          (data.map List.length).getD 0 := by simp [sumBytes]
      rw [hs]
      push_cast
      ring
    obtain ⟨hc3, hle⟩ := evictLoop_spec l.max_bytes _ _ hcur₂
    have hsuf := evictLoop_suffix l.max_bytes
      (aremove k l.od ++ [(k, ⟨fid, data, exp, (data.map List.length).getD 0⟩)])
      (l.current_bytes - (old.size_bytes : Int) + ((data.map List.length).getD 0 : Int))
    have hnd₃ := hnd₂.sublist ((hsuf.sublist).map Prod.fst)
    refine ⟨⟨hnd₃, hc3⟩, ?_⟩
    rw [hc3] at hle
    exact_mod_cast hle

theorem evictLoop_oversize (mx : Nat) :
    ∀ (od₁ : List (String × L1Val)) (e : String × L1Val) (cur : Int),
      cur = (sumBytes (od₁ ++ [e]) : Int) → (mx : Int) < (e.2.size_bytes : Int) →
      evictLoop mx (od₁ ++ [e]) cur = ([], 0) := by
  intro od₁
  induction od₁ with
  | nil =>
    intro e cur hcur hover
    obtain ⟨ke, ve⟩ := e
    dsimp only at hover
    have hc : cur = (ve.size_bytes : Int) := by simpa [sumBytes] using hcur
    have hlt : (mx : Int) < cur := by omega
    have hz : cur - (ve.size_bytes : Int) = 0 := by omega
    show (if (mx : Int) < cur then evictLoop mx [] (cur - (ve.size_bytes : Int))
      else ((ke, ve) :: [], cur)) = ([], 0)
    rw [if_pos hlt]
    show (([] : List (String × L1Val)), cur - (ve.size_bytes : Int)) = ([], 0)
    rw [hz]
  | cons p rest ih =>
    intro e cur hcur hover
    obtain ⟨kp, vp⟩ := p
    have hsum : cur = (vp.size_bytes : Int) + (sumBytes (rest ++ [e]) : Int) := by
      rw [hcur, List.cons_append, sumBytes_cons]
      push_cast
      ring
    have hle : (e.2.size_bytes : Int) ≤ (sumBytes (rest ++ [e]) : Int) := by
      have : e.2.size_bytes ≤ sumBytes (rest ++ [e]) := by
        rw [sumBytes_append]
        simp [sumBytes]
      exact_mod_cast this
    simp only [List.cons_append, evictLoop]
    rw [if_pos (by omega : (mx : Int) < cur)]
    apply ih
    · rw [hsum]
      ring
    · exact hover

set_option maxRecDepth 8000 in
/-- C9 (counterexample): with a cap of 100, putting a single 150-byte entry
into an empty `_LRU` leaves the dict empty — the eviction loop pops the
oversize entry itself during its own `put`, so it does not remain present
until the next entry arrives, contrary to the claim. -/
theorem C9_counterexample :
    ((LRU.empty 100).put "A" none (some (List.replicate 150 7)) 1).od = [] := by
  decide

/-- C9 (amended): inserting an entry whose size exceeds the whole L1 byte cap
succeeds and immediately evicts every other entry and the oversize entry
itself: `_LRU.put` leaves the dict empty with a zero byte counter. -/
theorem C9_oversize_put (l : LRU) (k : String) (fid : Option String) (b : Bytes)
    (exp : Time) (hwf : l.WF) (hover : l.max_bytes < b.length) :
    (l.put k fid (some b) exp).od = [] ∧ (l.put k fid (some b) exp).current_bytes = 0 := by
  obtain ⟨hnd, hcur⟩ := hwf
  cases h : alookup k l.od with
  | none =>
    rw [LRU.put_eq_none h]
    have hone : sumBytes [(k, (⟨fid, some b, exp, ((some b).map List.length).getD 0⟩ : L1Val))] =
        ((some b).map List.length).getD 0 := by simp [sumBytes]
    have hcur₂ : l.current_bytes + ((((some b).map List.length).getD 0 : Nat) : Int) =
        (sumBytes (l.od ++
          [(k, ⟨fid, some b, exp, ((some b).map List.length).getD 0⟩)]) : Int) := by
      rw [sumBytes_append, hone, hcur]
      push_cast
      ring
    have hover' : (l.max_bytes : Int) <
        ((((some b).map List.length).getD 0 : Nat) : Int) := by
      show (l.max_bytes : Int) < (b.length : Int)
      exact_mod_cast hover
    have hev := evictLoop_oversize l.max_bytes l.od
      (k, ⟨fid, some b, exp, ((some b).map List.length).getD 0⟩) _ hcur₂ hover'
    rw [hev]
    exact ⟨rfl, rfl⟩
  | some old =>
    rw [LRU.put_eq_some h]
    have hrem := sumBytes_aremove hnd h
    have hone : sumBytes [(k, (⟨fid, some b, exp, ((some b).map List.length).getD 0⟩ : L1Val))] =
        ((some b).map List.length).getD 0 := by simp [sumBytes]
    have hcur₂ : l.current_bytes - (old.size_bytes : Int) +
        ((((some b).map List.length).getD 0 : Nat) : Int) =
        (sumBytes (aremove k l.od ++
          [(k, ⟨fid, some b, exp, ((some b).map List.length).getD 0⟩)]) : Int) := by
      rw [sumBytes_append, hone, hcur, hrem]
      push_cast
      ring
    have hover' : (l.max_bytes : Int) <
        ((((some b).map List.length).getD 0 : Nat) : Int) := by
      show (l.max_bytes : Int) < (b.length : Int)
      exact_mod_cast hover
    have hev := evictLoop_oversize l.max_bytes (aremove k l.od)
      (k, ⟨fid, some b, exp, ((some b).map List.length).getD 0⟩) _ hcur₂ hover'
    rw [hev]
    exact ⟨rfl, rfl⟩

/-- Witness for C9: a concrete oversize insert (cap 2, three bytes) leaves an
empty L1. -/
theorem C9_oversize_put_witness :
    ((LRU.empty 2).put "k" none (some [9, 9, 9]) 4).od = [] ∧
    ((LRU.empty 2).put "k" none (some [9, 9, 9]) 4).current_bytes = 0 :=
  C9_oversize_put (LRU.empty 2) "k" none [9, 9, 9] 4 ⟨List.nodup_nil, rfl⟩ (by decide)

set_option maxRecDepth 8000 in
/-- C2 (counterexample): with an L1 byte cap of 100, putting three 60-byte
entries in order A, B, C does not leave B present: B is evicted when C
arrives (60 + 60 > 100), contradicting the claim that B and C both remain. -/
theorem C2_counterexample :
    alookup "B" (((((LRU.empty 100).put "A" none (some (List.replicate 60 0)) 1).put
      "B" none (some (List.replicate 60 0)) 1).put
      "C" none (some (List.replicate 60 0)) 1).od) = none := by
  decide

set_option maxRecDepth 8000 in
/-- C2 (amended): on a well-formed `_LRU`, `put` re-establishes
`sum sizeBytes ≤ cap` unconditionally (evicting oldest-accessed entries
first), while `get` and `set_file_id` keep the sum unchanged (so the bound
persists across every memory-tier operation); and in the concrete scenario
— cap 100, three 60-byte puts A, B, C — exactly C remains, with total 60 ≤ 100. -/
theorem C2_l1_byte_cap :
    (∀ (l : LRU) (k : String) (fid : Option String) (data : Option Bytes) (exp : Time),
      l.WF → (l.put k fid data exp).WF ∧ sumBytes (l.put k fid data exp).od ≤ l.max_bytes) ∧
    (∀ (l : LRU) (k : String), l.WF →
      ((l.get k).2).WF ∧ sumBytes ((l.get k).2).od = sumBytes l.od) ∧
    (∀ (l : LRU) (k fid : String), l.WF →
      (l.set_file_id k fid).WF ∧ sumBytes (l.set_file_id k fid).od = sumBytes l.od) ∧
    ((((LRU.empty 100).put "A" none (some (List.replicate 60 0)) 1).put
        "B" none (some (List.replicate 60 0)) 1).put
        "C" none (some (List.replicate 60 0)) 1).od =
      [("C", ⟨none, some (List.replicate 60 0), 1, 60⟩)] := by
  refine ⟨fun l k fid data exp hwf => LRU.put_WF l k fid data exp hwf,
    fun l k hwf => LRU.get_WF_sum l k hwf,
    fun l k fid hwf => LRU.set_file_id_WF_sum l k fid hwf, ?_⟩
  decide

/-- Witness for C2: the cap bound after a concrete put on a concrete
well-formed LRU. -/
theorem C2_l1_byte_cap_witness :
    ((LRU.empty 10).put "k" none (some [1, 2, 3]) 5).WF ∧
    sumBytes ((LRU.empty 10).put "k" none (some [1, 2, 3]) 5).od ≤ 10 :=
  C2_l1_byte_cap.1 (LRU.empty 10) "k" none (some [1, 2, 3]) 5 ⟨List.nodup_nil, rfl⟩

/-! ## Facade lookup lemmas -/

theorem l1Check_snd (st : CacheState) (now : Time) (key : String) :
    (l1Check st now key).2 = ⟨(st.l1.get key).2, st.blobs, st.metas⟩ := by
  rcases hp : st.l1.get key with ⟨r1, l'⟩
  unfold l1Check
  rw [hp]
  cases r1 with
  | none => rfl
  | some v =>
    by_cases hf : isFresh now v.expiry_ts
    · by_cases ht : truthyStr v.file_id
      · simp [hf, ht]
      · cases hd : v.data <;> simp [hf, ht, hd]
    · simp [hf]

theorem l2CheckOuter_miss (st : CacheState) (now : Time) (key : String)
    (h : (l2CheckOuter st now key).1 = none) : (l2CheckOuter st now key).2 = st := by
  unfold l2CheckOuter at h ⊢
  cases hb : alookup key st.blobs with
  | none => rfl
  | some blob =>
    cases hm : alookup key st.metas with
    | none => rfl
    | some m =>
      rw [hb, hm] at h
      by_cases hf : isFresh now (m.expiry_ts.getD 0)
      · by_cases ht : truthyStr m.file_id <;> simp [hf, ht] at h
      · simp [hf]

theorem l2CheckInner_miss (st : CacheState) (now : Time) (key : String)
    (h : (l2CheckInner st now key).1 = none) : (l2CheckInner st now key).2 = st := by
  unfold l2CheckInner at h ⊢
  cases hb : alookup key st.blobs with
  | none => rfl
  | some blob =>
    cases hm : alookup key st.metas with
    | none => rfl
    | some m =>
      rw [hb, hm] at h
      by_cases hf : isFresh now (m.expiry_ts.getD 0)
      · by_cases ht : truthyStr m.file_id <;> simp [hf, ht] at h
      · simp [hf]

/-- C4: if the producer raises, `get_or_produce` propagates the error
unchanged, and no cache entry is inserted or updated: every L1 binding is
exactly what it was (only LRU recency order may differ) and the L2 blob and
metadata files are untouched. -/
theorem C4_producer_failure (st : CacheState) (now : Time) (key : String)
    (ttl : Time) (e : String) (res : Except String CacheResult)
    (st' : CacheState) (inv : Bool)
    (h : getOrProduce st now key ttl (.error e) = (res, st', inv))
    (hinv : inv = true) :
    res = .error e ∧ (∀ k', alookup k' st'.l1.od = alookup k' st.l1.od) ∧
    st'.blobs = st.blobs ∧ st'.metas = st.metas := by
  subst hinv
  unfold getOrProduce at h
  rcases hc1 : l1Check st now key with ⟨r1, st1⟩
  have hst1 : st1 = ⟨(st.l1.get key).2, st.blobs, st.metas⟩ := by
    have hx := l1Check_snd st now key
    rw [hc1] at hx
    exact hx
  cases r1 with
  | some r =>
    simp only [hc1, Prod.mk.injEq] at h
    exact absurd h.2.2 Bool.false_ne_true
  | none =>
    rcases hc2 : l2CheckOuter st1 now key with ⟨r2, st2⟩
    cases r2 with
    | some r =>
      simp only [hc1, hc2, Prod.mk.injEq] at h
      exact absurd h.2.2 Bool.false_ne_true
    | none =>
      have hst2 : st2 = st1 := by
        have hx := l2CheckOuter_miss st1 now key (by rw [hc2])
        rw [hc2] at hx
        exact hx
      rcases hc3 : l1Check st2 now key with ⟨r3, st3⟩
      have hst3 : st3 = ⟨(st2.l1.get key).2, st2.blobs, st2.metas⟩ := by
        have hx := l1Check_snd st2 now key
        rw [hc3] at hx
        exact hx
      cases r3 with
      | some r =>
        simp only [hc1, hc2, hc3, Prod.mk.injEq] at h
        exact absurd h.2.2 Bool.false_ne_true
      | none =>
        rcases hc4 : l2CheckInner st3 now key with ⟨r4, st4⟩
        cases r4 with
        | some r =>
          simp only [hc1, hc2, hc3, hc4, Prod.mk.injEq] at h
          exact absurd h.2.2 Bool.false_ne_true
        | none =>
          have hst4 : st4 = st3 := by
            have hx := l2CheckInner_miss st3 now key (by rw [hc4])
            rw [hc4] at hx
            exact hx
          simp only [hc1, hc2, hc3, hc4, Prod.mk.injEq] at h
          obtain ⟨hres, hst', -⟩ := h
          subst hst'
          refine ⟨hres.symm, ?_, ?_, ?_⟩
          · intro k'
            rw [hst4, hst3, hst2, hst1]
            show alookup k' ((⟨(st.l1.get key).2, st.blobs, st.metas⟩ :
              CacheState).l1.get key).2.od = alookup k' st.l1.od
            rw [LRU.get_lookup]
            show alookup k' ((st.l1.get key).2).od = alookup k' st.l1.od
            rw [LRU.get_lookup]
          · rw [hst4, hst3, hst2, hst1]
          · rw [hst4, hst3, hst2, hst1]

/-- Witness for C4: a failing producer on an empty cache propagates its error
with all cache maps unchanged. -/
theorem C4_producer_failure_witness :
    (Except.error "boom" : Except String CacheResult) = .error "boom" ∧
    (∀ k', alookup k'
      ((getOrProduce (CacheState.empty 10) 0 "k" 60 (.error "boom")).2.1).l1.od =
      alookup k' (CacheState.empty 10).l1.od) ∧
    ((getOrProduce (CacheState.empty 10) 0 "k" 60 (.error "boom")).2.1).blobs =
      (CacheState.empty 10).blobs ∧
    ((getOrProduce (CacheState.empty 10) 0 "k" 60 (.error "boom")).2.1).metas =
      (CacheState.empty 10).metas := by
  have h := C4_producer_failure (CacheState.empty 10) 0 "k" 60 "boom"
    (getOrProduce (CacheState.empty 10) 0 "k" 60 (.error "boom")).1
    (getOrProduce (CacheState.empty 10) 0 "k" 60 (.error "boom")).2.1
    (getOrProduce (CacheState.empty 10) 0 "k" 60 (.error "boom")).2.2
    rfl (by decide)
  exact ⟨rfl, h.2.1, h.2.2.1, h.2.2.2⟩

/-- C6: on a fresh cache, `get_or_produce` returns the produced bytes and
stores them; a second call at any time `t₁` before `expiresAt = t₀ + ttl`
returns the same bytes without invoking the producer (whatever producer it
is passed); and an entry is fresh exactly when `now < expiresAt`
(`_is_fresh`). -/
theorem C6_freshness_roundtrip (cap : Nat) (key : String) (t₀ t₁ ttl : Time)
    (b : Bytes) (prod₂ : Except String Bytes)
    (hcap : b.length ≤ cap) (ht : t₁ < t₀ + ttl) :
    (∀ now exp : Time, isFresh now exp = true ↔ now < exp) ∧
    (getOrProduce (CacheState.empty cap) t₀ key ttl (.ok b)).1 =
      .ok ⟨none, some b, some key⟩ ∧
    (getOrProduce (CacheState.empty cap) t₀ key ttl (.ok b)).2.2 = true ∧
    (getOrProduce ((getOrProduce (CacheState.empty cap) t₀ key ttl (.ok b)).2.1)
        t₁ key ttl prod₂).1 = .ok ⟨none, some b, none⟩ ∧
    (getOrProduce ((getOrProduce (CacheState.empty cap) t₀ key ttl (.ok b)).2.1)
        t₁ key ttl prod₂).2.2 = false := by
  have hL1e : ∀ t : Time, l1Check (CacheState.empty cap) t key =
      (none, CacheState.empty cap) := by
    intro t
    unfold l1Check
    rw [LRU.get_eq_none (rfl : alookup key (CacheState.empty cap).l1.od = none)]
  have hL2o : l2CheckOuter (CacheState.empty cap) t₀ key =
      (none, CacheState.empty cap) := rfl
  have hL2i : l2CheckInner (CacheState.empty cap) t₀ key =
      (none, CacheState.empty cap) := rfl
  have hput : (CacheState.empty cap).l1.put key none (some b) (t₀ + ttl) =
      ⟨cap, (b.length : Int), [(key, ⟨none, some b, t₀ + ttl, b.length⟩)]⟩ := by
    rw [LRU.put_eq_none (rfl : alookup key (CacheState.empty cap).l1.od = none)]
    have hnolt : ¬ (cap < b.length) := Nat.not_lt.mpr hcap
    simp [evictLoop, hnolt, CacheState.empty, LRU.empty]
  have hcall1 : getOrProduce (CacheState.empty cap) t₀ key ttl (.ok b) =
      (.ok ⟨none, some b, some key⟩,
        ⟨⟨cap, (b.length : Int), [(key, ⟨none, some b, t₀ + ttl, b.length⟩)]⟩,
          [(key, b)],
          [(key, ⟨some (t₀ + ttl), none, some b.length, some t₀, some t₀⟩)]⟩,
        true) := by
    unfold getOrProduce
    simp only [hL1e, hL2o, hL2i]
    simp only [commitProduce]
    rw [hput]
    rfl
  rw [hcall1]
  refine ⟨fun now exp => by simp [isFresh], rfl, rfl, ?_, ?_⟩ <;>
  · have hfresh : isFresh t₁ (t₀ + ttl) = true := decide_eq_true ht
    have hlook : alookup key
        [(key, (⟨none, some b, t₀ + ttl, b.length⟩ : L1Val))] =
        some ⟨none, some b, t₀ + ttl, b.length⟩ := by simp [alookup]
    have hc2 : l1Check (⟨⟨cap, (b.length : Int),
        [(key, ⟨none, some b, t₀ + ttl, b.length⟩)]⟩,
        [(key, b)],
        [(key, ⟨some (t₀ + ttl), none, some b.length, some t₀, some t₀⟩)]⟩ : CacheState)
        t₁ key =
        (some ⟨none, some b, none⟩,
          ⟨⟨cap, (b.length : Int), [(key, ⟨none, some b, t₀ + ttl, b.length⟩)]⟩,
            [(key, b)],
            [(key, ⟨some (t₀ + ttl), none, some b.length, some t₀, some t₀⟩)]⟩) := by
      unfold l1Check
      rw [LRU.get_eq_some hlook]
      simp [hfresh, truthyStr, aremove]
    unfold getOrProduce
    simp only [hc2]

/-- Witness for C6: concrete numbers — produce at time 0 with ttl 60, read
back at time 59. -/
theorem C6_freshness_roundtrip_witness :
    (∀ now exp : Time, isFresh now exp = true ↔ now < exp) ∧
    (getOrProduce (CacheState.empty 10) 0 "k" 60 (.ok [1, 2])).1 =
      .ok ⟨none, some [1, 2], some "k"⟩ ∧
    (getOrProduce (CacheState.empty 10) 0 "k" 60 (.ok [1, 2])).2.2 = true ∧
    (getOrProduce ((getOrProduce (CacheState.empty 10) 0 "k" 60 (.ok [1, 2])).2.1)
        59 "k" 60 (.ok [9])).1 = .ok ⟨none, some [1, 2], none⟩ ∧
    (getOrProduce ((getOrProduce (CacheState.empty 10) 0 "k" 60 (.ok [1, 2])).2.1)
        59 "k" 60 (.ok [9])).2.2 = false :=
  C6_freshness_roundtrip 10 "k" 0 59 60 [1, 2] (.ok [9]) (by decide) (by norm_num)

theorem l1Check_none (st : CacheState) (now : Time) (key : String)
    (h : alookup key st.l1.od = none) : l1Check st now key = (none, st) := by
  unfold l1Check
  rw [LRU.get_eq_none h]

theorem l1Check_hit_data (st : CacheState) (now : Time) (key : String) (b : Bytes)
    (e : Time) (sz : Nat) (h : alookup key st.l1.od = some ⟨none, some b, e, sz⟩)
    (hf : isFresh now e = true) :
    l1Check st now key = (some ⟨none, some b, none⟩,
      ⟨⟨st.l1.max_bytes, st.l1.current_bytes,
        aremove key st.l1.od ++ [(key, ⟨none, some b, e, sz⟩)]⟩, st.blobs, st.metas⟩) := by
  unfold l1Check
  rw [LRU.get_eq_some h]
  simp [hf, truthyStr]

theorem l1Check_hit_fid (st : CacheState) (now : Time) (key fid : String)
    (d : Option Bytes) (e : Time) (sz : Nat)
    (h : alookup key st.l1.od = some ⟨some fid, d, e, sz⟩)
    (hf : isFresh now e = true) (hfid : fid ≠ "") :
    l1Check st now key = (some ⟨some fid, none, none⟩,
      ⟨⟨st.l1.max_bytes, st.l1.current_bytes,
        aremove key st.l1.od ++ [(key, ⟨some fid, d, e, sz⟩)]⟩, st.blobs, st.metas⟩) := by
  unfold l1Check
  rw [LRU.get_eq_some h]
  simp [hf, truthyStr, hfid]

theorem l1Check_stale (st : CacheState) (now : Time) (key : String) (v : L1Val)
    (h : alookup key st.l1.od = some v) (hf : isFresh now v.expiry_ts = false) :
    l1Check st now key = (none,
      ⟨⟨st.l1.max_bytes, st.l1.current_bytes,
        aremove key st.l1.od ++ [(key, v)]⟩, st.blobs, st.metas⟩) := by
  unfold l1Check
  rw [LRU.get_eq_some h]
  simp [hf]

theorem l2CheckOuter_hit_fid (st : CacheState) (now : Time) (key : String)
    (b : Bytes) (m : MetaRec)
    (hb : alookup key st.blobs = some b) (hm : alookup key st.metas = some m)
    (hf : isFresh now (m.expiry_ts.getD 0) = true) (ht : truthyStr m.file_id = true) :
    l2CheckOuter st now key =
      (some ⟨m.file_id, none, some key⟩,
        ⟨st.l1.put key m.file_id none (m.expiry_ts.getD 0), st.blobs,
          ainsert key ⟨m.expiry_ts, m.file_id, m.byte_len, m.created_ts, some now⟩
            st.metas⟩) := by
  unfold l2CheckOuter
  rw [hb, hm]
  simp [hf, ht]

theorem l2CheckOuter_hit_data (st : CacheState) (now : Time) (key : String)
    (b : Bytes) (m : MetaRec)
    (hb : alookup key st.blobs = some b) (hm : alookup key st.metas = some m)
    (hf : isFresh now (m.expiry_ts.getD 0) = true) (ht : truthyStr m.file_id = false) :
    l2CheckOuter st now key =
      (some ⟨none, some b, some key⟩,
        ⟨st.l1.put key none (some b) (m.expiry_ts.getD 0), st.blobs,
          ainsert key ⟨m.expiry_ts, m.file_id, m.byte_len, m.created_ts, some now⟩
            st.metas⟩) := by
  unfold l2CheckOuter
  rw [hb, hm]
  simp [hf, ht]

theorem l2CheckOuter_noblob (st : CacheState) (now : Time) (key : String)
    (hb : alookup key st.blobs = none) : l2CheckOuter st now key = (none, st) := by
  unfold l2CheckOuter
  rw [hb]

theorem l2CheckInner_hit_data (st : CacheState) (now : Time) (key : String)
    (b : Bytes) (m : MetaRec)
    (hb : alookup key st.blobs = some b) (hm : alookup key st.metas = some m)
    (hf : isFresh now (m.expiry_ts.getD 0) = true) (ht : truthyStr m.file_id = false) :
    l2CheckInner st now key =
      (some ⟨none, some b, some key⟩,
        ⟨st.l1.put key none (some b) (m.expiry_ts.getD 0), st.blobs, st.metas⟩) := by
  unfold l2CheckInner
  rw [hb, hm]
  simp [hf, ht]

theorem l2CheckInner_noblob (st : CacheState) (now : Time) (key : String)
    (hb : alookup key st.blobs = none) : l2CheckInner st now key = (none, st) := by
  unfold l2CheckInner
  rw [hb]

/-- C7 (counterexample): `remember_file_id` does NOT attach a new `expiresAt`
to the L1 entry: with an entry whose L1 expiry is 10, remembering a handle
at time 100 with ttl 60 leaves the L1 expiry at 10 (not 160). -/
theorem C7_counterexample :
    alookup "k" ((rememberFileId
      ⟨⟨100, 1, [("k", ⟨none, some [0], 10, 1⟩)]⟩, [("k", [0])], []⟩
      100 "k" "h1" 60).l1.od) = some ⟨some "h1", some [0], 10, 1⟩ ∧
    (10 : Time) ≠ 100 + 60 := by
  exact ⟨by decide, by norm_num⟩

/-- C7 (amended): `remember_file_id` attaches the handle to the existing L1
entry but keeps the entry's old `expiresAt` and bytes; it rewrites the L2
metadata with the handle and the new `expiresAt` without touching the blob;
and a subsequent `get_or_produce` inside the remember window returns the
handle with no bytes read and no producer invocation (via a fresh L1 hit or,
once the L1 expiry has passed, via the still-fresh L2 metadata). -/
theorem C7_remember_handle (st : CacheState) (key fid : String) (b : Bytes)
    (e₀ t₁ t₂ ttl₁ ttl₂ : Time) (m₀ : MetaRec)
    (hfid : fid ≠ "")
    (hl1 : alookup key st.l1.od = some ⟨none, some b, e₀, b.length⟩)
    (hblob : alookup key st.blobs = some b)
    (hmeta : alookup key st.metas = some m₀)
    (ht₂ : t₂ < t₁ + ttl₁) :
    alookup key (rememberFileId st t₁ key fid ttl₁).l1.od =
      some ⟨some fid, some b, e₀, b.length⟩ ∧
    alookup key (rememberFileId st t₁ key fid ttl₁).metas =
      some ⟨some (t₁ + ttl₁), some fid, m₀.byte_len, m₀.created_ts, some t₁⟩ ∧
    (rememberFileId st t₁ key fid ttl₁).blobs = st.blobs ∧
    ∀ prod : Except String Bytes,
      ((getOrProduce (rememberFileId st t₁ key fid ttl₁) t₂ key ttl₂ prod).1 =
          .ok ⟨some fid, none, none⟩ ∨
        (getOrProduce (rememberFileId st t₁ key fid ttl₁) t₂ key ttl₂ prod).1 =
          .ok ⟨some fid, none, some key⟩) ∧
      (getOrProduce (rememberFileId st t₁ key fid ttl₁) t₂ key ttl₂ prod).2.2 =
        false := by
  have hl1' : alookup key (rememberFileId st t₁ key fid ttl₁).l1.od =
      some ⟨some fid, some b, e₀, b.length⟩ := by
    show alookup key (st.l1.set_file_id key fid).od = _
    rw [LRU.set_file_id_eq_some fid hl1]
    exact alookup_ainsert_self key _ st.l1.od
  have hmet' : alookup key (rememberFileId st t₁ key fid ttl₁).metas =
      some ⟨some (t₁ + ttl₁), some fid, m₀.byte_len, m₀.created_ts, some t₁⟩ := by
    unfold rememberFileId
    dsimp only
    rw [hmeta]
    simp only [Option.getD_some]
    exact alookup_ainsert_self key _ st.metas
  have hsb : (rememberFileId st t₁ key fid ttl₁).blobs = st.blobs := rfl
  refine ⟨hl1', hmet', hsb, ?_⟩
  intro prod
  by_cases hfr : t₂ < e₀
  · have hc1 := l1Check_hit_fid (rememberFileId st t₁ key fid ttl₁) t₂ key fid
      (some b) e₀ b.length hl1' (decide_eq_true hfr) hfid
    unfold getOrProduce
    simp only [hc1]
    exact ⟨Or.inl (by trivial), by trivial⟩
  · have hc1 := l1Check_stale (rememberFileId st t₁ key fid ttl₁) t₂ key
      ⟨some fid, some b, e₀, b.length⟩ hl1' (decide_eq_false hfr)
    have hbM : alookup key ((⟨⟨(rememberFileId st t₁ key fid ttl₁).l1.max_bytes,
        (rememberFileId st t₁ key fid ttl₁).l1.current_bytes,
        aremove key (rememberFileId st t₁ key fid ttl₁).l1.od ++
          [(key, ⟨some fid, some b, e₀, b.length⟩)]⟩,
        (rememberFileId st t₁ key fid ttl₁).blobs,
        (rememberFileId st t₁ key fid ttl₁).metas⟩ : CacheState)).blobs = some b := hblob
    have hmM : alookup key ((⟨⟨(rememberFileId st t₁ key fid ttl₁).l1.max_bytes,
        (rememberFileId st t₁ key fid ttl₁).l1.current_bytes,
        aremove key (rememberFileId st t₁ key fid ttl₁).l1.od ++
          [(key, ⟨some fid, some b, e₀, b.length⟩)]⟩,
        (rememberFileId st t₁ key fid ttl₁).blobs,
        (rememberFileId st t₁ key fid ttl₁).metas⟩ : CacheState)).metas =
        some ⟨some (t₁ + ttl₁), some fid, m₀.byte_len, m₀.created_ts, some t₁⟩ := hmet'
    have hc2 := l2CheckOuter_hit_fid _ t₂ key b _ hbM hmM
      (by simp only [Option.getD_some]; exact decide_eq_true ht₂)
      (by simp [truthyStr, hfid])
    unfold getOrProduce
    simp only [hc1, hc2]
    exact ⟨Or.inr (by trivial), by trivial⟩

/-- Witness for C7: concrete instantiation of the amended claim. -/
theorem C7_remember_handle_witness :
    alookup "k" ((rememberFileId
        ⟨⟨100, 2, [("k", ⟨none, some [3, 4], 10, 2⟩)]⟩, [("k", [3, 4])],
          [("k", ⟨some 10, none, some 2, some 1, some 1⟩)]⟩
        100 "k" "h1" 60).l1.od) = some ⟨some "h1", some [3, 4], 10, 2⟩ ∧
    alookup "k" ((rememberFileId
        ⟨⟨100, 2, [("k", ⟨none, some [3, 4], 10, 2⟩)]⟩, [("k", [3, 4])],
          [("k", ⟨some 10, none, some 2, some 1, some 1⟩)]⟩
        100 "k" "h1" 60).metas) =
      some ⟨some (100 + 60), some "h1", some 2, some 1, some 100⟩ ∧
    (rememberFileId
        ⟨⟨100, 2, [("k", ⟨none, some [3, 4], 10, 2⟩)]⟩, [("k", [3, 4])],
          [("k", ⟨some 10, none, some 2, some 1, some 1⟩)]⟩
        100 "k" "h1" 60).blobs = [("k", [3, 4])] ∧
    ∀ prod : Except String Bytes,
      ((getOrProduce (rememberFileId
          ⟨⟨100, 2, [("k", ⟨none, some [3, 4], 10, 2⟩)]⟩, [("k", [3, 4])],
            [("k", ⟨some 10, none, some 2, some 1, some 1⟩)]⟩
          100 "k" "h1" 60) 120 "k" 60 prod).1 = .ok ⟨some "h1", none, none⟩ ∨
        (getOrProduce (rememberFileId
          ⟨⟨100, 2, [("k", ⟨none, some [3, 4], 10, 2⟩)]⟩, [("k", [3, 4])],
            [("k", ⟨some 10, none, some 2, some 1, some 1⟩)]⟩
          100 "k" "h1" 60) 120 "k" 60 prod).1 = .ok ⟨some "h1", none, some "k"⟩) ∧
      (getOrProduce (rememberFileId
          ⟨⟨100, 2, [("k", ⟨none, some [3, 4], 10, 2⟩)]⟩, [("k", [3, 4])],
            [("k", ⟨some 10, none, some 2, some 1, some 1⟩)]⟩
          100 "k" "h1" 60) 120 "k" 60 prod).2.2 = false := by
  have h := C7_remember_handle
    ⟨⟨100, 2, [("k", ⟨none, some [3, 4], 10, 2⟩)]⟩, [("k", [3, 4])],
      [("k", ⟨some 10, none, some 2, some 1, some 1⟩)]⟩
    "k" "h1" [3, 4] 10 100 120 60 60 ⟨some 10, none, some 2, some 1, some 1⟩
    (by decide) (by decide) (by decide) (by decide) (by norm_num)
  exact h

/-- C10: calling `remember_file_id` for a key that was never produced leaves
L1 untouched (`set_file_id` is a no-op for an absent key) while still
creating a metadata file carrying the handle; the blob file remains absent,
so a subsequent `get_or_produce` treats this metadata-without-blob state as
a miss (an L2 hit requires both files) and invokes the producer. -/
theorem C10_remember_without_blob (st : CacheState) (key fid : String)
    (t₁ t₂ ttl₁ ttl₂ : Time) (prod : Except String Bytes)
    (hl1 : alookup key st.l1.od = none)
    (hblob : alookup key st.blobs = none) :
    (rememberFileId st t₁ key fid ttl₁).l1 = st.l1 ∧
    (∃ m : MetaRec, alookup key (rememberFileId st t₁ key fid ttl₁).metas = some m ∧
      m.file_id = some fid) ∧
    alookup key (rememberFileId st t₁ key fid ttl₁).blobs = none ∧
    (getOrProduce (rememberFileId st t₁ key fid ttl₁) t₂ key ttl₂ prod).2.2 = true := by
  have hl1' : (rememberFileId st t₁ key fid ttl₁).l1 = st.l1 := by
    show st.l1.set_file_id key fid = st.l1
    exact LRU.set_file_id_eq_none fid hl1
  have hlook : alookup key (rememberFileId st t₁ key fid ttl₁).l1.od = none := by
    rw [hl1']
    exact hl1
  have hc1 : l1Check (rememberFileId st t₁ key fid ttl₁) t₂ key =
      (none, rememberFileId st t₁ key fid ttl₁) := l1Check_none _ t₂ key hlook
  have hb' : alookup key (rememberFileId st t₁ key fid ttl₁).blobs = none := hblob
  have hc2 : l2CheckOuter (rememberFileId st t₁ key fid ttl₁) t₂ key =
      (none, rememberFileId st t₁ key fid ttl₁) := l2CheckOuter_noblob _ t₂ key hb'
  have hc4 : l2CheckInner (rememberFileId st t₁ key fid ttl₁) t₂ key =
      (none, rememberFileId st t₁ key fid ttl₁) := l2CheckInner_noblob _ t₂ key hb'
  refine ⟨hl1', ⟨_, alookup_ainsert_self key _ st.metas, rfl⟩, hb', ?_⟩
  unfold getOrProduce
  simp only [hc1, hc2, hc4]
  cases prod with
  | error e => rfl
  | ok data => rfl

/-- Witness for C10: concrete never-produced key. -/
theorem C10_remember_without_blob_witness :
    (rememberFileId (CacheState.empty 10) 5 "k" "h1" 60).l1 =
      (CacheState.empty 10).l1 ∧
    (∃ m : MetaRec,
      alookup "k" (rememberFileId (CacheState.empty 10) 5 "k" "h1" 60).metas = some m ∧
      m.file_id = some "h1") ∧
    alookup "k" (rememberFileId (CacheState.empty 10) 5 "k" "h1" 60).blobs = none ∧
    (getOrProduce (rememberFileId (CacheState.empty 10) 5 "k" "h1" 60)
      6 "k" 60 (.ok [7])).2.2 = true :=
  C10_remember_without_blob (CacheState.empty 10) "k" "h1" 5 6 60 60 (.ok [7])
    (by decide) (by decide)

/-! ## Janitor lemmas -/

theorem evictNames_spec (target : Int) (htarget : 0 ≤ target) :
    ∀ (es : List JEntry) (total : Int), total = ((es.map (·.size)).sum : Int) →
      ∃ kn : Nat, evictNames target es total = ((es.take kn).map (·.name)) ∧
        ((((es.drop kn).map (·.size)).sum : Int) ≤ target) ∧ kn ≤ es.length := by
  intro es
  induction es with
  | nil =>
    intro total htot
    refine ⟨0, rfl, ?_, Nat.le_refl 0⟩
    simpa using htarget
  | cons e rest ih =>
    intro total htot
    simp only [List.map_cons, List.sum_cons] at htot
    by_cases hstop : total - (e.size : Int) ≤ target
    · refine ⟨1, ?_, ?_, by simp⟩
      · unfold evictNames
        rw [if_pos hstop]
        rfl
      · simp only [List.drop_one, List.tail_cons]
        omega
    · obtain ⟨kn, h1, h2, h3⟩ := ih (total - (e.size : Int)) (by omega)
      refine ⟨kn + 1, ?_, ?_, by simpa using h3⟩
      · unfold evictNames
        rw [if_neg hstop]
        simp only [List.take_succ_cons, List.map_cons]
        rw [h1]
      · simpa using h2

set_option maxRecDepth 4000 in
/-- C3: when the total size of the scanned blobs exceeds the L2 byte cap, a
janitor pass deletes blob+metadata pairs that form a prefix of the entries
sorted by ascending `lastUsedAt` (oldest first), until the remaining total is
at most `int(0.9 * cap)`; concretely, with a cap of 1000 and five 300-byte
blobs with strictly increasing `lastUsedAt`, exactly the two oldest are
removed, leaving 900 ≤ 900 bytes. -/
theorem C3_janitor (cap : Nat) (es : List JEntry)
    (hover : (cap : Int) < ((es.map (·.size)).sum : Int)) :
    (∃ kn : Nat, janitorDeletes cap es = (((sortEntries es).take kn).map (·.name)) ∧
      ((((sortEntries es).drop kn).map (·.size)).sum : Int) ≤ ((9 * cap / 10 : Nat) : Int)) ∧
    List.Pairwise (fun a b : JEntry => a.last_used ≤ b.last_used) (sortEntries es) ∧
    (sortEntries es).Perm es ∧
    janitorDeletes 1000
      [⟨1, 300, "b1"⟩, ⟨2, 300, "b2"⟩, ⟨3, 300, "b3"⟩, ⟨4, 300, "b4"⟩, ⟨5, 300, "b5"⟩] =
      ["b1", "b2"] := by
  have hperm : (sortEntries es).Perm es :=
    List.perm_insertionSort (fun a b : JEntry => a.last_used ≤ b.last_used) es
  refine ⟨?_, ?_, hperm, by decide⟩
  · have hsum : ((sortEntries es).map (fun x : JEntry => (x.size : Int))).sum =
        (es.map (fun x : JEntry => (x.size : Int))).sum :=
      (hperm.map (fun x : JEntry => (x.size : Int))).sum_eq
    unfold janitorDeletes
    rw [if_neg (by omega : ¬(((es.map (·.size)).sum : Int) ≤ (cap : Int)))]
    obtain ⟨kn, h1, h2, -⟩ := evictNames_spec ((9 * cap / 10 : Nat) : Int)
      (Int.natCast_nonneg _) (sortEntries es) ((es.map (·.size)).sum : Int) hsum.symm
    exact ⟨kn, h1, h2⟩
  · haveI : IsTotal JEntry (fun a b : JEntry => a.last_used ≤ b.last_used) :=
      ⟨fun a b => le_total a.last_used b.last_used⟩
    haveI : IsTrans JEntry (fun a b : JEntry => a.last_used ≤ b.last_used) :=
      ⟨fun a b c hab hbc => le_trans hab hbc⟩
    exact List.sorted_insertionSort _ es

/-- Witness for C3: a concrete over-cap state (cap 10, two blobs of 8 bytes)
has its deletions forming a prefix of the lastUsed-sorted entries with the
remaining total within 90% of cap. -/
theorem C3_janitor_witness :
    (∃ kn : Nat, janitorDeletes 10 [⟨2, 8, "y"⟩, ⟨1, 8, "x"⟩] =
      (((sortEntries [⟨2, 8, "y"⟩, ⟨1, 8, "x"⟩]).take kn).map (·.name)) ∧
      ((((sortEntries [⟨2, 8, "y"⟩, ⟨1, 8, "x"⟩]).drop kn).map (·.size)).sum : Int) ≤
        ((9 * 10 / 10 : Nat) : Int)) ∧
    List.Pairwise (fun a b : JEntry => a.last_used ≤ b.last_used)
      (sortEntries [⟨2, 8, "y"⟩, ⟨1, 8, "x"⟩]) ∧
    (sortEntries [⟨2, 8, "y"⟩, ⟨1, 8, "x"⟩]).Perm [⟨2, 8, "y"⟩, ⟨1, 8, "x"⟩] ∧
    janitorDeletes 1000
      [⟨1, 300, "b1"⟩, ⟨2, 300, "b2"⟩, ⟨3, 300, "b3"⟩, ⟨4, 300, "b4"⟩, ⟨5, 300, "b5"⟩] =
      ["b1", "b2"] :=
  C3_janitor 10 [⟨2, 8, "y"⟩, ⟨1, 8, "x"⟩] (by decide)

/-- C8: the janitor is NOT fault tolerant to a blob that disappears
mid-scan.  The `except` handler of the scan loop re-runs `p.stat()`, which
raises again when the blob is gone, so the pass aborts with the error (the
remaining files are never scanned and nothing is evicted) instead of
skipping the file; by contrast corrupt metadata on a still-present blob is
tolerated via the mtime fallback.  (The error stays inside the fire-and-
forget `asyncio.create_task` janitor task, so it still never reaches the
foreground caller of `get_or_produce`.) -/
theorem C8_vanished_blob_aborts :
    janitorScan
      [⟨"a", true, 300, 1, .ok (some 1)⟩,
        ⟨"gone", false, 300, 2, .ok (some 2)⟩,
        ⟨"c", true, 300, 3, .corrupt⟩] = .error "gone" ∧
    janitorScan [⟨"c", true, 300, 3, .corrupt⟩] = .ok [(3, 300)] := by
  exact ⟨rfl, rfl⟩

/-! ## Canonicalization: structural lemmas -/

theorem JVal.indMem {motive : JVal → Prop}
    (hnull : motive .null) (hbool : ∀ b, motive (.bool b))
    (hint : ∀ n, motive (.int n)) (hstr : ∀ s, motive (.str s))
    (harr : ∀ xs, (∀ x ∈ xs, motive x) → motive (.arr xs))
    (hobj : ∀ fs, (∀ p ∈ fs, motive p.2) → motive (.obj fs)) :
    ∀ v, motive v
  | .null => hnull
  | .bool b => hbool b
  | .int n => hint n
  | .str s => hstr s
  | .arr xs => harr xs (fun x hx =>
      JVal.indMem hnull hbool hint hstr harr hobj x)
  | .obj fs => hobj fs (fun p hp =>
      JVal.indMem hnull hbool hint hstr harr hobj p.2)
termination_by v => sizeOf v
decreasing_by
  · have h := List.sizeOf_lt_of_mem hx
    simp only [JVal.arr.sizeOf_spec]
    omega
  · have h := List.sizeOf_lt_of_mem hp
    rcases hp' : p with ⟨k, v⟩
    rw [hp'] at h
    simp only [Prod.mk.sizeOf_spec] at h
    simp only [JVal.obj.sizeOf_spec, hp']
    omega

theorem sizeJ_arr (xs : List JVal) :
    sizeJ (.arr xs) = 1 + ((xs.map sizeJ).sum + xs.length) := by
  simp only [sizeJ, List.attach_map_val]

theorem sizeJ_obj (fs : List (String × JVal)) :
    sizeJ (.obj fs) = 1 + ((fs.map (fun p => sizeJ p.2)).sum + fs.length) := by
  simp only [sizeJ]
  rw [List.attach_map_val fs (fun p => sizeJ p.2)]

theorem wfJ_arr (xs : List JVal) :
    wfJ (.arr xs) = true ↔ ∀ x ∈ xs, wfJ x = true := by
  simp only [wfJ, List.all_eq_true]
  constructor
  · intro h x hx
    exact h ⟨x, hx⟩ (List.mem_attach _ _)
  · intro h p _
    exact h p.1 p.2

theorem wfJ_obj (fs : List (String × JVal)) :
    wfJ (.obj fs) = true ↔
      (fs.map Prod.fst).Nodup ∧ ∀ p ∈ fs, wfJ p.2 = true := by
  simp only [wfJ, Bool.and_eq_true, List.all_eq_true, decide_eq_true_eq]
  constructor
  · intro h
    exact ⟨h.1, fun p hp => h.2 ⟨p, hp⟩ (List.mem_attach _ _)⟩
  · intro h
    exact ⟨h.1, fun p _ => h.2 p.1 p.2⟩

theorem canonJ_arr (xs : List JVal) :
    canonJ (.arr xs) = .arr (xs.map canonJ) := by
  simp only [canonJ, List.attach_map_val]

theorem canonJ_obj (fs : List (String × JVal)) :
    canonJ (.obj fs) = .obj (sortFields (fs.map (fun p => (p.1, canonJ p.2)))) := by
  simp only [canonJ]
  rw [List.attach_map_val fs (fun p => (p.1, canonJ p.2))]

theorem encodePlain_arr (xs : List JVal) :
    encodePlain (.arr xs) = '[' :: sepList (xs.map encodePlain) ++ [']'] := by
  simp only [encodePlain, List.attach_map_val]

theorem encodePlain_obj (fs : List (String × JVal)) :
    encodePlain (.obj fs) =
      '{' :: sepList (fs.map (fun p => encStr p.1 ++ ':' :: encodePlain p.2)) ++ ['}'] := by
  simp only [encodePlain]
  rw [List.attach_map_val fs (fun p => encStr p.1 ++ ':' :: encodePlain p.2)]

theorem encodeSorted_arr (xs : List JVal) :
    encodeSorted (.arr xs) = '[' :: sepList (xs.map encodeSorted) ++ [']'] := by
  simp only [encodeSorted, List.attach_map_val]

theorem encodeSorted_obj (fs : List (String × JVal)) :
    encodeSorted (.obj fs) =
      '{' :: sepList ((sortFields fs).map
        (fun p => encStr p.1 ++ ':' :: encodeSorted p.2)) ++ ['}'] := by
  simp only [encodeSorted]
  rw [List.attach_map_val (sortFields fs) (fun p => encStr p.1 ++ ':' :: encodeSorted p.2)]

/-! ## Character and escape round trips -/

theorem toNat_ofNat_valid {n : Nat} (h : n.isValidChar) : (Char.ofNat n).toNat = n := by
  rw [Char.ofNat, dif_pos h]
  rfl

theorem not_surrogate (c : Char) : c.toNat < 55296 ∨ 57343 < c.toNat := by
  rcases c.valid with h | ⟨h1, _⟩
  · exact Or.inl h
  · exact Or.inr h1

theorem toNat_lt_valid (c : Char) : c.toNat < 1114112 := by
  rcases c.valid with h | ⟨_, h2⟩
  · exact Nat.lt_trans h (by norm_num)
  · exact h2

theorem hexVal_hexDigitChar {k : Nat} (hk : k < 16) :
    hexVal (hexDigitChar k) = some k := by
  unfold hexDigitChar hexVal
  by_cases h : k < 10
  · rw [if_pos h]
    have ht : (Char.ofNat (48 + k)).toNat = 48 + k :=
      toNat_ofNat_valid (Or.inl (by omega))
    rw [ht, if_pos (by omega : 48 ≤ 48 + k ∧ 48 + k ≤ 57)]
    congr 1
    omega
  · rw [if_neg h]
    have ht : (Char.ofNat (87 + k)).toNat = 87 + k :=
      toNat_ofNat_valid (Or.inl (by omega))
    rw [ht, if_neg (by omega : ¬(48 ≤ 87 + k ∧ 87 + k ≤ 57)),
      if_pos (by omega : 97 ≤ 87 + k ∧ 87 + k ≤ 102)]
    congr 1
    omega

theorem hexRecon (m : Nat) (hm : m < 65536) :
    ((m / 4096 % 16 * 16 + m / 256 % 16) * 16 + m / 16 % 16) * 16 + m % 16 = m := by
  omega

theorem psb_quote (fuel : Nat) (r : List Char) :
    parseStringBody (fuel + 1) ('"' :: r) = some ([], r) := by
  simp [parseStringBody]

theorem psb_lit (fuel : Nat) (c : Char) (r : List Char) (h1 : ¬ c = '"')
    (h2 : ¬ c = '\\') :
    parseStringBody (fuel + 1) (c :: r) =
      (parseStringBody fuel r).map (fun p => (c :: p.1, p.2)) := by
  simp [parseStringBody, h1, h2]

theorem psb_esc_quote (fuel : Nat) (r : List Char) :
    parseStringBody (fuel + 1) ('\\' :: '"' :: r) =
      (parseStringBody fuel r).map (fun p => ('"' :: p.1, p.2)) := by
  simp [parseStringBody]

theorem psb_esc_backslash (fuel : Nat) (r : List Char) :
    parseStringBody (fuel + 1) ('\\' :: '\\' :: r) =
      (parseStringBody fuel r).map (fun p => ('\\' :: p.1, p.2)) := by
  simp [parseStringBody]

theorem psb_esc_n (fuel : Nat) (r : List Char) :
    parseStringBody (fuel + 1) ('\\' :: 'n' :: r) =
      (parseStringBody fuel r).map (fun p => ('\n' :: p.1, p.2)) := by
  simp [parseStringBody]

theorem psb_esc_r (fuel : Nat) (r : List Char) :
    parseStringBody (fuel + 1) ('\\' :: 'r' :: r) =
      (parseStringBody fuel r).map (fun p => ('\r' :: p.1, p.2)) := by
  simp [parseStringBody]

theorem psb_esc_t (fuel : Nat) (r : List Char) :
    parseStringBody (fuel + 1) ('\\' :: 't' :: r) =
      (parseStringBody fuel r).map (fun p => ('\t' :: p.1, p.2)) := by
  simp [parseStringBody]

theorem psb_esc_b (fuel : Nat) (r : List Char) :
    parseStringBody (fuel + 1) ('\\' :: 'b' :: r) =
      (parseStringBody fuel r).map (fun p => (Char.ofNat 8 :: p.1, p.2)) := by
  simp [parseStringBody]

theorem psb_esc_f (fuel : Nat) (r : List Char) :
    parseStringBody (fuel + 1) ('\\' :: 'f' :: r) =
      (parseStringBody fuel r).map (fun p => (Char.ofNat 12 :: p.1, p.2)) := by
  simp [parseStringBody]

theorem psb_u_bmp (fuel : Nat) (a b2 c2 d : Char) (r : List Char) (va vb vc vd : Nat)
    (ha : hexVal a = some va) (hb : hexVal b2 = some vb)
    (hc : hexVal c2 = some vc) (hd : hexVal d = some vd)
    (hns : ¬(55296 ≤ ((va * 16 + vb) * 16 + vc) * 16 + vd ∧
      ((va * 16 + vb) * 16 + vc) * 16 + vd ≤ 56319)) :
    parseStringBody (fuel + 1) ('\\' :: 'u' :: a :: b2 :: c2 :: d :: r) =
      (parseStringBody fuel r).map (fun p =>
        (Char.ofNat (((va * 16 + vb) * 16 + vc) * 16 + vd) :: p.1, p.2)) := by
  simp [parseStringBody, ha, hb, hc, hd, hns]

theorem psb_u_sur (fuel : Nat) (a b2 c2 d a2 b3 c3 d2 : Char) (r : List Char)
    (va vb vc vd wa wb wc wd : Nat)
    (ha : hexVal a = some va) (hb : hexVal b2 = some vb)
    (hc : hexVal c2 = some vc) (hd : hexVal d = some vd)
    (ha2 : hexVal a2 = some wa) (hb2 : hexVal b3 = some wb)
    (hc2 : hexVal c3 = some wc) (hd2 : hexVal d2 = some wd)
    (hs : 55296 ≤ ((va * 16 + vb) * 16 + vc) * 16 + vd ∧
      ((va * 16 + vb) * 16 + vc) * 16 + vd ≤ 56319)
    (hs2 : 56320 ≤ ((wa * 16 + wb) * 16 + wc) * 16 + wd ∧
      ((wa * 16 + wb) * 16 + wc) * 16 + wd ≤ 57343) :
    parseStringBody (fuel + 1)
      ('\\' :: 'u' :: a :: b2 :: c2 :: d :: '\\' :: 'u' :: a2 :: b3 :: c3 :: d2 :: r) =
      (parseStringBody fuel r).map (fun p =>
        (Char.ofNat (65536 + (((va * 16 + vb) * 16 + vc) * 16 + vd - 55296) * 1024 +
          (((wa * 16 + wb) * 16 + wc) * 16 + wd - 56320)) :: p.1, p.2)) := by
  simp [parseStringBody, ha, hb, hc, hd, ha2, hb2, hc2, hd2, hs, hs2]

theorem psb_escStr : ∀ (s : List Char) (fuel : Nat) (r : List Char),
    s.length < fuel → parseStringBody fuel (escStr s ++ '"' :: r) = some (s, r) := by
  intro s
  induction s with
  | nil =>
    intro fuel r hf
    cases fuel with
    | zero => omega
    | succ f => exact psb_quote f r
  | cons c cs ih =>
    intro fuel r hf
    cases fuel with
    | zero => omega
    | succ f =>
    have hcs : cs.length < f := by
      simp only [List.length_cons] at hf
      omega
    show parseStringBody (f + 1) ((escChar c ++ escStr cs) ++ '"' :: r) = some (c :: cs, r)
    rw [List.append_assoc]
    by_cases h1 : c = '"'
    · subst h1
      have he : escChar '"' = ['\\', '"'] := by simp [escChar]
      rw [he]
      show parseStringBody (f + 1) ('\\' :: '"' :: (escStr cs ++ '"' :: r)) = _
      rw [psb_esc_quote, ih f r hcs]
      rfl
    · by_cases h2 : c = '\\'
      · subst h2
        have he : escChar '\\' = ['\\', '\\'] := by simp [escChar]
        rw [he]
        show parseStringBody (f + 1) ('\\' :: '\\' :: (escStr cs ++ '"' :: r)) = _
        rw [psb_esc_backslash, ih f r hcs]
        rfl
      · by_cases h3 : c = '\n'
        · subst h3
          have he : escChar '\n' = ['\\', 'n'] := by simp [escChar]
          rw [he]
          show parseStringBody (f + 1) ('\\' :: 'n' :: (escStr cs ++ '"' :: r)) = _
          rw [psb_esc_n, ih f r hcs]
          rfl
        · by_cases h4 : c = '\r'
          · subst h4
            have he : escChar '\r' = ['\\', 'r'] := by simp [escChar]
            rw [he]
            show parseStringBody (f + 1) ('\\' :: 'r' :: (escStr cs ++ '"' :: r)) = _
            rw [psb_esc_r, ih f r hcs]
            rfl
          · by_cases h5 : c = '\t'
            · subst h5
              have he : escChar '\t' = ['\\', 't'] := by simp [escChar]
              rw [he]
              show parseStringBody (f + 1) ('\\' :: 't' :: (escStr cs ++ '"' :: r)) = _
              rw [psb_esc_t, ih f r hcs]
              rfl
            · by_cases h6 : c.toNat = 8
              · have he : escChar c = ['\\', 'b'] := by
                  simp only [escChar]
                  rw [if_neg h1, if_neg h2, if_neg h3, if_neg h4, if_neg h5, if_pos h6]
                rw [he]
                show parseStringBody (f + 1) ('\\' :: 'b' :: (escStr cs ++ '"' :: r)) = _
                rw [psb_esc_b, ih f r hcs]
                rw [Option.map_some']
                have hcn : Char.ofNat 8 = c := by rw [← h6, Char.ofNat_toNat]
                rw [hcn]
              · by_cases h7 : c.toNat = 12
                · have he : escChar c = ['\\', 'f'] := by
                    simp only [escChar]
                    rw [if_neg h1, if_neg h2, if_neg h3, if_neg h4, if_neg h5,
                      if_neg h6, if_pos h7]
                  rw [he]
                  show parseStringBody (f + 1) ('\\' :: 'f' :: (escStr cs ++ '"' :: r)) = _
                  rw [psb_esc_f, ih f r hcs]
                  rw [Option.map_some']
                  have hcn : Char.ofNat 12 = c := by rw [← h7, Char.ofNat_toNat]
                  rw [hcn]
                · by_cases h8 : 32 ≤ c.toNat ∧ c.toNat ≤ 126
                  · have he : escChar c = [c] := by
                      simp only [escChar]
                      rw [if_neg h1, if_neg h2, if_neg h3, if_neg h4, if_neg h5,
                        if_neg h6, if_neg h7, if_pos h8]
                    rw [he]
                    show parseStringBody (f + 1) (c :: (escStr cs ++ '"' :: r)) = _
                    rw [psb_lit f c _ h1 h2, ih f r hcs]
                    rfl
                  · by_cases h9 : c.toNat < 65536
                    · have he : escChar c = '\\' :: 'u' :: hex4 c.toNat := by
                        simp only [escChar]
                        rw [if_neg h1, if_neg h2, if_neg h3, if_neg h4, if_neg h5,
                          if_neg h6, if_neg h7, if_neg h8, if_pos h9]
                      rw [he]
                      have ha := hexVal_hexDigitChar
                        (Nat.mod_lt (c.toNat / 4096) (by norm_num) : c.toNat / 4096 % 16 < 16)
                      have hb := hexVal_hexDigitChar
                        (Nat.mod_lt (c.toNat / 256) (by norm_num) : c.toNat / 256 % 16 < 16)
                      have hcv := hexVal_hexDigitChar
                        (Nat.mod_lt (c.toNat / 16) (by norm_num) : c.toNat / 16 % 16 < 16)
                      have hd := hexVal_hexDigitChar
                        (Nat.mod_lt c.toNat (by norm_num) : c.toNat % 16 < 16)
                      have hnosur : ¬(55296 ≤ ((c.toNat / 4096 % 16 * 16 + c.toNat / 256 % 16) * 16 + c.toNat / 16 % 16) * 16 + c.toNat % 16 ∧
                          ((c.toNat / 4096 % 16 * 16 + c.toNat / 256 % 16) * 16 + c.toNat / 16 % 16) * 16 + c.toNat % 16 ≤ 56319) := by
                        rw [hexRecon c.toNat h9]
                        rcases not_surrogate c with hs | hs <;> omega
                      show parseStringBody (f + 1) ('\\' :: 'u' ::
                        hexDigitChar (c.toNat / 4096 % 16) ::
                        hexDigitChar (c.toNat / 256 % 16) ::
                        hexDigitChar (c.toNat / 16 % 16) ::
                        hexDigitChar (c.toNat % 16) :: (escStr cs ++ '"' :: r)) = _
                      rw [psb_u_bmp f _ _ _ _ _ _ _ _ _ ha hb hcv hd hnosur, ih f r hcs]
                      rw [Option.map_some']
                      rw [hexRecon c.toNat h9, Char.ofNat_toNat]
                    · have he : escChar c = '\\' :: 'u' ::
                          hex4 (55296 + (c.toNat - 65536) / 1024) ++
                          '\\' :: 'u' :: hex4 (56320 + (c.toNat - 65536) % 1024) := by
                        simp only [escChar]
                        rw [if_neg h1, if_neg h2, if_neg h3, if_neg h4, if_neg h5,
                          if_neg h6, if_neg h7, if_neg h8, if_neg h9]
                      rw [he]
                      have hlt := toNat_lt_valid c
                      have hhilt : 55296 + (c.toNat - 65536) / 1024 < 65536 := by omega
                      have hlolt : 56320 + (c.toNat - 65536) % 1024 < 65536 := by
                        have hml := Nat.mod_lt (c.toNat - 65536) (by norm_num : 0 < 1024)
                        omega
                      have ha := hexVal_hexDigitChar (Nat.mod_lt
                        ((55296 + (c.toNat - 65536) / 1024) / 4096) (by norm_num) :
                        (55296 + (c.toNat - 65536) / 1024) / 4096 % 16 < 16)
                      have hb := hexVal_hexDigitChar (Nat.mod_lt
                        ((55296 + (c.toNat - 65536) / 1024) / 256) (by norm_num) :
                        (55296 + (c.toNat - 65536) / 1024) / 256 % 16 < 16)
                      have hcv := hexVal_hexDigitChar (Nat.mod_lt
                        ((55296 + (c.toNat - 65536) / 1024) / 16) (by norm_num) :
                        (55296 + (c.toNat - 65536) / 1024) / 16 % 16 < 16)
                      have hd := hexVal_hexDigitChar (Nat.mod_lt
                        (55296 + (c.toNat - 65536) / 1024) (by norm_num) :
                        (55296 + (c.toNat - 65536) / 1024) % 16 < 16)
                      have ha2 := hexVal_hexDigitChar (Nat.mod_lt
                        ((56320 + (c.toNat - 65536) % 1024) / 4096) (by norm_num) :
                        (56320 + (c.toNat - 65536) % 1024) / 4096 % 16 < 16)
                      have hb2 := hexVal_hexDigitChar (Nat.mod_lt
                        ((56320 + (c.toNat - 65536) % 1024) / 256) (by norm_num) :
                        (56320 + (c.toNat - 65536) % 1024) / 256 % 16 < 16)
                      have hc2 := hexVal_hexDigitChar (Nat.mod_lt
                        ((56320 + (c.toNat - 65536) % 1024) / 16) (by norm_num) :
                        (56320 + (c.toNat - 65536) % 1024) / 16 % 16 < 16)
                      have hd2 := hexVal_hexDigitChar (Nat.mod_lt
                        (56320 + (c.toNat - 65536) % 1024) (by norm_num) :
                        (56320 + (c.toNat - 65536) % 1024) % 16 < 16)
                      have hs : 55296 ≤ (((55296 + (c.toNat - 65536) / 1024) / 4096 % 16 * 16 + (55296 + (c.toNat - 65536) / 1024) / 256 % 16) * 16 + (55296 + (c.toNat - 65536) / 1024) / 16 % 16) * 16 + (55296 + (c.toNat - 65536) / 1024) % 16 ∧
                          (((55296 + (c.toNat - 65536) / 1024) / 4096 % 16 * 16 + (55296 + (c.toNat - 65536) / 1024) / 256 % 16) * 16 + (55296 + (c.toNat - 65536) / 1024) / 16 % 16) * 16 + (55296 + (c.toNat - 65536) / 1024) % 16 ≤ 56319 := by
                        rw [hexRecon _ hhilt]
                        omega
                      have hs2 : 56320 ≤ (((56320 + (c.toNat - 65536) % 1024) / 4096 % 16 * 16 + (56320 + (c.toNat - 65536) % 1024) / 256 % 16) * 16 + (56320 + (c.toNat - 65536) % 1024) / 16 % 16) * 16 + (56320 + (c.toNat - 65536) % 1024) % 16 ∧
                          (((56320 + (c.toNat - 65536) % 1024) / 4096 % 16 * 16 + (56320 + (c.toNat - 65536) % 1024) / 256 % 16) * 16 + (56320 + (c.toNat - 65536) % 1024) / 16 % 16) * 16 + (56320 + (c.toNat - 65536) % 1024) % 16 ≤ 57343 := by
                        rw [hexRecon _ hlolt]
                        omega
                      show parseStringBody (f + 1) ('\\' :: 'u' ::
                        hexDigitChar ((55296 + (c.toNat - 65536) / 1024) / 4096 % 16) ::
                        hexDigitChar ((55296 + (c.toNat - 65536) / 1024) / 256 % 16) ::
                        hexDigitChar ((55296 + (c.toNat - 65536) / 1024) / 16 % 16) ::
                        hexDigitChar ((55296 + (c.toNat - 65536) / 1024) % 16) ::
                        '\\' :: 'u' ::
                        hexDigitChar ((56320 + (c.toNat - 65536) % 1024) / 4096 % 16) ::
                        hexDigitChar ((56320 + (c.toNat - 65536) % 1024) / 256 % 16) ::
                        hexDigitChar ((56320 + (c.toNat - 65536) % 1024) / 16 % 16) ::
                        hexDigitChar ((56320 + (c.toNat - 65536) % 1024) % 16) ::
                        (escStr cs ++ '"' :: r)) = _
                      rw [psb_u_sur f _ _ _ _ _ _ _ _ _ _ _ _ _ _ _ _ _
                        ha hb hcv hd ha2 hb2 hc2 hd2 hs hs2, ih f r hcs]
                      rw [Option.map_some']
                      rw [hexRecon _ hhilt, hexRecon _ hlolt]
                      have hfin : 65536 + (55296 + (c.toNat - 65536) / 1024 - 55296) * 1024 +
                          (56320 + (c.toNat - 65536) % 1024 - 56320) = c.toNat := by
                        omega
                      rw [hfin, Char.ofNat_toNat]

/-! ## Decimal digits round trip -/

theorem natDigits_all : ∀ n : Nat, ∀ c ∈ natDigits n, isDigitCh c = true := by
  intro n
  induction n using Nat.strong_induction_on with
  | _ n ih =>
    unfold natDigits
    split
    · next h =>
      intro c hc
      simp only [List.mem_singleton] at hc
      subst hc
      have ht : (Char.ofNat (48 + n)).toNat = 48 + n :=
        toNat_ofNat_valid (Or.inl (by omega))
      simp [isDigitCh, ht]
      omega
    · next h =>
      intro c hc
      rw [List.mem_append] at hc
      rcases hc with hc | hc
      · exact ih (n / 10) (Nat.div_lt_self (by omega) (by omega)) c hc
      · simp only [List.mem_singleton] at hc
        subst hc
        have hm : n % 10 < 10 := Nat.mod_lt _ (by omega)
        have ht : (Char.ofNat (48 + n % 10)).toNat = 48 + n % 10 :=
          toNat_ofNat_valid (Or.inl (by omega))
        simp [isDigitCh, ht]
        omega

theorem natDigits_cons (n : Nat) : ∃ c ds, natDigits n = c :: ds := by
  unfold natDigits
  split
  · exact ⟨_, [], rfl⟩
  · cases hni : natDigits (n / 10) with
    | nil => exact ⟨Char.ofNat (48 + n % 10), [], by simp [hni]⟩
    | cons c ds => exact ⟨c, ds ++ [Char.ofNat (48 + n % 10)], by simp [hni]⟩

theorem parseNatAux_spec : ∀ (ds : List Char) (acc : Nat) (r : List Char),
    (∀ c ∈ ds, isDigitCh c = true) → headNotDigit r = true →
    parseNatAux acc (ds ++ r) =
      (ds.foldl (fun a c => 10 * a + (c.toNat - 48)) acc, r) := by
  intro ds
  induction ds with
  | nil =>
    intro acc r hds hr
    cases r with
    | nil => rfl
    | cons c r' =>
      simp only [headNotDigit, Bool.not_eq_true'] at hr
      simp [parseNatAux, hr]
  | cons c ds ih =>
    intro acc r hds hr
    have hc : isDigitCh c = true := hds c (List.mem_cons_self c ds)
    simp only [List.cons_append, parseNatAux, hc, if_pos, List.foldl_cons]
    exact ih _ r (fun c' hc' => hds c' (List.mem_cons_of_mem c hc')) hr

theorem foldl_natDigits : ∀ (n : Nat) (acc : Nat),
    (natDigits n).foldl (fun a c => 10 * a + (c.toNat - 48)) acc =
      acc * 10 ^ (natDigits n).length + n := by
  intro n
  induction n using Nat.strong_induction_on with
  | _ n ih =>
    intro acc
    unfold natDigits
    split
    · next h =>
      have ht : (Char.ofNat (48 + n)).toNat = 48 + n :=
        toNat_ofNat_valid (Or.inl (by omega))
      simp [List.foldl_cons, ht]
      omega
    · next h =>
      rw [List.foldl_append]
      rw [ih (n / 10) (Nat.div_lt_self (by omega) (by omega)) acc]
      have ht : (Char.ofNat (48 + n % 10)).toNat = 48 + n % 10 :=
        toNat_ofNat_valid (Or.inl (by omega : 48 + n % 10 < 55296))
      simp only [List.foldl_cons, List.foldl_nil, List.length_append,
        List.length_singleton, ht]
      have hdm : 10 * (n / 10) + n % 10 = n := Nat.div_add_mod n 10
      have hpow : 10 ^ ((natDigits (n / 10)).length + 1) =
          10 ^ (natDigits (n / 10)).length * 10 := pow_succ 10 _
      rw [hpow]
      have hstep : 48 + n % 10 - 48 = n % 10 := by omega
      rw [hstep]
      calc 10 * (acc * 10 ^ (natDigits (n / 10)).length + n / 10) + n % 10
          = acc * (10 ^ (natDigits (n / 10)).length * 10) +
            (10 * (n / 10) + n % 10) := by ring
        _ = acc * (10 ^ (natDigits (n / 10)).length * 10) + n := by rw [hdm]

theorem digit_not_special (c : Char) (hc : isDigitCh c = true) :
    ¬c = 'n' ∧ ¬c = 't' ∧ ¬c = 'f' ∧ ¬c = '"' ∧ ¬c = '[' ∧ ¬c = '{' ∧ ¬c = '-' ∧
    ¬c = ']' ∧ ¬c = '}' ∧ ¬c = ',' := by
  refine ⟨?_, ?_, ?_, ?_, ?_, ?_, ?_, ?_, ?_, ?_⟩ <;>
    exact fun h => absurd (h ▸ hc) (by decide)

theorem sizeJ_pos : ∀ v : JVal, 1 ≤ sizeJ v := by
  intro v
  cases v with
  | null => simp [sizeJ]
  | bool b => simp [sizeJ]
  | int n => simp [sizeJ]
  | str s => simp [sizeJ]
  | arr xs => rw [sizeJ_arr]; omega
  | obj fs => rw [sizeJ_obj]; omega

theorem string_mk_data (s : String) : String.mk s.data = s := rfl

theorem escChar_length_pos (c : Char) : 1 ≤ (escChar c).length := by
  unfold escChar
  dsimp only
  split_ifs <;> simp [hex4]

theorem escStr_length : ∀ s : List Char, s.length ≤ (escStr s).length := by
  intro s
  induction s with
  | nil => simp [escStr]
  | cons c cs ih =>
    have h := escChar_length_pos c
    simp only [escStr, List.length_append, List.length_cons]
    omega

theorem encodePlain_head (v : JVal) :
    ∃ c cs, encodePlain v = c :: cs ∧ ¬c = ']' := by
  cases v with
  | null => exact ⟨'n', ['u', 'l', 'l'], by simp [encodePlain, litNull], by decide⟩
  | bool b =>
    cases b with
    | false => exact ⟨'f', ['a', 'l', 's', 'e'], by simp [encodePlain, litFalse], by decide⟩
    | true => exact ⟨'t', ['r', 'u', 'e'], by simp [encodePlain, litTrue], by decide⟩
  | int n =>
    cases n with
    | ofNat m =>
      obtain ⟨c, ds, hds⟩ := natDigits_cons m
      have hd : isDigitCh c = true := natDigits_all m c
        (by rw [hds]; exact List.mem_cons_self c ds)
      refine ⟨c, ds, ?_, ((digit_not_special c hd).2.2.2.2.2.2.2.1)⟩
      have he : encodePlain (.int (.ofNat m)) = natDigits m := by
        simp [encodePlain, intChars]
      rw [he, hds]
    | negSucc m =>
      exact ⟨'-', natDigits (m + 1), by simp [encodePlain, intChars], by decide⟩
  | str s => exact ⟨'"', escStr s.data ++ ['"'], by simp [encodePlain, encStr], by decide⟩
  | arr xs =>
    exact ⟨'[', sepList (xs.map encodePlain) ++ [']'],
      by rw [encodePlain_arr]; simp, by decide⟩
  | obj fs =>
    exact ⟨'{', sepList (fs.map (fun p => encStr p.1 ++ ':' :: encodePlain p.2)) ++ ['}'],
      by rw [encodePlain_obj]; simp, by decide⟩



theorem encodePlain_null : encodePlain .null = ['n', 'u', 'l', 'l'] := by
  simp [encodePlain, litNull]

theorem encodePlain_true : encodePlain (.bool true) = ['t', 'r', 'u', 'e'] := by
  simp [encodePlain, litTrue]

theorem encodePlain_false : encodePlain (.bool false) = ['f', 'a', 'l', 's', 'e'] := by
  simp [encodePlain, litFalse]

theorem encodePlain_int (n : Int) : encodePlain (.int n) = intChars n := by
  simp [encodePlain]

theorem encodePlain_str (s : String) : encodePlain (.str s) = encStr s := by
  simp [encodePlain]

theorem headNotDigit_cons (c : Char) (r : List Char) :
    headNotDigit (c :: r) = !isDigitCh c := rfl

theorem decodeV_null (fuel : Nat) (r : List Char) :
    decodeV (fuel + 1) ('n' :: 'u' :: 'l' :: 'l' :: r) = some (.null, r) := by
  simp [decodeV]

theorem decodeV_true (fuel : Nat) (r : List Char) :
    decodeV (fuel + 1) ('t' :: 'r' :: 'u' :: 'e' :: r) = some (.bool true, r) := by
  simp [decodeV]

theorem decodeV_false (fuel : Nat) (r : List Char) :
    decodeV (fuel + 1) ('f' :: 'a' :: 'l' :: 's' :: 'e' :: r) = some (.bool false, r) := by
  simp [decodeV]

theorem decodeV_quote (fuel : Nat) (r : List Char) :
    decodeV (fuel + 1) ('"' :: r) =
      (parseStringBody (r.length + 1) r).map (fun p => (.str (String.mk p.1), p.2)) := by
  simp [decodeV]

theorem decodeV_arr_nil (fuel : Nat) (r : List Char) :
    decodeV (fuel + 1) ('[' :: ']' :: r) = some (.arr [], r) := by
  simp [decodeV]

theorem decodeV_arr_cons (fuel : Nat) (c0 : Char) (t : List Char) (h : ¬c0 = ']') :
    decodeV (fuel + 1) ('[' :: c0 :: t) =
      (decodeItems fuel (c0 :: t)).map (fun p => (.arr p.1, p.2)) := by
  simp only [decodeV]
  rw [if_neg (by decide), if_neg (by decide), if_neg (by decide), if_neg (by decide)]
  simp only [if_true]
  rw [if_neg h]

theorem decodeV_obj_nil (fuel : Nat) (r : List Char) :
    decodeV (fuel + 1) ('{' :: '}' :: r) = some (.obj [], r) := by
  simp [decodeV]

theorem decodeV_obj_cons (fuel : Nat) (c0 : Char) (t : List Char) (h : ¬c0 = '}') :
    decodeV (fuel + 1) ('{' :: c0 :: t) =
      (decodeFields fuel (c0 :: t)).map (fun p => (.obj p.1, p.2)) := by
  simp only [decodeV]
  rw [if_neg (by decide), if_neg (by decide), if_neg (by decide), if_neg (by decide),
    if_neg (by decide)]
  simp only [if_true]
  rw [if_neg h]

theorem decodeV_digit (fuel : Nat) (c : Char) (r : List Char) (hc : isDigitCh c = true) :
    decodeV (fuel + 1) (c :: r) =
      some (.int ((parseNatAux (c.toNat - 48) r).1 : Int), (parseNatAux (c.toNat - 48) r).2) := by
  obtain ⟨hn, ht, hf, hq, hlb, hob, hm, -, -, -⟩ := digit_not_special c hc
  simp only [decodeV]
  rw [if_neg hn, if_neg ht, if_neg hf, if_neg hq, if_neg hlb, if_neg hob, if_neg hm, if_pos hc]

theorem decodeV_neg (fuel : Nat) (c : Char) (r : List Char) (hc : isDigitCh c = true) :
    decodeV (fuel + 1) ('-' :: c :: r) =
      some (.int (-((parseNatAux (c.toNat - 48) r).1 : Int)), (parseNatAux (c.toNat - 48) r).2) := by
  obtain ⟨hn, -, -, -, -, -, -, -, -, -⟩ := digit_not_special c hc
  simp only [decodeV]
  rw [if_neg (by decide), if_neg (by decide), if_neg (by decide), if_neg (by decide),
    if_neg (by decide), if_neg (by decide)]
  simp only [if_true]
  rw [if_pos hc]

theorem decodeItems_last (fuel : Nat) (cs : List Char) (v : JVal) (r : List Char)
    (h : decodeV fuel cs = some (v, ']' :: r)) :
    decodeItems (fuel + 1) cs = some ([v], r) := by
  simp [decodeItems, h]

theorem decodeItems_more (fuel : Nat) (cs : List Char) (v : JVal) (r2 : List Char)
    (h : decodeV fuel cs = some (v, ',' :: r2)) :
    decodeItems (fuel + 1) cs = (decodeItems fuel r2).map (fun p => (v :: p.1, p.2)) := by
  simp [decodeItems, h]

theorem decodeFields_last (fuel : Nat) (r k r2 : List Char) (v : JVal) (r4 : List Char)
    (h1 : parseStringBody (r.length + 1) r = some (k, ':' :: r2))
    (h2 : decodeV fuel r2 = some (v, '}' :: r4)) :
    decodeFields (fuel + 1) ('"' :: r) = some ([(String.mk k, v)], r4) := by
  simp [decodeFields, h1, h2]

theorem decodeFields_more (fuel : Nat) (r k r2 : List Char) (v : JVal) (r4 : List Char)
    (h1 : parseStringBody (r.length + 1) r = some (k, ':' :: r2))
    (h2 : decodeV fuel r2 = some (v, ',' :: r4)) :
    decodeFields (fuel + 1) ('"' :: r) =
      (decodeFields fuel r4).map (fun p => ((String.mk k, v) :: p.1, p.2)) := by
  simp [decodeFields, h1, h2]

theorem sepList_head (e : List Char) (es : List (List Char)) (c0 : Char) (cs0 z : List Char)
    (he : e = c0 :: cs0) :
    ∃ t, sepList (e :: es) ++ z = c0 :: t := by
  cases es with
  | nil => exact ⟨cs0 ++ z, by simp [sepList, he]⟩
  | cons f fs =>
    refine ⟨cs0 ++ (',' :: (sepList (f :: fs) ++ z)), ?_⟩
    simp [sepList, he]

theorem decode_encodePlain : ∀ fuel : Nat,
    (∀ v r, sizeJ v ≤ fuel → headNotDigit r = true →
      decodeV fuel (encodePlain v ++ r) = some (v, r)) ∧
    (∀ xs r, (xs.map sizeJ).sum + xs.length ≤ fuel → xs ≠ [] → headNotDigit r = true →
      decodeItems fuel (sepList (xs.map encodePlain) ++ ']' :: r) = some (xs, r)) ∧
    (∀ fs r,
      (fs.map (fun p => sizeJ p.2)).sum + fs.length ≤ fuel → fs ≠ [] →
      headNotDigit r = true →
      decodeFields fuel
        (sepList (fs.map (fun p => encStr p.1 ++ ':' :: encodePlain p.2)) ++ '}' :: r)
        = some (fs, r)) := by
  intro fuel
  induction fuel with
  | zero =>
    refine ⟨?_, ?_, ?_⟩
    · intro v r hsz _
      exact absurd hsz (by have := sizeJ_pos v; omega)
    · intro xs r hsz hne _
      cases xs with
      | nil => exact absurd rfl hne
      | cons x xs' =>
        simp only [List.map_cons, List.sum_cons, List.length_cons] at hsz
        omega
    · intro fs r hsz hne _
      cases fs with
      | nil => exact absurd rfl hne
      | cons f fs' =>
        simp only [List.map_cons, List.sum_cons, List.length_cons] at hsz
        omega
  | succ fuel ih =>
    obtain ⟨ihA, ihB, ihC⟩ := ih
    refine ⟨?_, ?_, ?_⟩
    · intro v r hsz hr
      cases v with
      | null =>
        rw [encodePlain_null]
        simp only [List.cons_append, List.nil_append]
        exact decodeV_null fuel r
      | bool b =>
        cases b with
        | true =>
          rw [encodePlain_true]
          simp only [List.cons_append, List.nil_append]
          exact decodeV_true fuel r
        | false =>
          rw [encodePlain_false]
          simp only [List.cons_append, List.nil_append]
          exact decodeV_false fuel r
      | int n =>
        cases n with
        | ofNat m =>
          obtain ⟨c, ds, hds⟩ := natDigits_cons m
          have hdc : isDigitCh c = true :=
            natDigits_all m c (by rw [hds]; exact List.mem_cons_self c ds)
          have hdall : ∀ x ∈ ds, isDigitCh x = true := fun x hx =>
            natDigits_all m x (by rw [hds]; exact List.mem_cons_of_mem c hx)
          have henc : encodePlain (.int (.ofNat m)) ++ r = c :: (ds ++ r) := by
            rw [encodePlain_int]
            simp [intChars, hds]
          rw [henc, decodeV_digit fuel c (ds ++ r) hdc,
            parseNatAux_spec ds (c.toNat - 48) r hdall hr]
          have hfold : ds.foldl (fun a ch => 10 * a + (ch.toNat - 48)) (c.toNat - 48) = m := by
            have h0 := foldl_natDigits m 0
            rw [hds] at h0
            simpa using h0
          simp [hfold]
        | negSucc m =>
          obtain ⟨c, ds, hds⟩ := natDigits_cons (m + 1)
          have hdc : isDigitCh c = true :=
            natDigits_all (m + 1) c (by rw [hds]; exact List.mem_cons_self c ds)
          have hdall : ∀ x ∈ ds, isDigitCh x = true := fun x hx =>
            natDigits_all (m + 1) x (by rw [hds]; exact List.mem_cons_of_mem c hx)
          have henc : encodePlain (.int (.negSucc m)) ++ r = '-' :: c :: (ds ++ r) := by
            rw [encodePlain_int]
            simp [intChars, hds]
          rw [henc, decodeV_neg fuel c (ds ++ r) hdc,
            parseNatAux_spec ds (c.toNat - 48) r hdall hr]
          have hfold :
              ds.foldl (fun a ch => 10 * a + (ch.toNat - 48)) (c.toNat - 48) = m + 1 := by
            have h0 := foldl_natDigits (m + 1) 0
            rw [hds] at h0
            simpa using h0
          simp only [hfold]
          have hneg : -((m + 1 : Nat) : Int) = Int.negSucc m := by
            rw [Int.negSucc_eq]
            push_cast
            ring
          rw [hneg]
      | str s =>
        have hlen : s.data.length < (escStr s.data ++ '"' :: r).length + 1 := by
          have := escStr_length s.data
          simp only [List.length_append, List.length_cons]
          omega
        have henc : encodePlain (.str s) ++ r = '"' :: (escStr s.data ++ '"' :: r) := by
          rw [encodePlain_str]
          simp [encStr]
        rw [henc, decodeV_quote, psb_escStr s.data _ r hlen]
        simp [string_mk_data]
      | arr xs =>
        cases xs with
        | nil =>
          have henc : encodePlain (.arr []) ++ r = '[' :: ']' :: r := by
            rw [encodePlain_arr]
            simp [sepList]
          rw [henc]
          exact decodeV_arr_nil fuel r
        | cons x xs' =>
          rw [sizeJ_arr] at hsz
          have hsz' : ((x :: xs').map sizeJ).sum + (x :: xs').length ≤ fuel := by omega
          have hitems := ihB (x :: xs') r hsz' (by simp) hr
          obtain ⟨c0, cs0, hx0, hne0⟩ := encodePlain_head x
          obtain ⟨t, ht0⟩ := sepList_head (encodePlain x) (xs'.map encodePlain) c0 cs0
            (']' :: r) hx0
          have ht : sepList ((x :: xs').map encodePlain) ++ ']' :: r = c0 :: t := by
            rw [List.map_cons]
            exact ht0
          have henc : encodePlain (.arr (x :: xs')) ++ r
              = '[' :: (sepList ((x :: xs').map encodePlain) ++ ']' :: r) := by
            rw [encodePlain_arr]
            simp
          rw [henc, ht, decodeV_arr_cons fuel c0 t hne0, ← ht, hitems]
          rfl
      | obj fs =>
        cases fs with
        | nil =>
          have henc : encodePlain (.obj []) ++ r = '{' :: '}' :: r := by
            rw [encodePlain_obj]
            simp [sepList]
          rw [henc]
          exact decodeV_obj_nil fuel r
        | cons f fs' =>
          rw [sizeJ_obj] at hsz
          have hsz' : ((f :: fs').map (fun p => sizeJ p.2)).sum + (f :: fs').length ≤ fuel := by
            omega
          have hflds := ihC (f :: fs') r hsz' (by simp) hr
          have he : encStr f.1 ++ ':' :: encodePlain f.2
              = '"' :: (escStr f.1.data ++ '"' :: ':' :: encodePlain f.2) := by
            simp [encStr]
          obtain ⟨t, ht0⟩ := sepList_head (encStr f.1 ++ ':' :: encodePlain f.2)
            (fs'.map (fun p => encStr p.1 ++ ':' :: encodePlain p.2)) '"'
            (escStr f.1.data ++ '"' :: ':' :: encodePlain f.2) ('}' :: r) he
          have ht : sepList ((f :: fs').map (fun p => encStr p.1 ++ ':' :: encodePlain p.2))
              ++ '}' :: r = '"' :: t := by
            rw [List.map_cons]
            exact ht0
          have henc : encodePlain (.obj (f :: fs')) ++ r
              = '{' :: (sepList ((f :: fs').map (fun p => encStr p.1 ++ ':' :: encodePlain p.2))
                  ++ '}' :: r) := by
            rw [encodePlain_obj]
            simp
          rw [henc, ht, decodeV_obj_cons fuel '"' t (by decide), ← ht, hflds]
          rfl
    · intro xs r hsz hne hr
      cases xs with
      | nil => exact absurd rfl hne
      | cons x xs' =>
        simp only [List.map_cons, List.sum_cons, List.length_cons] at hsz
        have hx1 := sizeJ_pos x
        have hszx : sizeJ x ≤ fuel := by omega
        cases xs' with
        | nil =>
          have hcs : sepList ([x].map encodePlain) ++ ']' :: r = encodePlain x ++ ']' :: r := by
            simp [sepList]
          rw [hcs]
          exact decodeItems_last fuel _ x r
            (ihA x (']' :: r) hszx (by rw [headNotDigit_cons]; decide))
        | cons y ys =>
          have hcs : sepList ((x :: y :: ys).map encodePlain) ++ ']' :: r
              = encodePlain x
                  ++ ',' :: (sepList ((y :: ys).map encodePlain) ++ ']' :: r) := by
            simp [sepList]
          rw [hcs]
          have hA := ihA x (',' :: (sepList ((y :: ys).map encodePlain) ++ ']' :: r)) hszx
            (by rw [headNotDigit_cons]; decide)
          rw [decodeItems_more fuel _ x _ hA]
          have hszr : ((y :: ys).map sizeJ).sum + (y :: ys).length ≤ fuel := by
            simp only [List.map_cons, List.sum_cons, List.length_cons] at hsz ⊢
            omega
          rw [ihB (y :: ys) r hszr (by simp) hr]
          rfl
    · intro fs r hsz hne hr
      cases fs with
      | nil => exact absurd rfl hne
      | cons f fs' =>
        simp only [List.map_cons, List.sum_cons, List.length_cons] at hsz
        have hf1 := sizeJ_pos f.2
        have hszf : sizeJ f.2 ≤ fuel := by omega
        cases fs' with
        | nil =>
          have hcs : sepList ((f :: []).map (fun p => encStr p.1 ++ ':' :: encodePlain p.2))
              ++ '}' :: r
              = '"' :: (escStr f.1.data ++ '"' :: (':' :: (encodePlain f.2 ++ '}' :: r))) := by
            simp [sepList, encStr]
          rw [hcs]
          have hlen : f.1.data.length <
              (escStr f.1.data ++ '"' :: (':' :: (encodePlain f.2 ++ '}' :: r))).length + 1 := by
            have := escStr_length f.1.data
            simp only [List.length_append, List.length_cons]
            omega
          have hpsb := psb_escStr f.1.data _ (':' :: (encodePlain f.2 ++ '}' :: r)) hlen
          have hA := ihA f.2 ('}' :: r) hszf (by rw [headNotDigit_cons]; decide)
          rw [decodeFields_last fuel _ f.1.data (encodePlain f.2 ++ '}' :: r) f.2 r hpsb hA]
        | cons g2 gs =>
          have hcs : sepList ((f :: g2 :: gs).map (fun p => encStr p.1 ++ ':' :: encodePlain p.2))
              ++ '}' :: r
              = '"' :: (escStr f.1.data ++ '"' :: (':' :: (encodePlain f.2
                  ++ ',' :: (sepList ((g2 :: gs).map (fun p => encStr p.1 ++ ':' :: encodePlain p.2))
                      ++ '}' :: r)))) := by
            simp [sepList, encStr]
          rw [hcs]
          have hlen : f.1.data.length <
              (escStr f.1.data ++ '"' :: (':' :: (encodePlain f.2
                ++ ',' :: (sepList ((g2 :: gs).map (fun p => encStr p.1 ++ ':' :: encodePlain p.2))
                    ++ '}' :: r)))).length + 1 := by
            have := escStr_length f.1.data
            simp only [List.length_append, List.length_cons]
            omega
          have hpsb := psb_escStr f.1.data _ (':' :: (encodePlain f.2
            ++ ',' :: (sepList ((g2 :: gs).map (fun p => encStr p.1 ++ ':' :: encodePlain p.2))
                ++ '}' :: r))) hlen
          have hA := ihA f.2 (',' :: (sepList
              ((g2 :: gs).map (fun p => encStr p.1 ++ ':' :: encodePlain p.2)) ++ '}' :: r)) hszf
            (by rw [headNotDigit_cons]; decide)
          rw [decodeFields_more fuel _ f.1.data _ f.2 _ hpsb hA]
          have hszr : ((g2 :: gs).map (fun p => sizeJ p.2)).sum + (g2 :: gs).length ≤ fuel := by
            simp only [List.map_cons, List.sum_cons, List.length_cons] at hsz ⊢
            omega
          rw [ihC (g2 :: gs) r hszr (by simp) hr]
          simp [string_mk_data]

theorem encodePlain_inj {v w : JVal} (h : encodePlain v = encodePlain w) : v = w := by
  have h1 := (decode_encodePlain (sizeJ v + sizeJ w)).1 v [] (by omega) rfl
  have h2 := (decode_encodePlain (sizeJ v + sizeJ w)).1 w [] (by omega) rfl
  rw [h] at h1
  rw [h2] at h1
  simpa using h1.symm

theorem map_orderedInsert (g : JVal → JVal) (a : String × JVal) :
    ∀ l : List (String × JVal),
      (l.orderedInsert (fun p q => p.1 ≤ q.1) a).map (fun p => (p.1, g p.2))
        = ((l.map (fun p => (p.1, g p.2))).orderedInsert (fun p q => p.1 ≤ q.1) (a.1, g a.2)) := by
  intro l
  induction l with
  | nil => rfl
  | cons b l ih =>
    simp only [List.orderedInsert, List.map_cons]
    by_cases h : a.1 ≤ b.1
    · rw [if_pos h, if_pos h]
      simp [List.map_cons]
    · rw [if_neg h, if_neg h]
      simp only [List.map_cons, List.cons.injEq]
      exact ⟨trivial, ih⟩

theorem sortFields_map_comm (g : JVal → JVal) :
    ∀ fs : List (String × JVal),
      (sortFields fs).map (fun p => (p.1, g p.2))
        = sortFields (fs.map (fun p => (p.1, g p.2))) := by
  intro fs
  induction fs with
  | nil => rfl
  | cons a fs ih =>
    simp only [sortFields, List.insertionSort, List.map_cons] at ih ⊢
    rw [map_orderedInsert, ih]

theorem sortFields_perm (fs : List (String × JVal)) : (sortFields fs).Perm fs := by
  unfold sortFields
  exact List.perm_insertionSort (fun p q => p.1 ≤ q.1) fs

theorem encodeSorted_eq_canon : ∀ v, encodeSorted v = encodePlain (canonJ v) := by
  intro v
  induction v using JVal.indMem with
  | hnull => simp [encodeSorted, canonJ, encodePlain]
  | hbool b => cases b <;> simp [encodeSorted, canonJ, encodePlain]
  | hint n => simp [encodeSorted, canonJ, encodePlain]
  | hstr s => simp [encodeSorted, canonJ, encodePlain]
  | harr xs ih =>
    rw [encodeSorted_arr, canonJ_arr, encodePlain_arr, List.map_map]
    have hmap : xs.map encodeSorted = xs.map (encodePlain ∘ canonJ) :=
      List.map_congr_left (fun x hx => ih x hx)
    rw [hmap]
  | hobj fs ih =>
    rw [encodeSorted_obj, canonJ_obj, encodePlain_obj, ← sortFields_map_comm canonJ fs,
      List.map_map]
    have hmap : (sortFields fs).map (fun p => encStr p.1 ++ ':' :: encodeSorted p.2)
        = (sortFields fs).map
            ((fun p => encStr p.1 ++ ':' :: encodePlain p.2) ∘ fun p => (p.1, canonJ p.2)) := by
      apply List.map_congr_left
      intro p hp
      have hpm : p ∈ fs := (sortFields_perm fs).subset hp
      simp [Function.comp, ih p hpm]
    rw [hmap]

theorem keyStr_eq_iff_canon (v w : JVal) : keyStr v = keyStr w ↔ canonJ v = canonJ w := by
  constructor
  · intro h
    have hd : encodeSorted v = encodeSorted w := by
      have := congrArg String.data h
      simpa [keyStr] using this
    rw [encodeSorted_eq_canon, encodeSorted_eq_canon] at hd
    exact encodePlain_inj hd
  · intro h
    simp [keyStr, encodeSorted_eq_canon, h]

/-- Two JSON values carry identical data up to object-field insertion order:
the spec's notion of "identical key/value pairs (including nested mappings),
regardless of insertion order". -/
inductive EquivJ : JVal → JVal → Prop where
  | null : EquivJ .null .null
  | bool (b : Bool) : EquivJ (.bool b) (.bool b)
  | int (n : Int) : EquivJ (.int n) (.int n)
  | str (s : String) : EquivJ (.str s) (.str s)
  | arr {xs ys : List JVal} : List.Forall₂ EquivJ xs ys → EquivJ (.arr xs) (.arr ys)
  | obj {fs gs : List (String × JVal)} (gs' : List (String × JVal)) :
      gs.Perm gs' →
      fs.map Prod.fst = gs'.map Prod.fst →
      List.Forall₂ EquivJ (fs.map Prod.snd) (gs'.map Prod.snd) →
      EquivJ (.obj fs) (.obj gs)

instance : IsTotal (String × JVal) (fun p q => p.1 ≤ q.1) :=
  ⟨fun a b => le_total a.1 b.1⟩

instance : IsTrans (String × JVal) (fun p q => p.1 ≤ q.1) :=
  ⟨fun _ _ _ h1 h2 => le_trans h1 h2⟩

theorem sortFields_sorted (l : List (String × JVal)) :
    (sortFields l).Sorted (fun p q => p.1 ≤ q.1) := by
  unfold sortFields
  exact List.sorted_insertionSort (fun p q => p.1 ≤ q.1) l

theorem canonJ_null : canonJ .null = .null := by simp [canonJ]

theorem canonJ_bool (b : Bool) : canonJ (.bool b) = .bool b := by simp [canonJ]

theorem canonJ_int (n : Int) : canonJ (.int n) = .int n := by simp [canonJ]

theorem canonJ_str (s : String) : canonJ (.str s) = .str s := by simp [canonJ]

theorem sizeJ_lt_arr {x : JVal} {xs : List JVal} (hx : x ∈ xs) :
    sizeJ x < sizeJ (.arr xs) := by
  rw [sizeJ_arr]
  have h1 : sizeJ x ≤ (xs.map sizeJ).sum :=
    List.single_le_sum (fun b _ => Nat.zero_le b) _ (List.mem_map_of_mem sizeJ hx)
  omega

theorem sizeJ_lt_obj {p : String × JVal} {fs : List (String × JVal)} (hp : p ∈ fs) :
    sizeJ p.2 < sizeJ (.obj fs) := by
  rw [sizeJ_obj]
  have h1 : sizeJ p.2 ≤ (fs.map (fun q => sizeJ q.2)).sum :=
    List.single_le_sum (fun b _ => Nat.zero_le b) _
      (List.mem_map_of_mem (fun q => sizeJ q.2) hp)
  omega

theorem map_fst_pair (l : List (String × JVal)) :
    (l.map (fun p => (p.1, canonJ p.2))).map Prod.fst = l.map Prod.fst := by
  rw [List.map_map]
  exact List.map_congr_left (fun p _ => rfl)

theorem map_snd_pair (l : List (String × JVal)) :
    (l.map (fun p => (p.1, canonJ p.2))).map Prod.snd = (l.map Prod.snd).map canonJ := by
  rw [List.map_map, List.map_map]
  exact List.map_congr_left (fun p _ => rfl)

theorem forall2_map_canon : ∀ (xs ys : List JVal),
    List.Forall₂ EquivJ xs ys →
    (∀ x ∈ xs, ∀ y, EquivJ x y → wfJ x = true → wfJ y = true → canonJ x = canonJ y) →
    (∀ x ∈ xs, wfJ x = true) → (∀ y ∈ ys, wfJ y = true) →
    xs.map canonJ = ys.map canonJ := by
  intro xs
  induction xs with
  | nil =>
    intro ys hf _ _ _
    cases hf
    rfl
  | cons x xs ih =>
    intro ys hf hrec hwx hwy
    cases hf with
    | cons hxy hrest =>
      simp only [List.map_cons, List.cons.injEq]
      refine ⟨?_, ?_⟩
      · exact hrec x (List.mem_cons_self x xs) _ hxy (hwx x (List.mem_cons_self x xs))
          (hwy _ (List.mem_cons_self _ _))
      · exact ih _ hrest
          (fun a ha y hy h1 h2 => hrec a (List.mem_cons_of_mem x ha) y hy h1 h2)
          (fun a ha => hwx a (List.mem_cons_of_mem x ha))
          (fun b hb => hwy b (List.mem_cons_of_mem _ hb))

theorem map_pair_eq : ∀ (fs gs : List (String × JVal)),
    fs.map Prod.fst = gs.map Prod.fst →
    (fs.map Prod.snd).map canonJ = (gs.map Prod.snd).map canonJ →
    fs.map (fun p => (p.1, canonJ p.2)) = gs.map (fun p => (p.1, canonJ p.2)) := by
  intro fs
  induction fs with
  | nil =>
    intro gs hk _
    cases gs with
    | nil => rfl
    | cons g gs => simp at hk
  | cons f fs ih =>
    intro gs hk hv
    cases gs with
    | nil => simp at hk
    | cons g gs =>
      simp only [List.map_cons, List.cons.injEq] at hk hv ⊢
      exact ⟨by rw [hk.1, hv.1], ih gs hk.2 hv.2⟩

theorem sorted_nodup_perm_eq : ∀ (l₁ l₂ : List (String × JVal)),
    l₁.Perm l₂ → l₁.Sorted (fun p q => p.1 ≤ q.1) → l₂.Sorted (fun p q => p.1 ≤ q.1) →
    (l₁.map Prod.fst).Nodup → l₁ = l₂ := by
  intro l₁
  induction l₁ with
  | nil =>
    intro l₂ hp _ _ _
    exact hp.nil_eq
  | cons a t ih =>
    intro l₂ hp hs1 hs2 hnd
    cases l₂ with
    | nil => exact absurd hp.symm.nil_eq (by simp)
    | cons b t₂ =>
      simp only [List.map_cons, List.nodup_cons] at hnd
      have hab : a = b := by
        have hbmem : b ∈ a :: t := hp.mem_iff.mpr (List.mem_cons_self b t₂)
        have hamem : a ∈ b :: t₂ := hp.mem_iff.mp (List.mem_cons_self a t)
        rcases List.mem_cons.mp hbmem with hba | hbt
        · exact hba.symm
        · rcases List.mem_cons.mp hamem with hab' | hat
          · exact hab'
          · have h1 : a.1 ≤ b.1 := (List.sorted_cons.mp hs1).1 b hbt
            have h2 : b.1 ≤ a.1 := (List.sorted_cons.mp hs2).1 a hat
            have hkey : a.1 = b.1 := le_antisymm h1 h2
            have hmem : a.1 ∈ t.map Prod.fst := by
              rw [hkey]
              exact List.mem_map_of_mem Prod.fst hbt
            exact absurd hmem hnd.1
      subst hab
      have hpt : t.Perm t₂ := hp.cons_inv
      rw [ih t₂ hpt (List.sorted_cons.mp hs1).2 (List.sorted_cons.mp hs2).2 hnd.2]

theorem equiv_canon_aux : ∀ n : Nat, ∀ v w : JVal, sizeJ v ≤ n → EquivJ v w →
    wfJ v = true → wfJ w = true → canonJ v = canonJ w := by
  intro n
  induction n using Nat.strong_induction_on with
  | _ n ih =>
    intro v w hsz he hv hw
    cases he with
    | null => rfl
    | bool b => rfl
    | int m => rfl
    | str s => rfl
    | arr hf =>
      rename_i xs ys
      rw [canonJ_arr, canonJ_arr]
      have hmap := forall2_map_canon xs ys hf
        (fun x hx y hy h1 h2 =>
          ih (sizeJ x) (lt_of_lt_of_le (sizeJ_lt_arr hx) hsz) x y le_rfl hy h1 h2)
        ((wfJ_arr xs).mp hv) ((wfJ_arr ys).mp hw)
      rw [hmap]
    | obj gs' hperm hkeys hvals =>
      rename_i fs gs
      rw [canonJ_obj, canonJ_obj]
      have hvmap : (fs.map Prod.snd).map canonJ = (gs'.map Prod.snd).map canonJ := by
        apply forall2_map_canon _ _ hvals
        · intro x hx y hy h1 h2
          obtain ⟨p, hp, hpx⟩ := List.mem_map.mp hx
          have hlt : sizeJ x < sizeJ (.obj fs) := hpx ▸ sizeJ_lt_obj hp
          exact ih (sizeJ x) (lt_of_lt_of_le hlt hsz) x y le_rfl hy h1 h2
        · intro x hx
          obtain ⟨p, hp, hpx⟩ := List.mem_map.mp hx
          exact hpx ▸ ((wfJ_obj fs).mp hv).2 p hp
        · intro y hy
          obtain ⟨q, hq, hqy⟩ := List.mem_map.mp hy
          have hqgs : q ∈ gs := hperm.symm.subset hq
          exact hqy ▸ ((wfJ_obj gs).mp hw).2 q hqgs
      have hfsm : fs.map (fun p => (p.1, canonJ p.2)) = gs'.map (fun p => (p.1, canonJ p.2)) :=
        map_pair_eq fs gs' hkeys hvmap
      have hgperm : (fs.map (fun p => (p.1, canonJ p.2))).Perm
          (gs.map (fun p => (p.1, canonJ p.2))) := by
        have h1 := hperm.map (fun p => (p.1, canonJ p.2))
        rw [← hfsm] at h1
        exact h1.symm
      have hsorteq : sortFields (fs.map (fun p => (p.1, canonJ p.2)))
          = sortFields (gs.map (fun p => (p.1, canonJ p.2))) := by
        apply sorted_nodup_perm_eq
        · exact (sortFields_perm _).trans
            (hgperm.trans (sortFields_perm (gs.map (fun p => (p.1, canonJ p.2)))).symm)
        · exact sortFields_sorted _
        · exact sortFields_sorted _
        · have hk1 : ((sortFields (fs.map (fun p => (p.1, canonJ p.2)))).map Prod.fst).Perm
              ((fs.map (fun p => (p.1, canonJ p.2))).map Prod.fst) :=
            (sortFields_perm _).map Prod.fst
          have hnd : (fs.map Prod.fst).Nodup := ((wfJ_obj fs).mp hv).1
          exact hk1.nodup_iff.mpr (by rw [map_fst_pair]; exact hnd)
      rw [hsorteq]

theorem exists_perm_map (f : (String × JVal) → (String × JVal)) :
    ∀ (l₁ l₂ : List (String × JVal)), (l₁.map f).Perm (l₂.map f) →
      ∃ l₂', l₂.Perm l₂' ∧ l₂'.map f = l₁.map f := by
  intro l₁
  induction l₁ with
  | nil =>
    intro l₂ hp
    have h0 : l₂.map f = [] := hp.nil_eq.symm
    have h1 : l₂ = [] := by simpa using h0
    exact ⟨[], by rw [h1], rfl⟩
  | cons a t₁ ih =>
    intro l₂ hp
    have hmem : f a ∈ l₂.map f := hp.subset (by simp)
    obtain ⟨b, hb, hfb⟩ := List.mem_map.mp hmem
    obtain ⟨u, w', hl2⟩ := List.append_of_mem hb
    have hperm2 : l₂.Perm (b :: (u ++ w')) := by
      rw [hl2]
      exact List.perm_middle
    have hmp : (f a :: t₁.map f).Perm (f b :: (u ++ w').map f) := by
      have hc := hp.trans (hperm2.map f)
      simpa using hc
    rw [hfb] at hmp
    have hmp2 : (t₁.map f).Perm ((u ++ w').map f) := hmp.cons_inv
    obtain ⟨w2, hw2p, hw2m⟩ := ih (u ++ w') hmp2
    refine ⟨b :: w2, hperm2.trans (hw2p.cons b), ?_⟩
    simp only [List.map_cons, hfb, hw2m]

theorem map_canon_forall2 : ∀ (xs ys : List JVal),
    xs.map canonJ = ys.map canonJ →
    (∀ x ∈ xs, ∀ y, canonJ x = canonJ y → wfJ x = true → wfJ y = true → EquivJ x y) →
    (∀ x ∈ xs, wfJ x = true) → (∀ y ∈ ys, wfJ y = true) →
    List.Forall₂ EquivJ xs ys := by
  intro xs
  induction xs with
  | nil =>
    intro ys h _ _ _
    cases ys with
    | nil => exact List.Forall₂.nil
    | cons y ys => simp at h
  | cons x xs ih =>
    intro ys h hrec hwx hwy
    cases ys with
    | nil => simp at h
    | cons y ys =>
      simp only [List.map_cons, List.cons.injEq] at h
      exact List.Forall₂.cons
        (hrec x (List.mem_cons_self x xs) y h.1 (hwx x (List.mem_cons_self x xs))
          (hwy y (List.mem_cons_self y ys)))
        (ih ys h.2 (fun a ha y' hy' h1 h2 => hrec a (List.mem_cons_of_mem x ha) y' hy' h1 h2)
          (fun a ha => hwx a (List.mem_cons_of_mem x ha))
          (fun b hb => hwy b (List.mem_cons_of_mem y hb)))

theorem canon_equiv_aux : ∀ n : Nat, ∀ v w : JVal, sizeJ v ≤ n → canonJ v = canonJ w →
    wfJ v = true → wfJ w = true → EquivJ v w := by
  intro n
  induction n using Nat.strong_induction_on with
  | _ n ih =>
    intro v w hsz h hv hw
    cases v with
    | null =>
      cases w with
      | null =>
        exact EquivJ.null
      | bool b2 =>
        rw [canonJ_null, canonJ_bool] at h
        exact JVal.noConfusion h
      | int m2 =>
        rw [canonJ_null, canonJ_int] at h
        exact JVal.noConfusion h
      | str s2 =>
        rw [canonJ_null, canonJ_str] at h
        exact JVal.noConfusion h
      | arr ys =>
        rw [canonJ_null, canonJ_arr] at h
        exact JVal.noConfusion h
      | obj gs =>
        rw [canonJ_null, canonJ_obj] at h
        exact JVal.noConfusion h
    | bool b =>
      cases w with
      | null =>
        rw [canonJ_bool, canonJ_null] at h
        exact JVal.noConfusion h
      | bool b2 =>
        rw [canonJ_bool, canonJ_bool] at h
        injection h with hb
        rw [hb]
        exact EquivJ.bool b2
      | int m2 =>
        rw [canonJ_bool, canonJ_int] at h
        exact JVal.noConfusion h
      | str s2 =>
        rw [canonJ_bool, canonJ_str] at h
        exact JVal.noConfusion h
      | arr ys =>
        rw [canonJ_bool, canonJ_arr] at h
        exact JVal.noConfusion h
      | obj gs =>
        rw [canonJ_bool, canonJ_obj] at h
        exact JVal.noConfusion h
    | int m =>
      cases w with
      | null =>
        rw [canonJ_int, canonJ_null] at h
        exact JVal.noConfusion h
      | bool b2 =>
        rw [canonJ_int, canonJ_bool] at h
        exact JVal.noConfusion h
      | int m2 =>
        rw [canonJ_int, canonJ_int] at h
        injection h with hb
        rw [hb]
        exact EquivJ.int m2
      | str s2 =>
        rw [canonJ_int, canonJ_str] at h
        exact JVal.noConfusion h
      | arr ys =>
        rw [canonJ_int, canonJ_arr] at h
        exact JVal.noConfusion h
      | obj gs =>
        rw [canonJ_int, canonJ_obj] at h
        exact JVal.noConfusion h
    | str s =>
      cases w with
      | null =>
        rw [canonJ_str, canonJ_null] at h
        exact JVal.noConfusion h
      | bool b2 =>
        rw [canonJ_str, canonJ_bool] at h
        exact JVal.noConfusion h
      | int m2 =>
        rw [canonJ_str, canonJ_int] at h
        exact JVal.noConfusion h
      | str s2 =>
        rw [canonJ_str, canonJ_str] at h
        injection h with hb
        rw [hb]
        exact EquivJ.str s2
      | arr ys =>
        rw [canonJ_str, canonJ_arr] at h
        exact JVal.noConfusion h
      | obj gs =>
        rw [canonJ_str, canonJ_obj] at h
        exact JVal.noConfusion h
    | arr xs =>
      cases w with
      | null =>
        rw [canonJ_arr, canonJ_null] at h
        exact JVal.noConfusion h
      | bool b2 =>
        rw [canonJ_arr, canonJ_bool] at h
        exact JVal.noConfusion h
      | int m2 =>
        rw [canonJ_arr, canonJ_int] at h
        exact JVal.noConfusion h
      | str s2 =>
        rw [canonJ_arr, canonJ_str] at h
        exact JVal.noConfusion h
      | arr ys =>
        rw [canonJ_arr, canonJ_arr] at h
        injection h with hmap
        refine EquivJ.arr (map_canon_forall2 xs ys hmap ?_ ((wfJ_arr xs).mp hv)
          ((wfJ_arr ys).mp hw))
        intro x hx y hy h1 h2
        exact ih (sizeJ x) (lt_of_lt_of_le (sizeJ_lt_arr hx) hsz) x y le_rfl hy h1 h2
      | obj gs =>
        rw [canonJ_arr, canonJ_obj] at h
        exact JVal.noConfusion h
    | obj fs =>
      cases w with
      | null =>
        rw [canonJ_obj, canonJ_null] at h
        exact JVal.noConfusion h
      | bool b2 =>
        rw [canonJ_obj, canonJ_bool] at h
        exact JVal.noConfusion h
      | int m2 =>
        rw [canonJ_obj, canonJ_int] at h
        exact JVal.noConfusion h
      | str s2 =>
        rw [canonJ_obj, canonJ_str] at h
        exact JVal.noConfusion h
      | arr ys =>
        rw [canonJ_obj, canonJ_arr] at h
        exact JVal.noConfusion h
      | obj gs =>
        rw [canonJ_obj, canonJ_obj] at h
        injection h with hsort
        have h1 := sortFields_perm (fs.map (fun p => (p.1, canonJ p.2)))
        rw [hsort] at h1
        have hperm : (fs.map (fun p => (p.1, canonJ p.2))).Perm
            (gs.map (fun p => (p.1, canonJ p.2))) :=
          h1.symm.trans (sortFields_perm (gs.map (fun p => (p.1, canonJ p.2))))
        obtain ⟨gs', hgsp, hgsm⟩ := exists_perm_map (fun p => (p.1, canonJ p.2)) fs gs hperm
        have hkeys : fs.map Prod.fst = gs'.map Prod.fst := by
          have hc := congrArg (List.map Prod.fst) hgsm
          rw [map_fst_pair, map_fst_pair] at hc
          exact hc.symm
        have hvc : (fs.map Prod.snd).map canonJ = (gs'.map Prod.snd).map canonJ := by
          have hc := congrArg (List.map Prod.snd) hgsm
          rw [map_snd_pair, map_snd_pair] at hc
          exact hc.symm
        refine EquivJ.obj gs' hgsp hkeys ?_
        apply map_canon_forall2 _ _ hvc
        · intro x hx y hy h1 h2
          obtain ⟨p, hp, hpx⟩ := List.mem_map.mp hx
          have hlt : sizeJ x < sizeJ (.obj fs) := hpx ▸ sizeJ_lt_obj hp
          exact ih (sizeJ x) (lt_of_lt_of_le hlt hsz) x y le_rfl hy h1 h2
        · intro x hx
          obtain ⟨p, hp, hpx⟩ := List.mem_map.mp hx
          exact hpx ▸ ((wfJ_obj fs).mp hv).2 p hp
        · intro y hy
          obtain ⟨q, hq, hqy⟩ := List.mem_map.mp hy
          have hqgs : q ∈ gs := hgsp.symm.subset hq
          exact hqy ▸ ((wfJ_obj gs).mp hw).2 q hqgs

theorem wfJ_null : wfJ .null = true := by simp [wfJ]

theorem wfJ_int (n : Int) : wfJ (.int n) = true := by simp [wfJ]

/-- C5: for well-formed parameter mappings (no duplicate keys at any level),
`_key_str` produces the same canonical fingerprint string exactly when the two
mappings carry identical key/value pairs (including nested mappings)
regardless of insertion order — so equivalent mappings share the digest and
cache entry, and non-equivalent mappings get distinct canonical strings. -/
theorem C5_canonicalization (v w : JVal) (hv : wfJ v = true) (hw : wfJ w = true) :
    (keyStr v = keyStr w ↔ EquivJ v w) ∧
    (EquivJ v w → digest (keyStr v) = digest (keyStr w)) := by
  constructor
  · rw [keyStr_eq_iff_canon]
    constructor
    · intro h
      exact canon_equiv_aux (sizeJ v) v w le_rfl h hv hw
    · intro h
      exact equiv_canon_aux (sizeJ v) v w le_rfl h hv hw
  · intro h
    rw [(keyStr_eq_iff_canon v w).mpr (equiv_canon_aux (sizeJ v) v w le_rfl h hv hw)]

theorem C5_canonicalization_witness :
    wfJ (.obj [("b", .null), ("a", .int 1)]) = true ∧
    wfJ (.obj [("a", .int 1), ("b", .null)]) = true ∧
    ((keyStr (.obj [("b", .null), ("a", .int 1)]) = keyStr (.obj [("a", .int 1), ("b", .null)]) ↔
        EquivJ (.obj [("b", .null), ("a", .int 1)]) (.obj [("a", .int 1), ("b", .null)])) ∧
      (EquivJ (.obj [("b", .null), ("a", .int 1)]) (.obj [("a", .int 1), ("b", .null)]) →
        digest (keyStr (.obj [("b", .null), ("a", .int 1)]))
          = digest (keyStr (.obj [("a", .int 1), ("b", .null)])))) := by
  have hv : wfJ (JVal.obj [("b", .null), ("a", .int 1)]) = true := by
    refine (wfJ_obj _).mpr ⟨by decide, ?_⟩
    intro p hp
    simp only [List.mem_cons, List.not_mem_nil, or_false] at hp
    rcases hp with h | h <;> rw [h]
    · exact wfJ_null
    · exact wfJ_int 1
  have hw : wfJ (JVal.obj [("a", .int 1), ("b", .null)]) = true := by
    refine (wfJ_obj _).mpr ⟨by decide, ?_⟩
    intro p hp
    simp only [List.mem_cons, List.not_mem_nil, or_false] at hp
    rcases hp with h | h <;> rw [h]
    · exact wfJ_int 1
    · exact wfJ_null
  exact ⟨hv, hw, C5_canonicalization _ _ hv hw⟩

theorem alookup_mem {α : Type} {k : String} {l : List (String × α)} {v : α}
    (h : alookup k l = some v) : (k, v) ∈ l := by
  induction l with
  | nil => exact Option.noConfusion h
  | cons p rest ih =>
    obtain ⟨e, w⟩ := p
    by_cases he : e = k
    · subst he
      have h' : w = v := by
        simpa [alookup] using h
      subst h'
      exact List.mem_cons_self _ _
    · simp only [alookup, if_neg he] at h
      exact List.mem_cons_of_mem _ (ih h)

theorem put_lookup_self (l : LRU) (k : String) (fid : Option String) (d : Option Bytes)
    (e : Time) (v : L1Val) (h : alookup k ((l.put k fid d e).od) = some v) :
    v = ⟨fid, d, e, (d.map List.length).getD 0⟩ := by
  unfold LRU.put at h
  dsimp only at h
  cases halo : alookup k l.od with
  | some old =>
    rw [halo] at h
    have hnone : alookup k (aremove k l.od) = none := alookup_aremove_self k l.od
    have hsuf := evictLoop_suffix l.max_bytes
      (aremove k l.od ++ [(k, ⟨fid, d, e, (d.map List.length).getD 0⟩)])
      (l.current_bytes - (old.size_bytes : Int) + (((d.map List.length).getD 0 : Nat) : Int))
    have hmem := hsuf.subset (alookup_mem h)
    rcases List.mem_append.mp hmem with h1 | h2
    · exact absurd (List.mem_map_of_mem Prod.fst h1) (by simpa using alookup_eq_none.mp hnone)
    · simpa using ((List.mem_singleton.mp h2))
  | none =>
    rw [halo] at h
    have hsuf := evictLoop_suffix l.max_bytes
      (l.od ++ [(k, ⟨fid, d, e, (d.map List.length).getD 0⟩)])
      (l.current_bytes + (((d.map List.length).getD 0 : Nat) : Int))
    have hmem := hsuf.subset (alookup_mem h)
    rcases List.mem_append.mp hmem with h1 | h2
    · exact absurd (List.mem_map_of_mem Prod.fst h1) (by simpa using alookup_eq_none.mp halo)
    · simpa using ((List.mem_singleton.mp h2))

theorem outerLookup_empty (cap : Nat) (τ : Time) (k : String) :
    outerLookup (CacheState.empty cap) τ k = (none, CacheState.empty cap) := rfl

theorem innerLookup_empty (cap : Nat) (τ : Time) (k : String) :
    innerLookup (CacheState.empty cap) τ k = (none, CacheState.empty cap) := rfl

theorem innerLookup_good {k : String} {τ ttl : Time} {b : Bytes} {st : CacheState}
    (httl : 0 < ttl) (hg : goodSt k τ ttl b st) :
    ∃ r st', innerLookup st τ k = (some r, st') ∧ goodRes b r ∧ goodSt k τ ttl b st' := by
  obtain ⟨hb, ⟨m, hm, hexp, hfid⟩, hl1⟩ := hg
  have hfresh : isFresh τ (τ + ttl) = true := by
    simp only [isFresh, decide_eq_true_eq]
    linarith
  cases hv : alookup k st.l1.od with
  | some v =>
    obtain ⟨hvf, hvd, hve⟩ := hl1 v hv
    obtain ⟨vf, vd, ve, vs⟩ := v
    simp only at hvf hvd hve
    subst hvf hvd hve
    have hl1c := l1Check_hit_data st τ k b (τ + ttl) vs hv hfresh
    refine ⟨⟨none, some b, none⟩,
      ⟨⟨st.l1.max_bytes, st.l1.current_bytes,
        aremove k st.l1.od ++ [(k, ⟨none, some b, τ + ttl, vs⟩)]⟩, st.blobs, st.metas⟩,
      ?_, ⟨rfl, rfl⟩, ?_⟩
    · unfold innerLookup
      rw [hl1c]
    · refine ⟨hb, ⟨m, hm, hexp, hfid⟩, ?_⟩
      intro w hw
      rw [alookup_append_none _ (alookup_aremove_self k st.l1.od)] at hw
      have hww : (⟨none, some b, τ + ttl, vs⟩ : L1Val) = w := by
        simpa [alookup] using hw
      subst hww
      exact ⟨rfl, rfl, rfl⟩
  | none =>
    have hl1c := l1Check_none st τ k hv
    have hfresh' : isFresh τ (m.expiry_ts.getD 0) = true := by
      rw [hexp]
      exact hfresh
    have ht : truthyStr m.file_id = false := by rw [hfid]; rfl
    have h2 := l2CheckInner_hit_data st τ k b m hb hm hfresh' ht
    refine ⟨⟨none, some b, some k⟩,
      ⟨st.l1.put k none (some b) (m.expiry_ts.getD 0), st.blobs, st.metas⟩,
      ?_, ⟨rfl, rfl⟩, ?_⟩
    · unfold innerLookup
      rw [hl1c]
      exact h2
    · refine ⟨hb, ⟨m, hm, hexp, hfid⟩, ?_⟩
      intro w hw
      have := put_lookup_self _ _ _ _ _ _ hw
      subst this
      rw [hexp]
      exact ⟨rfl, rfl, rfl⟩

theorem outerLookup_good {k : String} {τ ttl : Time} {b : Bytes} {st : CacheState}
    (httl : 0 < ttl) (hg : goodSt k τ ttl b st) :
    ∃ r st', outerLookup st τ k = (some r, st') ∧ goodRes b r ∧ goodSt k τ ttl b st' := by
  obtain ⟨hb, ⟨m, hm, hexp, hfid⟩, hl1⟩ := hg
  have hfresh : isFresh τ (τ + ttl) = true := by
    simp only [isFresh, decide_eq_true_eq]
    linarith
  cases hv : alookup k st.l1.od with
  | some v =>
    obtain ⟨hvf, hvd, hve⟩ := hl1 v hv
    obtain ⟨vf, vd, ve, vs⟩ := v
    simp only at hvf hvd hve
    subst hvf hvd hve
    have hl1c := l1Check_hit_data st τ k b (τ + ttl) vs hv hfresh
    refine ⟨⟨none, some b, none⟩,
      ⟨⟨st.l1.max_bytes, st.l1.current_bytes,
        aremove k st.l1.od ++ [(k, ⟨none, some b, τ + ttl, vs⟩)]⟩, st.blobs, st.metas⟩,
      ?_, ⟨rfl, rfl⟩, ?_⟩
    · unfold outerLookup
      rw [hl1c]
    · refine ⟨hb, ⟨m, hm, hexp, hfid⟩, ?_⟩
      intro w hw
      rw [alookup_append_none _ (alookup_aremove_self k st.l1.od)] at hw
      have hww : (⟨none, some b, τ + ttl, vs⟩ : L1Val) = w := by
        simpa [alookup] using hw
      subst hww
      exact ⟨rfl, rfl, rfl⟩
  | none =>
    have hl1c := l1Check_none st τ k hv
    have hfresh' : isFresh τ (m.expiry_ts.getD 0) = true := by
      rw [hexp]
      exact hfresh
    have ht : truthyStr m.file_id = false := by rw [hfid]; rfl
    have h2 := l2CheckOuter_hit_data st τ k b m hb hm hfresh' ht
    refine ⟨⟨none, some b, some k⟩,
      ⟨st.l1.put k none (some b) (m.expiry_ts.getD 0), st.blobs,
        ainsert k ⟨m.expiry_ts, m.file_id, m.byte_len, m.created_ts, some τ⟩ st.metas⟩,
      ?_, ⟨rfl, rfl⟩, ?_⟩
    · unfold outerLookup
      rw [hl1c]
      exact h2
    · refine ⟨hb,
        ⟨⟨m.expiry_ts, m.file_id, m.byte_len, m.created_ts, some τ⟩,
          alookup_ainsert_self _ _ _, by simpa using hexp, by simpa using hfid⟩, ?_⟩
      intro w hw
      have := put_lookup_self _ _ _ _ _ _ hw
      subst this
      rw [hexp]
      exact ⟨rfl, rfl, rfl⟩

theorem commit_goodSt (k : String) (τ ttl : Time) (b : Bytes) (st : CacheState) :
    goodSt k τ ttl b (commitProduce st τ k ttl b).2 := by
  unfold commitProduce
  refine ⟨alookup_ainsert_self _ _ _,
    ⟨⟨some (τ + ttl), none, some b.length, some τ, some τ⟩,
      alookup_ainsert_self _ _ _, rfl, rfl⟩, ?_⟩
  intro w hw
  have := put_lookup_self _ _ _ _ _ _ hw
  subst this
  exact ⟨rfl, rfl, rfl⟩

theorem getElem?_lt {l : List TaskPC} {i : Nat} {t : TaskPC} (h : l[i]? = some t) :
    i < l.length := by
  by_contra hc
  rw [List.getElem?_eq_none (by omega)] at h
  exact Option.noConfusion h

theorem set_getElem?_self {l : List TaskPC} {i : Nat} {t : TaskPC} (t' : TaskPC)
    (h : l[i]? = some t) : (l.set i t')[i]? = some t' := by
  simp [List.getElem?_set, getElem?_lt h]

theorem set_getElem?_ne (l : List TaskPC) {i j : Nat} (t' : TaskPC) (h : i ≠ j) :
    (l.set i t')[j]? = l[j]? := List.getElem?_set_ne h

theorem ne_of_tasks {l : List TaskPC} {i j : Nat} {t u : TaskPC}
    (hi : l[i]? = some t) (hj : l[j]? = some u) (htu : t ≠ u) : i ≠ j := by
  intro he
  subst he
  rw [hi] at hj
  exact htu (Option.some.inj hj)

theorem InvC1_init (k : String) (τ ttl : Time) (b : Bytes) (cap n : Nat) :
    InvC1 k τ ttl b cap n (initConfig n cap) := by
  refine ⟨by simp [initConfig], by simp [initConfig], by simp [initConfig],
    fun _ => rfl, Or.inl ⟨rfl, rfl, rfl, ?_⟩⟩
  intro i t h
  simp only [initConfig, List.getElem?_replicate] at h
  split at h
  · exact (Option.some.inj h).symm
  · exact Option.noConfusion h

theorem commit_res (st : CacheState) (τ : Time) (k : String) (ttl : Time) (b : Bytes) :
    (commitProduce st τ k ttl b).1 = ⟨none, some b, some k⟩ := rfl

theorem InvC1_step (k : String) (τ ttl : Time) (b : Bytes) (cap n : Nat)
    (httl : 0 < ttl) {c c' : Config} (hinv : InvC1 k τ ttl b cap n c)
    (hs : Step k τ ttl b c c') : InvC1 k τ ttl b cap n c' := by
  unfold InvC1 at hinv
  obtain ⟨hlen, hwait, hnd, hlockw, hphase⟩ := hinv
  cases hs with
  | hitOuter i r st' hti hout =>
    rcases hphase with ⟨hp0, hst, hlock, htasks⟩ | ⟨hp1, hst, iB, hlockB, htB, hothers⟩ |
      ⟨hp1, hgood, hlockC, htC, hgr⟩
    · rw [hst, outerLookup_empty] at hout
      simp at hout
    · rw [hst, outerLookup_empty] at hout
      simp at hout
    · obtain ⟨r1, st1, heq, hr1, hst1⟩ := outerLookup_good httl hgood
      rw [heq] at hout
      obtain ⟨hrr, hss⟩ : r1 = r ∧ st1 = st' := by simpa using hout
      subst hrr
      subst hss
      refine ⟨by simpa using hlen, ?_, hnd, hlockw, Or.inr (Or.inr ⟨hp1, hst1, ?_, ?_, ?_⟩)⟩
      · intro j hj
        have hw := hwait j hj
        rw [set_getElem?_ne _ _ (ne_of_tasks hti hw (fun h => TaskPC.noConfusion h))]
        exact hw
      · intro i' hl
        have hgi := hlockC i' hl
        rw [set_getElem?_ne _ _ (ne_of_tasks hti hgi (fun h => TaskPC.noConfusion h))]
        exact hgi
      · intro j t hjt
        by_cases hji : j = i
        · subst hji
          rw [set_getElem?_self _ hti] at hjt
          exact Or.inr (Or.inr (Or.inr ⟨r1, (Option.some.inj hjt).symm, hr1⟩))
        · rw [set_getElem?_ne _ _ (fun he => hji he.symm)] at hjt
          exact htC j t hjt
      · intro j hj
        by_cases hji : j = i
        · subst hji
          rw [set_getElem?_self _ hti] at hj
          exact absurd (Option.some.inj hj) (fun h => TaskPC.noConfusion h)
        · rw [set_getElem?_ne _ _ (fun he => hji he.symm)] at hj
          exact hgr j hj
  | acquireHit i st₁ r st₂ hti hlck hout hin =>
    rcases hphase with ⟨hp0, hst, hlock, htasks⟩ | ⟨hp1, hst, iB, hlockB, htB, hothers⟩ |
      ⟨hp1, hgood, hlockC, htC, hgr⟩
    · rw [hst, outerLookup_empty] at hout
      have hst1 : CacheState.empty cap = st₁ := by simpa using hout
      rw [← hst1, innerLookup_empty] at hin
      simp at hin
    · rw [hlockB] at hlck
      exact Option.noConfusion hlck
    · obtain ⟨r1, st1, heq, hr1, hst1⟩ := outerLookup_good httl hgood
      rw [heq] at hout
      simp at hout
  | acquireProduce i st₁ st₂ hti hlck hout hin =>
    rcases hphase with ⟨hp0, hst, hlock, htasks⟩ | ⟨hp1, hst, iB, hlockB, htB, hothers⟩ |
      ⟨hp1, hgood, hlockC, htC, hgr⟩
    · rw [hst, outerLookup_empty] at hout
      have hst1 : CacheState.empty cap = st₁ := by simpa using hout
      rw [← hst1, innerLookup_empty] at hin
      have hst2 : CacheState.empty cap = st₂ := by simpa using hin
      have hwaiters : c.waiters = [] := hlockw hlock
      refine ⟨by simpa using hlen, ?_, ?_, ?_,
        Or.inr (Or.inl ⟨by simp [hp0], hst2.symm, i, rfl, ?_, ?_⟩)⟩
      · intro j hj
        rw [hwaiters] at hj
        exact absurd hj (List.not_mem_nil j)
      · rw [hwaiters]
        exact List.nodup_nil
      · intro h
        exact absurd h (fun hh => Option.noConfusion hh)
      · exact set_getElem?_self _ hti
      · intro j t hjt hji
        rw [set_getElem?_ne _ _ (fun he => hji he.symm)] at hjt
        exact Or.inl (htasks j t hjt)
    · rw [hlockB] at hlck
      exact Option.noConfusion hlck
    · obtain ⟨r1, st1, heq, hr1, hst1⟩ := outerLookup_good httl hgood
      rw [heq] at hout
      simp at hout
  | enqueue i j0 st₁ hti hlck hout =>
    rcases hphase with ⟨hp0, hst, hlock, htasks⟩ | ⟨hp1, hst, iB, hlockB, htB, hothers⟩ |
      ⟨hp1, hgood, hlockC, htC, hgr⟩
    · rw [hlock] at hlck
      exact Option.noConfusion hlck
    · rw [hst, outerLookup_empty] at hout
      have hst1 : CacheState.empty cap = st₁ := by simpa using hout
      have hinotw : i ∉ c.waiters :=
        fun hmem => (ne_of_tasks hti (hwait i hmem) (fun h => TaskPC.noConfusion h)) rfl
      refine ⟨by simpa using hlen, ?_, ?_, ?_,
        Or.inr (Or.inl ⟨hp1, hst1.symm, iB, hlockB, ?_, ?_⟩)⟩
      · intro j hj
        rcases List.mem_append.mp hj with hjo | hjn
        · have hw := hwait j hjo
          rw [set_getElem?_ne _ _ (ne_of_tasks hti hw (fun h => TaskPC.noConfusion h))]
          exact hw
        · have hji : j = i := by simpa using hjn
          subst hji
          exact set_getElem?_self _ hti
      · rw [List.nodup_append]
        refine ⟨hnd, List.nodup_singleton i, ?_⟩
        intro a ha hai
        have : a = i := by simpa using hai
        subst this
        exact hinotw ha
      · intro h
        rw [hlockB] at h
        exact Option.noConfusion h
      · have hiB : iB ≠ i := ne_of_tasks htB hti (fun h => TaskPC.noConfusion h)
        rw [set_getElem?_ne _ _ (fun he => hiB he.symm)]
        exact htB
      · intro j t hjt hji
        by_cases hjii : j = i
        · subst hjii
          rw [set_getElem?_self _ hti] at hjt
          exact Or.inr (Option.some.inj hjt).symm
        · rw [set_getElem?_ne _ _ (fun he => hjii he.symm)] at hjt
          exact hothers j t hjt hji
    · obtain ⟨r1, st1, heq, hr1, hst1⟩ := outerLookup_good httl hgood
      rw [heq] at hout
      simp at hout
  | commit i hti hlck =>
    rcases hphase with ⟨hp0, hst, hlock, htasks⟩ | ⟨hp1, hst, iB, hlockB, htB, hothers⟩ |
      ⟨hp1, hgood, hlockC, htC, hgr⟩
    · exact absurd (htasks i _ hti) (fun h => TaskPC.noConfusion h)
    · have hiiB : i = iB := Option.some.inj (hlck.symm.trans hlockB)
      subst hiiB
      have hrC : goodRes b (commitProduce c.st τ k ttl b).1 := ⟨rfl, rfl⟩
      cases hw : c.waiters with
      | nil =>
        simp only [releaseLock]
        refine ⟨by simpa using hlen, by simp, List.nodup_nil, fun _ => rfl,
          Or.inr (Or.inr ⟨hp1, commit_goodSt k τ ttl b c.st, ?_, ?_, ?_⟩)⟩
        · intro i' h
          exact absurd h (fun hh => Option.noConfusion hh)
        · intro j t hjt
          by_cases hji : j = i
          · subst hji
            rw [set_getElem?_self _ hti] at hjt
            exact Or.inr (Or.inr (Or.inr ⟨_, (Option.some.inj hjt).symm, hrC⟩))
          · rw [set_getElem?_ne _ _ (fun he => hji he.symm)] at hjt
            rcases hothers j t hjt hji with h | h
            · exact Or.inl h
            · exact Or.inr (Or.inl h)
        · intro j hj
          by_cases hji : j = i
          · subst hji
            rw [set_getElem?_self _ hti] at hj
            exact absurd (Option.some.inj hj) (fun h => TaskPC.noConfusion h)
          · rw [set_getElem?_ne _ _ (fun he => hji he.symm)] at hj
            rcases hothers j _ hj hji with h | h
            · exact absurd h (fun hh => TaskPC.noConfusion hh)
            · exact absurd h (fun hh => TaskPC.noConfusion hh)
      | cons j0 rest =>
        simp only [releaseLock]
        have hj0w : c.tasks[j0]? = some .waiting := hwait j0 (by rw [hw]; exact List.mem_cons_self _ _)
        have hj0i : j0 ≠ i := ne_of_tasks hj0w hti (fun h => TaskPC.noConfusion h)
        rw [hw] at hnd
        have hndc := List.nodup_cons.mp hnd
        refine ⟨by simpa using hlen, ?_, hndc.2, ?_,
          Or.inr (Or.inr ⟨hp1, commit_goodSt k τ ttl b c.st, ?_, ?_, ?_⟩)⟩
        · intro j hj
          have hjw : c.tasks[j]? = some .waiting :=
            hwait j (by rw [hw]; exact List.mem_cons_of_mem _ hj)
          have hjj0 : j ≠ j0 := fun he => hndc.1 (he ▸ hj)
          have hji : j ≠ i := ne_of_tasks hjw hti (fun h => TaskPC.noConfusion h)
          rw [set_getElem?_ne _ _ (fun he => hjj0 he.symm),
            set_getElem?_ne _ _ (fun he => hji he.symm)]
          exact hjw
        · intro h
          exact absurd h (fun hh => Option.noConfusion hh)
        · intro i' h
          have hij : i' = j0 := (Option.some.inj h).symm
          subst hij
          have ht1 : (c.tasks.set i (.done (commitProduce c.st τ k ttl b).1))[i']? =
              some .waiting := by
            rw [set_getElem?_ne _ _ (fun he => hj0i he.symm)]
            exact hj0w
          exact set_getElem?_self _ ht1
        · intro j t hjt
          by_cases hjj0 : j = j0
          · subst hjj0
            have ht1 : (c.tasks.set i (.done (commitProduce c.st τ k ttl b).1))[j]? =
                some .waiting := by
              rw [set_getElem?_ne _ _ (fun he => hj0i he.symm)]
              exact hj0w
            rw [set_getElem?_self _ ht1] at hjt
            exact Or.inr (Or.inr (Or.inl (Option.some.inj hjt).symm))
          · rw [set_getElem?_ne _ _ (fun he => hjj0 he.symm)] at hjt
            by_cases hji : j = i
            · subst hji
              rw [set_getElem?_self _ hti] at hjt
              exact Or.inr (Or.inr (Or.inr ⟨_, (Option.some.inj hjt).symm, hrC⟩))
            · rw [set_getElem?_ne _ _ (fun he => hji he.symm)] at hjt
              rcases hothers j t hjt hji with h | h
              · exact Or.inl h
              · exact Or.inr (Or.inl h)
        · intro j hj
          by_cases hjj0 : j = j0
          · subst hjj0
            rfl
          · rw [set_getElem?_ne _ _ (fun he => hjj0 he.symm)] at hj
            by_cases hji : j = i
            · subst hji
              rw [set_getElem?_self _ hti] at hj
              exact absurd (Option.some.inj hj) (fun h => TaskPC.noConfusion h)
            · rw [set_getElem?_ne _ _ (fun he => hji he.symm)] at hj
              rcases hothers j _ hj hji with h | h
              · exact absurd h (fun hh => TaskPC.noConfusion hh)
              · exact absurd h (fun hh => TaskPC.noConfusion hh)
    · rcases htC i _ hti with h | h | h | ⟨r, h, -⟩ <;>
        exact absurd h (fun hh => TaskPC.noConfusion hh)
  | grantedHit i r st' hti hlck hin =>
    rcases hphase with ⟨hp0, hst, hlock, htasks⟩ | ⟨hp1, hst, iB, hlockB, htB, hothers⟩ |
      ⟨hp1, hgood, hlockC, htC, hgr⟩
    · exact absurd (htasks i _ hti) (fun h => TaskPC.noConfusion h)
    · have hiiB : i = iB := Option.some.inj (hlck.symm.trans hlockB)
      subst hiiB
      rw [hti] at htB
      exact absurd (Option.some.inj htB) (fun h => TaskPC.noConfusion h)
    · obtain ⟨r1, st1, heq, hr1, hst1⟩ := innerLookup_good httl hgood
      rw [heq] at hin
      obtain ⟨hrr, hss⟩ : r1 = r ∧ st1 = st' := by simpa using hin
      subst hrr
      subst hss
      cases hw : c.waiters with
      | nil =>
        simp only [releaseLock]
        refine ⟨by simpa using hlen, by simp, List.nodup_nil, fun _ => rfl,
          Or.inr (Or.inr ⟨hp1, hst1, ?_, ?_, ?_⟩)⟩
        · intro i' h
          exact absurd h (fun hh => Option.noConfusion hh)
        · intro j t hjt
          by_cases hji : j = i
          · subst hji
            rw [set_getElem?_self _ hti] at hjt
            exact Or.inr (Or.inr (Or.inr ⟨_, (Option.some.inj hjt).symm, hr1⟩))
          · rw [set_getElem?_ne _ _ (fun he => hji he.symm)] at hjt
            exact htC j t hjt
        · intro j hj
          by_cases hji : j = i
          · subst hji
            rw [set_getElem?_self _ hti] at hj
            exact absurd (Option.some.inj hj) (fun h => TaskPC.noConfusion h)
          · rw [set_getElem?_ne _ _ (fun he => hji he.symm)] at hj
            have := hgr j hj
            rw [hlck] at this
            exact absurd (Option.some.inj this).symm hji
      | cons j0 rest =>
        simp only [releaseLock]
        have hj0w : c.tasks[j0]? = some .waiting :=
          hwait j0 (by rw [hw]; exact List.mem_cons_self _ _)
        have hj0i : j0 ≠ i := ne_of_tasks hj0w hti (fun h => TaskPC.noConfusion h)
        rw [hw] at hnd
        have hndc := List.nodup_cons.mp hnd
        refine ⟨by simpa using hlen, ?_, hndc.2, ?_,
          Or.inr (Or.inr ⟨hp1, hst1, ?_, ?_, ?_⟩)⟩
        · intro j hj
          have hjw : c.tasks[j]? = some .waiting :=
            hwait j (by rw [hw]; exact List.mem_cons_of_mem _ hj)
          have hjj0 : j ≠ j0 := fun he => hndc.1 (he ▸ hj)
          have hji : j ≠ i := ne_of_tasks hjw hti (fun h => TaskPC.noConfusion h)
          rw [set_getElem?_ne _ _ (fun he => hjj0 he.symm),
            set_getElem?_ne _ _ (fun he => hji he.symm)]
          exact hjw
        · intro h
          exact absurd h (fun hh => Option.noConfusion hh)
        · intro i' h
          have hij : i' = j0 := (Option.some.inj h).symm
          subst hij
          have ht1 : (c.tasks.set i (.done r1))[i']? = some .waiting := by
            rw [set_getElem?_ne _ _ (fun he => hj0i he.symm)]
            exact hj0w
          exact set_getElem?_self _ ht1
        · intro j t hjt
          by_cases hjj0 : j = j0
          · subst hjj0
            have ht1 : (c.tasks.set i (.done r1))[j]? = some .waiting := by
              rw [set_getElem?_ne _ _ (fun he => hj0i he.symm)]
              exact hj0w
            rw [set_getElem?_self _ ht1] at hjt
            exact Or.inr (Or.inr (Or.inl (Option.some.inj hjt).symm))
          · rw [set_getElem?_ne _ _ (fun he => hjj0 he.symm)] at hjt
            by_cases hji : j = i
            · subst hji
              rw [set_getElem?_self _ hti] at hjt
              exact Or.inr (Or.inr (Or.inr ⟨_, (Option.some.inj hjt).symm, hr1⟩))
            · rw [set_getElem?_ne _ _ (fun he => hji he.symm)] at hjt
              exact htC j t hjt
        · intro j hj
          by_cases hjj0 : j = j0
          · subst hjj0
            rfl
          · rw [set_getElem?_ne _ _ (fun he => hjj0 he.symm)] at hj
            by_cases hji : j = i
            · subst hji
              rw [set_getElem?_self _ hti] at hj
              exact absurd (Option.some.inj hj) (fun h => TaskPC.noConfusion h)
            · rw [set_getElem?_ne _ _ (fun he => hji he.symm)] at hj
              have := hgr j hj
              rw [hlck] at this
              exact absurd (Option.some.inj this).symm hji
  | grantedProduce i st' hti hlck hin =>
    rcases hphase with ⟨hp0, hst, hlock, htasks⟩ | ⟨hp1, hst, iB, hlockB, htB, hothers⟩ |
      ⟨hp1, hgood, hlockC, htC, hgr⟩
    · exact absurd (htasks i _ hti) (fun h => TaskPC.noConfusion h)
    · have hiiB : i = iB := Option.some.inj (hlck.symm.trans hlockB)
      subst hiiB
      rw [hti] at htB
      exact absurd (Option.some.inj htB) (fun h => TaskPC.noConfusion h)
    · obtain ⟨r1, st1, heq, hr1, hst1⟩ := innerLookup_good httl hgood
      rw [heq] at hin
      simp at hin

theorem InvC1_reach (k : String) (τ ttl : Time) (b : Bytes) (cap n : Nat)
    (httl : 0 < ttl) {c : Config}
    (h : Reach k τ ttl b (initConfig n cap) c) : InvC1 k τ ttl b cap n c := by
  unfold Reach at h
  induction h with
  | refl => exact InvC1_init k τ ttl b cap n
  | tail hsteps hstep ih => exact InvC1_step k τ ttl b cap n httl ih hstep

/-- C1: singleflight.  In any scheduling of an N-task burst of
`get_or_produce` calls for one key on a cold cache (positive TTL), the
producer is invoked at most once — so at most one invocation is ever in
flight — and in any state where every task has returned (N > 0), the
producer was invoked exactly once and every task's result carries exactly
the producer's bytes (and no file id). -/
theorem C1_singleflight (n cap : Nat) (k : String) (τ ttl : Time) (b : Bytes)
    (httl : 0 < ttl) (c : Config)
    (hreach : Reach k τ ttl b (initConfig n cap) c) :
    c.pcount ≤ 1 ∧
    (allDone c = true → 0 < n →
      c.pcount = 1 ∧
        ∀ (i : Nat) (r : CacheResult), c.tasks[i]? = some (.done r) →
          r.data = some b ∧ r.file_id = none) := by
  have hinv := InvC1_reach k τ ttl b cap n httl hreach
  unfold InvC1 at hinv
  obtain ⟨hlen, hwait, hnd, hlockw, hphase⟩ := hinv
  constructor
  · rcases hphase with ⟨hp0, -, -, -⟩ | ⟨hp1, -, -⟩ | ⟨hp1, -, -, -, -⟩ <;> omega
  · intro hdone hn
    have halld : ∀ t ∈ c.tasks, isDone t = true :=
      List.all_eq_true.mp (by simpa [allDone] using hdone)
    rcases hphase with ⟨hp0, -, -, htasks⟩ | ⟨hp1, -, iB, -, htB, -⟩ |
      ⟨hp1, -, -, htC, -⟩
    · have hlt : 0 < c.tasks.length := hlen ▸ hn
      have ht0 : c.tasks[0]? = some c.tasks[0] := List.getElem?_eq_getElem hlt
      have hstart := htasks 0 _ ht0
      have := halld _ (List.getElem?_mem ht0)
      rw [hstart] at this
      simp [isDone] at this
    · have := halld _ (List.getElem?_mem htB)
      simp [isDone] at this
    · refine ⟨hp1, ?_⟩
      intro i r hir
      rcases htC i _ hir with h | h | h | ⟨r', h, hgr'⟩
      · exact absurd h (fun hh => TaskPC.noConfusion hh)
      · exact absurd h (fun hh => TaskPC.noConfusion hh)
      · exact absurd h (fun hh => TaskPC.noConfusion hh)
      · have hrr : r = r' := by injection h
        subst hrr
        exact ⟨hgr'.2, hgr'.1⟩

theorem C1_singleflight_witness :
    (0 : ℚ) < 1 ∧
    ((initConfig 2 100).pcount ≤ 1 ∧
      (allDone (initConfig 2 100) = true → 0 < 2 →
        (initConfig 2 100).pcount = 1 ∧
          ∀ (i : Nat) (r : CacheResult),
            (initConfig 2 100).tasks[i]? = some (.done r) →
              r.data = some [7] ∧ r.file_id = none)) :=
  ⟨by norm_num,
    C1_singleflight 2 100 "k" 0 1 [7] (by norm_num) (initConfig 2 100)
      Relation.ReflTransGen.refl⟩

/-- The burst semantics is not vacuous: a full two-task cold-start run exists
in which both tasks finish with the produced bytes after a single producer
invocation (task 0 produces; task 1 queues, is handed the lock and hits the
committed entry on its re-check). -/
theorem C1_run_exists :
    ∃ c : Config, Reach "k" 0 1 [7] (initConfig 2 100) c ∧ allDone c = true ∧
      c.pcount = 1 := by
  have hfresh : isFresh 0 (0 + 1 : ℚ) = true := by norm_num [isFresh]
  have h3 : l1Check (⟨⟨100, 1, [("k", ⟨none, some [7], 0 + 1, 1⟩)]⟩, [("k", [7])],
      [("k", ⟨some (0 + 1), none, some 1, some 0, some 0⟩)]⟩ : CacheState) 0 "k"
      = (some ⟨none, some [7], none⟩, (⟨⟨100, 1, [("k", ⟨none, some [7], 0 + 1, 1⟩)]⟩, [("k", [7])],
      [("k", ⟨some (0 + 1), none, some 1, some 0, some 0⟩)]⟩ : CacheState)) := by
    have hl := l1Check_hit_data (⟨⟨100, 1, [("k", ⟨none, some [7], 0 + 1, 1⟩)]⟩, [("k", [7])],
      [("k", ⟨some (0 + 1), none, some 1, some 0, some 0⟩)]⟩ : CacheState) 0 "k" [7] (0 + 1) 1 rfl hfresh
    exact hl
  have h4 : innerLookup (⟨⟨100, 1, [("k", ⟨none, some [7], 0 + 1, 1⟩)]⟩, [("k", [7])],
      [("k", ⟨some (0 + 1), none, some 1, some 0, some 0⟩)]⟩ : CacheState) 0 "k"
      = (some ⟨none, some [7], none⟩, (⟨⟨100, 1, [("k", ⟨none, some [7], 0 + 1, 1⟩)]⟩, [("k", [7])],
      [("k", ⟨some (0 + 1), none, some 1, some 0, some 0⟩)]⟩ : CacheState)) := by
    unfold innerLookup
    rw [h3]
  refine ⟨⟨(⟨⟨100, 1, [("k", ⟨none, some [7], 0 + 1, 1⟩)]⟩, [("k", [7])],
      [("k", ⟨some (0 + 1), none, some 1, some 0, some 0⟩)]⟩ : CacheState),
      none, [], [.done ⟨none, some [7], some "k"⟩, .done ⟨none, some [7], none⟩], 1⟩,
    ?_, rfl, rfl⟩
  exact Relation.ReflTransGen.tail
    (Relation.ReflTransGen.tail
      (Relation.ReflTransGen.tail
        (Relation.ReflTransGen.tail Relation.ReflTransGen.refl
          (Step.acquireProduce (initConfig 2 100) 0 (CacheState.empty 100)
            (CacheState.empty 100) rfl rfl rfl rfl))
        (Step.enqueue ⟨CacheState.empty 100, some 0, [], [.producing, .start], 1⟩ 1 0
          (CacheState.empty 100) rfl rfl rfl))
      (Step.commit ⟨CacheState.empty 100, some 0, [1], [.producing, .waiting], 1⟩ 0
        rfl rfl))
    (Step.grantedHit ⟨(⟨⟨100, 1, [("k", ⟨none, some [7], 0 + 1, 1⟩)]⟩, [("k", [7])],
      [("k", ⟨some (0 + 1), none, some 1, some 0, some 0⟩)]⟩ : CacheState),
        some 1, [], [.done ⟨none, some [7], some "k"⟩, .granted], 1⟩ 1
      ⟨none, some [7], none⟩ (⟨⟨100, 1, [("k", ⟨none, some [7], 0 + 1, 1⟩)]⟩, [("k", [7])],
      [("k", ⟨some (0 + 1), none, some 1, some 0, some 0⟩)]⟩ : CacheState) rfl rfl h4)

end Monbot
